import Mathlib

/-! The NURBS joint-curve library of `Core/NurbsCurve.h`

A shallow embedding of the curve evaluation code and the properties proved
about it.

Modelling conventions.

* `float` is modelled by the rationals `ℚ`: every theorem is a statement about
  the exact arithmetic the code describes.  The literals `0.0001f` and
  `0.00001f` are `1/10000` and `1/100000`.
* `int32` indices are modelled by `Int` (the `degrees` template constant, which
  the data model takes non-negative, by `Nat`).  No wrap-around is modelled:
  the embedding is exact for buffers of fewer than `2^31` elements.
* A `std::span` is a `List`; an access `Knots[i]` is `readAt Knots i`, which is
  `none` outside `[0, size)`.  An out-of-range access is undefined behaviour in
  the source; here it makes the enclosing function return `none`.
* The scratch buffers `Left`, `Right` and the weight buffer `N` (all of
  `degrees + 1` elements, indexed only inside `[0, degrees]`) are maps from
  index to value.
* `glm::vec3` is `ℚ × ℚ × ℚ` with componentwise addition and scaling.
-/

namespace Maths

/-- Three-component vector, `glm::vec3`. -/
abbrev vec3 : Type := ℚ × ℚ × ℚ

/-- Element access `xs[i]` of a span: `none` when `i` is outside `[0, size)`. -/
def readAt {α : Type} (xs : List α) (i : Int) : Option α :=
  if i < 0 then none else xs[i.toNat]?

/-- Element store `xs[i] = v` into a buffer: `none` when `i` is outside
`[0, size)`. -/
def writeAt {α : Type} (xs : List α) (i : Int) (v : α) : Option (List α) :=
  if i < 0 then none
  else if i.toNat < xs.length then some (xs.set i.toNat v) else none

/-- Function `std::clamp(v, lo, hi)`. -/
def clamp (v lo hi : ℚ) : ℚ :=
  if v < lo then lo else if hi < v then hi else v

/-- Loop of `FindSpan` (NurbsCurve.h lines 37-41): `k` iterations remain, the
loop variable is `i`.  The second knot is read only when the first comparison
holds, as `&&` does. -/
def PImplNurbsCurve.FindSpan.loop (Knots : List ℚ) (Alpha : ℚ) (SpanN : Int) :
    Nat → Int → Option Int
  | 0, _ => some SpanN
  | k + 1, i =>
    (readAt Knots i).bind fun a =>
      if Alpha ≥ a then
        (readAt Knots (i + 1)).bind fun b =>
          if Alpha ≤ b then some i
          else PImplNurbsCurve.FindSpan.loop Knots Alpha SpanN k (i + 1)
      else PImplNurbsCurve.FindSpan.loop Knots Alpha SpanN k (i + 1)

/-- Function `PImplNurbsCurve::FindSpan<degrees>` (NurbsCurve.h lines 29-44).
The loop runs for `i = Span0, ..., SpanN`, that is `SpanN - Span0 + 1` times
(no time when `SpanN < Span0`). -/
def PImplNurbsCurve.FindSpan (degrees : Nat) (Knots : List ℚ) (Alpha : ℚ) :
    Option Int :=
  let N : Int := (Knots.length : Int) - (degrees : Int) * 2
  let Span0 : Int := degrees
  let SpanN : Int := N - 1
  PImplNurbsCurve.FindSpan.loop Knots Alpha SpanN (SpanN - Span0 + 1).toNat Span0

/-- Inner loop of `BasisFunction` (NurbsCurve.h lines 67-76): `k` iterations
remain, the loop variable is `r`.  Returns the weight buffer and `Saved`. -/
def PImplNurbsCurve.BasisFunction.inner (Left Right : Nat → ℚ) (j : Nat) :
    Nat → Nat → ℚ → (Nat → ℚ) → (Nat → ℚ) × ℚ
  | 0, _, Saved, N => (N, Saved)
  | k + 1, r, Saved, N =>
    let Denum : ℚ := Right (r + 1) + Left (j - r)
    let Denum : ℚ := if |Denum| ≤ 1 / 10000 then 1 / 100000 else Denum
    let Temp : ℚ := N r / Denum
    PImplNurbsCurve.BasisFunction.inner Left Right j k (r + 1)
      (Left (j - r) * Temp) (Function.update N r (Saved + Right (r + 1) * Temp))

/-- The three buffers `BasisFunction` works on. -/
structure BasisBuffers where
  Left : Nat → ℚ
  Right : Nat → ℚ
  N : Nat → ℚ

/-- Outer loop of `BasisFunction` (NurbsCurve.h lines 61-79): `k` iterations
remain, the loop variable is `j`. -/
def PImplNurbsCurve.BasisFunction.outer (i : Int) (Knots : List ℚ) (Alpha : ℚ) :
    Nat → Nat → BasisBuffers → Option BasisBuffers
  | 0, _, B => some B
  | k + 1, j, B =>
    (readAt Knots (i + 1 - (j : Int))).bind fun a =>
      let Left := Function.update B.Left j (Alpha - a)
      (readAt Knots (i + (j : Int))).bind fun b =>
        let Right := Function.update B.Right j (b - Alpha)
        let res := PImplNurbsCurve.BasisFunction.inner Left Right j j 0 0 B.N
        PImplNurbsCurve.BasisFunction.outer i Knots Alpha k (j + 1)
          ⟨Left, Right, Function.update res.1 j res.2⟩

/-- Function `PImplNurbsCurve::BasisFunction<degrees>` (NurbsCurve.h lines
53-80).  `N` is the content of the output buffer on entry; the result is its
content on return.  The scratch arrays start out as zero: each of their
entries is written before it is read. -/
def PImplNurbsCurve.BasisFunction (degrees : Nat) (i : Int) (Knots : List ℚ)
    (Alpha : ℚ) (N : Nat → ℚ) : Option (Nat → ℚ) :=
  (PImplNurbsCurve.BasisFunction.outer i Knots Alpha degrees 1
    ⟨fun _ => 0, fun _ => 0, Function.update N 0 1⟩).map fun B => B.N

/-- Accumulation loop of `EvaluateNurbsCurve` (NurbsCurve.h lines 100-103):
`k` iterations remain, the loop variable is `i`. -/
def EvaluateNurbsCurve.loop (degrees : Nat) (Points : List vec3) (Span : Int)
    (N : Nat → ℚ) : Nat → Nat → vec3 → Option vec3
  | 0, _, P => some P
  | k + 1, i, P =>
    (readAt Points (Span - (degrees : Int) + (i : Int))).bind fun pt =>
      EvaluateNurbsCurve.loop degrees Points Span N k (i + 1) (P + N i • pt)

/-- Function `EvaluateNurbsCurve<degrees>` (NurbsCurve.h lines 89-106).  The
local weight array is taken zero on entry to `BasisFunction`. -/
def EvaluateNurbsCurve (degrees : Nat) (Points : List vec3) (Knots : List ℚ)
    (Alpha : ℚ) : Option vec3 :=
  let Alpha := clamp Alpha 0 1
  (PImplNurbsCurve.FindSpan degrees Knots Alpha).bind fun Span =>
    (PImplNurbsCurve.BasisFunction degrees Span Knots Alpha (fun _ => 0)).bind fun N =>
      EvaluateNurbsCurve.loop degrees Points Span N (degrees + 1) 0 0

/-- Class `TNurbsBasis<degrees>` (NurbsCurve.h lines 112-125). -/
structure TNurbsBasis (degrees : Nat) where
  SpanIndex : Int
  N : Nat → ℚ

/-- Member `TNurbsBasis::Num`. -/
def TNurbsBasis.Num {degrees : Nat} (_B : TNurbsBasis degrees) : Nat := degrees + 1

/-- Member `TNurbsBasis::Weight`; the index is converted to `uint32`, which
for the indices `0 ≤ i` used here is `i` itself. -/
def TNurbsBasis.Weight {degrees : Nat} (B : TNurbsBasis degrees) (i : Int) : ℚ :=
  B.N i.toNat

/-- Member `TNurbsBasis::Index`. -/
def TNurbsBasis.Index {degrees : Nat} (B : TNurbsBasis degrees) (i : Int) : Int :=
  B.SpanIndex - (degrees : Int) + i

/-- Function `EvaluateNurbsBasis<degrees>` (NurbsCurve.h lines 133-144).  The
`TStaticArray` is value-initialised, so the weight buffer is zero on entry. -/
def EvaluateNurbsBasis (degrees : Nat) (Knots : List ℚ) (Alpha : ℚ) :
    Option (TNurbsBasis degrees) :=
  let Alpha := clamp Alpha 0 1
  (PImplNurbsCurve.FindSpan degrees Knots Alpha).bind fun Span =>
    (PImplNurbsCurve.BasisFunction degrees Span Knots Alpha (fun _ => 0)).map fun N =>
      { SpanIndex := Span, N := N }

/-- A loop `for (i = i0; ...; ++i) U[i] = f(i)` run for `k` iterations. -/
def fillLoop (f : Int → ℚ) : Nat → Int → List ℚ → Option (List ℚ)
  | 0, _, U => some U
  | k + 1, i, U => (writeAt U i (f i)).bind fun U1 => fillLoop f k (i + 1) U1

/-- Function `MakeOpenClampedKnot<degrees>` (NurbsCurve.h lines 149-172).  The
three loops run `degrees`, `EndKnot - degrees` and `N - EndKnot` times.  For
`N = 3 degrees` the source divides by zero; every statement below about this
function assumes `N > 3 degrees`. -/
def MakeOpenClampedKnot (degrees : Nat) (InKnots : List ℚ) : Option (List ℚ) :=
  let N : Int := InKnots.length
  let Div : ℚ := 1 / ((N - 3 * (degrees : Int) : Int) : ℚ)
  let EndKnot : Int := N - (degrees : Int) * 2
  (fillLoop (fun _ => 0) degrees 0 InKnots).bind fun U1 =>
    (fillLoop (fun i => ((i - (degrees : Int) : Int) : ℚ) * Div)
        (EndKnot - (degrees : Int)).toNat degrees U1).bind fun U2 =>
      fillLoop (fun _ => 1) (N - EndKnot).toNat EndKnot U2

/-- Function `MakeClosedKnot<degrees>` (NurbsCurve.h lines 174-197), under the
same proviso `N > 3 degrees` as `MakeOpenClampedKnot`. -/
def MakeClosedKnot (degrees : Nat) (InKnots : List ℚ) : Option (List ℚ) :=
  let N : Int := InKnots.length
  let Div : ℚ := 1 / ((N - 3 * (degrees : Int) : Int) : ℚ)
  let EndKnot : Int := N - (degrees : Int) * 2
  (fillLoop (fun i => (((degrees : Int) - i : Int) : ℚ) * -Div) degrees 0 InKnots).bind fun U1 =>
    (fillLoop (fun i => ((i - (degrees : Int) : Int) : ℚ) * Div)
        (EndKnot - (degrees : Int)).toNat degrees U1).bind fun U2 =>
      fillLoop (fun i => 1 + ((i - EndKnot : Int) : ℚ) * Div) (N - EndKnot).toNat EndKnot U2

/-- Modelled from the spec: `TNurbsBasis::size()`, which `CalculateLocal` calls
(NurbsCurve.h line 214) and the class does not declare.  The specification's
snapshot holds `p + 1` weights and `Num()` is always `p + 1`. -/
def TNurbsBasis.size {degrees : Nat} (_B : TNurbsBasis degrees) : Nat := degrees + 1

/-- Accumulation loop of `CalculateLocal` (NurbsCurve.h lines 214-215): `k`
iterations remain, the loop variable is `j`.  `GetLocation` is the translation
of a control transform (a member the matrix library is taken to provide). -/
def CalculateLocal.inner {degree : Nat} {mat4 : Type} (GetLocation : mat4 → vec3)
    (InControlPoints : List mat4) (Basis : TNurbsBasis degree) :
    Nat → Nat → vec3 → Option vec3
  | 0, _, Location => some Location
  | k + 1, j, Location =>
    (readAt InControlPoints (Basis.Index (j : Int))).bind fun cp =>
      CalculateLocal.inner GetLocation InControlPoints Basis k (j + 1)
        (Location + Basis.Weight (j : Int) • GetLocation cp)

/-- Loop over the bones of `CalculateLocal` (NurbsCurve.h lines 207-218): `k`
iterations remain, the loop variable is `i`.  `BoneLocation` stands for
`Transform().GetLocation()` of the bone type. -/
def CalculateLocal.loop (degree : Nat) {RigBone mat4 : Type}
    (BoneLocation : RigBone → vec3) (GetLocation : mat4 → vec3)
    (Bones : List RigBone) (InKnots : List ℚ) (InControlPoints : List mat4) (Denum : ℚ) :
    Nat → Nat → List vec3 → Option (List vec3)
  | 0, _, Locals => some Locals
  | k + 1, i, Locals =>
    let Alpha : ℚ := (i : ℚ) * Denum
    (EvaluateNurbsBasis degree InKnots Alpha).bind fun Basis =>
      (CalculateLocal.inner GetLocation InControlPoints Basis Basis.size 0 0).bind
        fun Location =>
          (readAt Bones (i : Int)).bind fun bone =>
            (writeAt Locals (i : Int) (BoneLocation bone - Location)).bind fun Locals1 =>
              CalculateLocal.loop degree BoneLocation GetLocation Bones InKnots
                InControlPoints Denum k (i + 1) Locals1

/-- Function `CalculateLocal<degree, RigBone>` (NurbsCurve.h lines 199-219).
The result is the content of `Locals` on return; the bones and the control
transforms are only read. -/
def CalculateLocal (degree : Nat) {RigBone mat4 : Type}
    (BoneLocation : RigBone → vec3) (GetLocation : mat4 → vec3)
    (Bones : List RigBone) (InKnots : List ℚ) (InControlPoints : List mat4)
    (Locals : List vec3) : Option (List vec3) :=
  if Bones.length ≤ 1 then some Locals
  else
    let Denum : ℚ := 1 / ((Bones.length - 1 : Nat) : ℚ)
    CalculateLocal.loop degree BoneLocation GetLocation Bones InKnots InControlPoints
      Denum Bones.length 0 Locals

/-- Class `FQuadraticRoot` (SolveQuadratic.h lines 15-49): the array `Roots[2]`
as a map from index to value, and `Count`. -/
structure FQuadraticRoot (F : Type) where
  Roots : Nat → F
  Count : Nat

/-- Default constructor of `FQuadraticRoot`: no root (the array content is
indeterminate in the source, `0` here). -/
def FQuadraticRoot.none {F : Type} [Zero F] : FQuadraticRoot F :=
  { Roots := fun _ => 0, Count := 0 }

/-- Constructor `FQuadraticRoot(x)`. -/
def FQuadraticRoot.one {F : Type} [Zero F] (x : F) : FQuadraticRoot F :=
  { Roots := fun i => if i = 0 then x else 0, Count := 1 }

/-- Constructor `FQuadraticRoot(x1, x2)`. -/
def FQuadraticRoot.two {F : Type} [Zero F] (x1 x2 : F) : FQuadraticRoot F :=
  { Roots := fun i => if i = 0 then x1 else if i = 1 then x2 else 0, Count := 2 }

/-- Member `FQuadraticRoot::operator[]`. -/
def FQuadraticRoot.get {F : Type} (R : FQuadraticRoot F) (InIndex : Nat) : F :=
  R.Roots InIndex

/-- Member `FQuadraticRoot::Size`. -/
def FQuadraticRoot.Size {F : Type} (R : FQuadraticRoot F) : Nat := R.Count

/-- Function `SolveQuadratic` (SolveQuadratic.h lines 59-81) over an ordered
field `F` standing for `float`; the library function `std::sqrt` is the
parameter `sqrt`. -/
def SolveQuadratic {F : Type} [LinearOrderedField F] (sqrt : F → F) (A B C : F) :
    FQuadraticRoot F :=
  let Determinant : F := B * B - 4 * A * C
  let Inv2a : F := 1 / (2 * A)
  if Determinant > 0 then
    let S : F := sqrt Determinant
    FQuadraticRoot.two ((-B + S) * Inv2a) ((-B - S) * Inv2a)
  else if Determinant = 0 then
    FQuadraticRoot.one (-B * Inv2a)
  else
    FQuadraticRoot.none

/-- Function `glm::dot` on `vec3`. -/
def dot (a b : vec3) : ℚ := a.1 * b.1 + a.2.1 * b.2.1 + a.2.2 * b.2.2

/-- Function `glm::length2` on `vec3`: the squared length. -/
def length2 (v : vec3) : ℚ := dot v v

/-- Function `Pole` (Pole.h lines 29-51).  The rotation of a vector by the
quaternion, `Rotation * PoleDir`, is the parameter `rotate`, and
`glm::normalize`, which takes a square root, is the parameter `normalize`. -/
def Pole {quat : Type} (rotate : quat → vec3 → vec3) (normalize : vec3 → vec3)
    (Root Mid Tip : vec3) (Rotation : quat) (PoleDir : vec3) (Distance : ℚ) : vec3 :=
  let RefMidVector : vec3 := Distance • rotate Rotation PoleDir
  let MidT : vec3 := (1 / 2 : ℚ) • (Tip + Root)
  let V : vec3 := Mid - MidT
  if length2 V ≤ 1 / 1000 then MidT + RefMidVector
  else
    let Axis : vec3 := normalize (MidT - Root)
    let A : ℚ := dot (Mid - Root) Axis
    let PoleCenter : vec3 := Root + A • Axis
    let PoleVec : vec3 := Mid - PoleCenter
    let PoleVec : vec3 := if dot PoleVec RefMidVector < 0 then -PoleVec else PoleVec
    PoleCenter + PoleVec + Distance • normalize PoleVec

/-- The quotient `Temp` of the inner loop of `BasisFunction` at index `u` of
outer iteration `j`, from the weights `N` on entry to that iteration. -/
def basisTemp (Left Right : Nat → ℚ) (j : Nat) (N : Nat → ℚ) (u : Nat) : ℚ :=
  N u / (if |Right (u + 1) + Left (j - u)| ≤ 1 / 10000 then 1 / 100000
         else Right (u + 1) + Left (j - u))

/-- Closed form of one outer iteration `j` of `BasisFunction` on the weights. -/
def basisStep (Left Right : Nat → ℚ) (j : Nat) (N : Nat → ℚ) (t : Nat) : ℚ :=
  if j < t then N t
  else (if t = 0 then 0 else Left (j - (t - 1)) * basisTemp Left Right j N (t - 1)) +
       (if t < j then Right (t + 1) * basisTemp Left Right j N t else 0)

/-- The Cox-de Boor recursion as the specification states it:
`CoxDeBoor K s Alpha d k` is `B_{k,d}(Alpha)` over the knots `K`,
`B_{k,d} = (Alpha - K[k]) / (K[k+d] - K[k]) * B_{k,d-1} +
(K[k+d+1] - Alpha) / (K[k+d+1] - K[k+1]) * B_{k+1,d-1}`, with the base case
`B_{s,0} = 1` and `B_{k,0} = 0` for `k ≠ s`. -/
def CoxDeBoor (K : Int → ℚ) (s : Int) (Alpha : ℚ) : Nat → Int → ℚ
  | 0, k => if k = s then 1 else 0
  | d + 1, k =>
    (Alpha - K k) / (K (k + ((d + 1 : Nat) : Int)) - K k) * CoxDeBoor K s Alpha d k +
      (K (k + ((d + 1 : Nat) : Int) + 1) - Alpha) /
        (K (k + ((d + 1 : Nat) : Int) + 1) - K (k + 1)) * CoxDeBoor K s Alpha d (k + 1)

/-- The weighted sum reconstructed from a basis snapshot as the specification
states it: the sum over `i` in `[0, B.Num() - 1]` of
`B.Weight(i) * Points[B.Index(i)]`, taken in increasing order of `i`; `none`
when one of the indices is outside the control points. -/
def snapshotSum {degrees : Nat} (B : TNurbsBasis degrees) (Points : List vec3) :
    Option vec3 :=
  (List.range B.Num).foldl
    (fun (acc : Option vec3) (i : Nat) => acc.bind fun P =>
      (readAt Points (B.Index (i : Int))).map fun pt => P + B.Weight (i : Int) • pt)
    (some 0)

/-- Value of a control-point buffer at index `i`, `0` outside the buffer. -/
def pointAt (Points : List vec3) (i : Int) : vec3 := (readAt Points i).getD 0

/-- Value of a knot buffer at index `i`, `0` outside the buffer. -/
def knotAt (Knots : List ℚ) (i : Int) : ℚ := (readAt Knots i).getD 0

/-- The value `BasisFunction` stores in `Left[m]` (NurbsCurve.h line 63). -/
def leftOf (Knots : List ℚ) (i : Int) (Alpha : ℚ) (m : Nat) : ℚ :=
  Alpha - knotAt Knots (i + 1 - (m : Int))

/-- The value `BasisFunction` stores in `Right[m]` (NurbsCurve.h line 64). -/
def rightOf (Knots : List ℚ) (i : Int) (Alpha : ℚ) (m : Nat) : ℚ :=
  knotAt Knots (i + (m : Int)) - Alpha

/-- The weight buffer of `BasisFunction` after outer iteration `j` (on entry to
the loop for `j = 0`), as a recurrence. -/
def basisWeights (Knots : List ℚ) (i : Int) (Alpha : ℚ) (N0 : Nat → ℚ) : Nat → Nat → ℚ
  | 0 => Function.update N0 0 1
  | j + 1 => basisStep (leftOf Knots i Alpha) (rightOf Knots i Alpha) (j + 1)
      (basisWeights Knots i Alpha N0 j)

/-! ## Buffer access -/

theorem readAt_eq_some {α : Type} (xs : List α) (i : Int) (h0 : 0 ≤ i)
    (h1 : i < xs.length) : ∃ v, readAt xs i = some v := by
  have hlt : i.toNat < xs.length := by omega
  exact ⟨xs[i.toNat], by simp [readAt, not_lt.mpr h0, List.getElem?_eq_getElem hlt]⟩

theorem readAt_knotAt (Knots : List ℚ) (i : Int) (h0 : 0 ≤ i)
    (h1 : i < Knots.length) : readAt Knots i = some (knotAt Knots i) := by
  obtain ⟨v, hv⟩ := readAt_eq_some Knots i h0 h1
  simp [knotAt, hv]

theorem knotAt_of_readAt (Knots : List ℚ) (i : Int) (v : ℚ)
    (h : readAt Knots i = some v) : knotAt Knots i = v := by
  simp [knotAt, h]

theorem readAt_set {α : Type} (xs : List α) (n : Nat) (v : α) (m : Int)
    (hn : n < xs.length) :
    readAt (xs.set n v) m = if m = (n : Int) then some v else readAt xs m := by
  unfold readAt
  by_cases hm : m < 0
  · have : m ≠ (n : Int) := by omega
    simp [hm, this]
  · simp only [hm, if_false]
    by_cases hmn : m = (n : Int)
    · subst hmn
      simp [List.getElem?_set, hn]
    · have : n ≠ m.toNat := by omega
      simp [hmn, List.getElem?_set, this]

theorem fillLoop_spec (f : Int → ℚ) (k : Nat) :
    ∀ (i : Int) (U : List ℚ), 0 ≤ i → i + (k : Int) ≤ (U.length : Int) →
      ∃ V, fillLoop f k i U = some V ∧ V.length = U.length ∧
        ∀ m : Int, readAt V m =
          if i ≤ m ∧ m < i + (k : Int) then some (f m) else readAt U m := by
  induction k with
  | zero =>
    intro i U _ _
    refine ⟨U, rfl, rfl, fun m => ?_⟩
    have : ¬ (i ≤ m ∧ m < i + ((0 : Nat) : Int)) := by omega
    rw [if_neg this]
  | succ k ih =>
    intro i U h0 h1
    have hlt : i.toNat < U.length := by omega
    have hw : writeAt U i (f i) = some (U.set i.toNat (f i)) := by
      simp [writeAt, not_lt.mpr h0, hlt]
    obtain ⟨V, hV, hlen, hread⟩ := ih (i + 1) (U.set i.toNat (f i)) (by omega)
      (by simp only [List.length_set]; push_cast at h1 ⊢; omega)
    refine ⟨V, by simp [fillLoop, hw, hV], by simpa using hlen, fun m => ?_⟩
    rw [hread m, readAt_set _ _ _ _ hlt, Int.toNat_of_nonneg h0]
    by_cases hmi : m = i
    · subst hmi
      have h2 : ¬ (m + 1 ≤ m ∧ m < m + 1 + (k : Int)) := by omega
      have h3 : m ≤ m ∧ m < m + ((k + 1 : Nat) : Int) := by push_cast; omega
      rw [if_neg h2, if_pos h3, if_pos rfl]
    · by_cases hin : i + 1 ≤ m ∧ m < i + 1 + (k : Int)
      · have h3 : i ≤ m ∧ m < i + ((k + 1 : Nat) : Int) := by push_cast; omega
        rw [if_pos hin, if_pos h3]
      · have h3 : ¬ (i ≤ m ∧ m < i + ((k + 1 : Nat) : Int)) := by push_cast; omega
        rw [if_neg hin, if_neg h3, if_neg hmi]

/-! ## Knot vector builder -/

/-- Closed form of the buffer written by `MakeOpenClampedKnot`. -/
theorem MakeOpenClampedKnot_read (degrees : Nat) (InKnots : List ℚ)
    (hN : 3 * degrees < InKnots.length) :
    ∃ K, MakeOpenClampedKnot degrees InKnots = some K ∧ K.length = InKnots.length ∧
      ∀ m : Int, 0 ≤ m → m < (InKnots.length : Int) →
        readAt K m = some
          (if m < (degrees : Int) then 0
           else if m < (InKnots.length : Int) - (degrees : Int) * 2 then
             ((m - (degrees : Int) : Int) : ℚ) *
               (1 / (((InKnots.length : Int) - 3 * (degrees : Int) : Int) : ℚ))
           else 1) := by
  obtain ⟨U1, h1, l1, r1⟩ := fillLoop_spec (fun _ => 0) degrees 0 InKnots le_rfl (by omega)
  obtain ⟨U2, h2, l2, r2⟩ := fillLoop_spec
    (fun i => ((i - (degrees : Int) : Int) : ℚ) *
      (1 / (((InKnots.length : Int) - 3 * (degrees : Int) : Int) : ℚ)))
    ((InKnots.length : Int) - (degrees : Int) * 2 - (degrees : Int)).toNat degrees U1
    (by omega) (by omega)
  obtain ⟨U3, h3, l3, r3⟩ := fillLoop_spec (fun _ => 1)
    ((InKnots.length : Int) - ((InKnots.length : Int) - (degrees : Int) * 2)).toNat
    ((InKnots.length : Int) - (degrees : Int) * 2) U2 (by omega) (by omega)
  refine ⟨U3, by simp only [MakeOpenClampedKnot, h1, h2, h3, Option.some_bind],
    by omega, fun m hm0 hm1 => ?_⟩
  rw [r3 m]
  by_cases c3 : (InKnots.length : Int) - (degrees : Int) * 2 ≤ m
  · have hc : (InKnots.length : Int) - (degrees : Int) * 2 ≤ m ∧
        m < (InKnots.length : Int) - (degrees : Int) * 2 +
          (((InKnots.length : Int) - ((InKnots.length : Int) - (degrees : Int) * 2)).toNat : Int) := by
      omega
    rw [if_pos hc, if_neg (by omega), if_neg (by omega)]
  · rw [if_neg (fun hc => c3 hc.1), r2 m]
    by_cases c2 : (degrees : Int) ≤ m
    · have hc : (degrees : Int) ≤ m ∧ m < (degrees : Int) +
          (((InKnots.length : Int) - (degrees : Int) * 2 - (degrees : Int)).toNat : Int) := by
        omega
      rw [if_pos hc, if_neg (by omega), if_pos (by omega)]
    · rw [if_neg (fun hc => c2 hc.1), r1 m, if_pos (by omega), if_pos (by omega)]

/-- Closed form of the buffer written by `MakeClosedKnot`: a uniform grid
through `0` at index `degrees`. -/
theorem MakeClosedKnot_read (degrees : Nat) (InKnots : List ℚ)
    (hN : 3 * degrees < InKnots.length) :
    ∃ K, MakeClosedKnot degrees InKnots = some K ∧ K.length = InKnots.length ∧
      ∀ m : Int, 0 ≤ m → m < (InKnots.length : Int) →
        readAt K m = some
          (if m < (degrees : Int) then
             (((degrees : Int) - m : Int) : ℚ) *
               -(1 / (((InKnots.length : Int) - 3 * (degrees : Int) : Int) : ℚ))
           else if m < (InKnots.length : Int) - (degrees : Int) * 2 then
             ((m - (degrees : Int) : Int) : ℚ) *
               (1 / (((InKnots.length : Int) - 3 * (degrees : Int) : Int) : ℚ))
           else 1 + ((m - ((InKnots.length : Int) - (degrees : Int) * 2) : Int) : ℚ) *
               (1 / (((InKnots.length : Int) - 3 * (degrees : Int) : Int) : ℚ))) := by
  obtain ⟨U1, h1, l1, r1⟩ := fillLoop_spec
    (fun i => (((degrees : Int) - i : Int) : ℚ) *
      -(1 / (((InKnots.length : Int) - 3 * (degrees : Int) : Int) : ℚ)))
    degrees 0 InKnots le_rfl (by omega)
  obtain ⟨U2, h2, l2, r2⟩ := fillLoop_spec
    (fun i => ((i - (degrees : Int) : Int) : ℚ) *
      (1 / (((InKnots.length : Int) - 3 * (degrees : Int) : Int) : ℚ)))
    ((InKnots.length : Int) - (degrees : Int) * 2 - (degrees : Int)).toNat degrees U1
    (by omega) (by omega)
  obtain ⟨U3, h3, l3, r3⟩ := fillLoop_spec
    (fun i => 1 + ((i - ((InKnots.length : Int) - (degrees : Int) * 2) : Int) : ℚ) *
      (1 / (((InKnots.length : Int) - 3 * (degrees : Int) : Int) : ℚ)))
    ((InKnots.length : Int) - ((InKnots.length : Int) - (degrees : Int) * 2)).toNat
    ((InKnots.length : Int) - (degrees : Int) * 2) U2 (by omega) (by omega)
  refine ⟨U3, by simp only [MakeClosedKnot, h1, h2, h3, Option.some_bind],
    by omega, fun m hm0 hm1 => ?_⟩
  rw [r3 m]
  by_cases c3 : (InKnots.length : Int) - (degrees : Int) * 2 ≤ m
  · have hc : (InKnots.length : Int) - (degrees : Int) * 2 ≤ m ∧
        m < (InKnots.length : Int) - (degrees : Int) * 2 +
          (((InKnots.length : Int) - ((InKnots.length : Int) - (degrees : Int) * 2)).toNat : Int) := by
      omega
    rw [if_pos hc, if_neg (by omega), if_neg (by omega)]
  · rw [if_neg (fun hc => c3 hc.1), r2 m]
    by_cases c2 : (degrees : Int) ≤ m
    · have hc : (degrees : Int) ≤ m ∧ m < (degrees : Int) +
          (((InKnots.length : Int) - (degrees : Int) * 2 - (degrees : Int)).toNat : Int) := by
        omega
      rw [if_pos hc, if_neg (by omega), if_pos (by omega)]
    · rw [if_neg (fun hc => c2 hc.1), r1 m, if_pos (by omega), if_pos (by omega)]

/-- Every knot written by `MakeClosedKnot` is `(m - degrees) / (N - 3 degrees)`. -/
theorem MakeClosedKnot_uniform (degrees : Nat) (InKnots : List ℚ)
    (hN : 3 * degrees < InKnots.length) :
    ∃ K, MakeClosedKnot degrees InKnots = some K ∧ K.length = InKnots.length ∧
      ∀ m : Int, 0 ≤ m → m < (InKnots.length : Int) →
        readAt K m = some (((m : ℚ) - (degrees : ℚ)) /
          ((InKnots.length : ℚ) - 3 * (degrees : ℚ))) := by
  obtain ⟨K, hK, hl, hr⟩ := MakeClosedKnot_read degrees InKnots hN
  refine ⟨K, hK, hl, fun m hm0 hm1 => ?_⟩
  rw [hr m hm0 hm1]
  have hd : ((InKnots.length : ℚ) - 3 * (degrees : ℚ)) ≠ 0 := by
    have : (3 * (degrees : ℚ)) < (InKnots.length : ℚ) := by exact_mod_cast hN
    linarith
  congr 1
  split_ifs <;> push_cast <;> field_simp
  ring

/-- Every knot written by `MakeOpenClampedKnot` is an integer multiple of
`1 / (N - 3 degrees)`; the multiple is `0` up to index `degrees`, then grows by
one per index and stays at `N - 3 degrees` from index `N - 2 degrees` on. -/
theorem MakeOpenClampedKnot_grid (degrees : Nat) (InKnots : List ℚ)
    (hN : 3 * degrees < InKnots.length) :
    ∃ K, MakeOpenClampedKnot degrees InKnots = some K ∧ K.length = InKnots.length ∧
      ∀ m : Int, 0 ≤ m → m < (InKnots.length : Int) →
        readAt K m = some
          (((if m < (degrees : Int) then 0
             else if m < (InKnots.length : Int) - (degrees : Int) * 2 then m - (degrees : Int)
             else (InKnots.length : Int) - 3 * (degrees : Int) : Int) : ℚ) /
            (((InKnots.length : Int) - 3 * (degrees : Int) : Int) : ℚ)) := by
  obtain ⟨K, hK, hl, hr⟩ := MakeOpenClampedKnot_read degrees InKnots hN
  refine ⟨K, hK, hl, fun m hm0 hm1 => ?_⟩
  rw [hr m hm0 hm1]
  have hd : ((((InKnots.length : Int) - 3 * (degrees : Int) : Int) : ℚ)) ≠ 0 := by
    have : (0 : Int) < (InKnots.length : Int) - 3 * (degrees : Int) := by omega
    exact_mod_cast this.ne'
  congr 1
  split_ifs
  · simp
  · field_simp
  · exact (div_self hd).symm

/-- Claim C6, as the code has it: for `degrees ≥ 1` and a buffer of length
`N > 3 degrees`, `MakeOpenClampedKnot` succeeds and leaves `0` at the indices
`[0, degrees - 1]`, `(i - degrees) / (N - 3 degrees)` at the indices
`[degrees, N - 2 degrees - 1]` and `1` at the indices `[N - 2 degrees, N - 1]`. -/
theorem C6_open_clamped_layout (degrees : Nat) (InKnots : List ℚ)
    (hp : 1 ≤ degrees) (hN : 3 * degrees < InKnots.length) :
    ∃ K, MakeOpenClampedKnot degrees InKnots = some K ∧ K.length = InKnots.length ∧
      (∀ i : Int, 0 ≤ i → i ≤ (degrees : Int) - 1 → readAt K i = some 0) ∧
      (∀ i : Int, (degrees : Int) ≤ i → i ≤ (InKnots.length : Int) - 2 * (degrees : Int) - 1 →
        readAt K i = some (((i : ℚ) - (degrees : ℚ)) /
          ((InKnots.length : ℚ) - 3 * (degrees : ℚ)))) ∧
      (∀ i : Int, (InKnots.length : Int) - 2 * (degrees : Int) ≤ i →
        i ≤ (InKnots.length : Int) - 1 → readAt K i = some 1) := by
  obtain ⟨K, hK, hl, hr⟩ := MakeOpenClampedKnot_read degrees InKnots hN
  refine ⟨K, hK, hl, fun i h0 h1 => ?_, fun i h0 h1 => ?_, fun i h0 h1 => ?_⟩
  · rw [hr i h0 (by omega), if_pos (by omega)]
  · rw [hr i (by omega) (by omega), if_neg (by omega), if_pos (by omega)]
    congr 1
    push_cast
    ring
  · rw [hr i (by omega) (by omega), if_neg (by omega), if_neg (by omega)]

/-- Witness of C6: degree 2 and a buffer of 8 elements. -/
theorem C6_open_clamped_layout_witness :
    1 ≤ 2 ∧ 3 * 2 < (List.replicate 8 (0 : ℚ)).length ∧
    ∃ K, MakeOpenClampedKnot 2 (List.replicate 8 (0 : ℚ)) = some K ∧
      K.length = (List.replicate 8 (0 : ℚ)).length ∧
      (∀ i : Int, 0 ≤ i → i ≤ ((2 : Nat) : Int) - 1 → readAt K i = some 0) ∧
      (∀ i : Int, ((2 : Nat) : Int) ≤ i →
        i ≤ ((List.replicate 8 (0 : ℚ)).length : Int) - 2 * ((2 : Nat) : Int) - 1 →
        readAt K i = some (((i : ℚ) - ((2 : Nat) : ℚ)) /
          (((List.replicate 8 (0 : ℚ)).length : ℚ) - 3 * ((2 : Nat) : ℚ)))) ∧
      (∀ i : Int, ((List.replicate 8 (0 : ℚ)).length : Int) - 2 * ((2 : Nat) : Int) ≤ i →
        i ≤ ((List.replicate 8 (0 : ℚ)).length : Int) - 1 → readAt K i = some 1) :=
  ⟨by decide, by decide, C6_open_clamped_layout 2 (List.replicate 8 0) (by decide) (by decide)⟩

/-- Counterexample to C6 as stated: with degree 2 and a buffer of 8 elements
the index 5 lies in `[p, N - p - 1] = [2, 5]`, where the claim puts
`(5 - 2) / (8 - 3 * 2) = 3/2`; the code writes `1` there. -/
theorem C6_counterexample :
    MakeOpenClampedKnot 2 (List.replicate 8 (0 : ℚ)) = some [0, 0, 0, 1 / 2, 1, 1, 1, 1] ∧
    readAt [0, 0, 0, 1 / 2, 1, 1, 1, (1 : ℚ)] 5 = some 1 ∧
    readAt [0, 0, 0, 1 / 2, 1, 1, 1, (1 : ℚ)] 5 ≠ some (((5 : ℚ) - 2) / (8 - 3 * 2)) := by
  refine ⟨by with_unfolding_all decide, by with_unfolding_all decide, ?_⟩
  with_unfolding_all decide

/-- Claim C7, as the code has it: for `degrees ≥ 1` and a buffer of length
`N > 3 degrees`, with `div = 1 / (N - 3 degrees)`, `MakeClosedKnot` succeeds and
leaves `(degrees - i) * -div` at the indices `[0, degrees - 1]`,
`(i - degrees) * div` at the indices `[degrees, N - degrees - 1]` and
`1 + (i - (N - 2 degrees)) * div` at the indices `[N - degrees, N - 1]` (indeed
at all of `[N - 2 degrees, N - 1]`). -/
theorem C7_closed_layout (degrees : Nat) (InKnots : List ℚ)
    (hp : 1 ≤ degrees) (hN : 3 * degrees < InKnots.length) :
    ∃ K, MakeClosedKnot degrees InKnots = some K ∧ K.length = InKnots.length ∧
      (∀ i : Int, 0 ≤ i → i ≤ (degrees : Int) - 1 →
        readAt K i = some (((degrees : ℚ) - (i : ℚ)) *
          -(1 / ((InKnots.length : ℚ) - 3 * (degrees : ℚ))))) ∧
      (∀ i : Int, (degrees : Int) ≤ i → i ≤ (InKnots.length : Int) - (degrees : Int) - 1 →
        readAt K i = some (((i : ℚ) - (degrees : ℚ)) *
          (1 / ((InKnots.length : ℚ) - 3 * (degrees : ℚ))))) ∧
      (∀ i : Int, (InKnots.length : Int) - 2 * (degrees : Int) ≤ i →
        i ≤ (InKnots.length : Int) - 1 →
        readAt K i = some (1 + ((i : ℚ) - ((InKnots.length : ℚ) - 2 * (degrees : ℚ))) *
          (1 / ((InKnots.length : ℚ) - 3 * (degrees : ℚ))))) := by
  obtain ⟨K, hK, hl, hr⟩ := MakeClosedKnot_uniform degrees InKnots hN
  have hd : ((InKnots.length : ℚ) - 3 * (degrees : ℚ)) ≠ 0 := by
    have : (3 * (degrees : ℚ)) < (InKnots.length : ℚ) := by exact_mod_cast hN
    linarith
  refine ⟨K, hK, hl, fun i h0 h1 => ?_, fun i h0 h1 => ?_, fun i h0 h1 => ?_⟩
  · rw [hr i h0 (by omega)]
    congr 1
    field_simp
  · rw [hr i (by omega) (by omega)]
    congr 1
    field_simp
  · rw [hr i (by omega) (by omega)]
    congr 1
    field_simp
    ring

/-- Witness of C7: degree 1 and a buffer of 4 elements. -/
theorem C7_closed_layout_witness :
    1 ≤ 1 ∧ 3 * 1 < (List.replicate 4 (0 : ℚ)).length ∧
    ∃ K, MakeClosedKnot 1 (List.replicate 4 (0 : ℚ)) = some K ∧
      K.length = (List.replicate 4 (0 : ℚ)).length ∧
      (∀ i : Int, 0 ≤ i → i ≤ ((1 : Nat) : Int) - 1 →
        readAt K i = some ((((1 : Nat) : ℚ) - (i : ℚ)) *
          -(1 / (((List.replicate 4 (0 : ℚ)).length : ℚ) - 3 * ((1 : Nat) : ℚ))))) ∧
      (∀ i : Int, ((1 : Nat) : Int) ≤ i →
        i ≤ ((List.replicate 4 (0 : ℚ)).length : Int) - ((1 : Nat) : Int) - 1 →
        readAt K i = some (((i : ℚ) - ((1 : Nat) : ℚ)) *
          (1 / (((List.replicate 4 (0 : ℚ)).length : ℚ) - 3 * ((1 : Nat) : ℚ))))) ∧
      (∀ i : Int, ((List.replicate 4 (0 : ℚ)).length : Int) - 2 * ((1 : Nat) : Int) ≤ i →
        i ≤ ((List.replicate 4 (0 : ℚ)).length : Int) - 1 →
        readAt K i = some (1 + ((i : ℚ) -
            (((List.replicate 4 (0 : ℚ)).length : ℚ) - 2 * ((1 : Nat) : ℚ))) *
          (1 / (((List.replicate 4 (0 : ℚ)).length : ℚ) - 3 * ((1 : Nat) : ℚ))))) :=
  ⟨by decide, by decide, C7_closed_layout 1 (List.replicate 4 0) (by decide) (by decide)⟩

/-- Counterexample to C7 as stated: with degree 1 and a buffer of 4 elements
(`div = 1`) the index 3 lies in `[N - p, N - 1] = [3, 3]`, where the claim puts
`1 + (3 - (4 - 1)) * div = 1`; the code writes `2` there. -/
theorem C7_counterexample :
    MakeClosedKnot 1 (List.replicate 4 (0 : ℚ)) = some [-1, 0, 1, 2] ∧
    readAt [-1, 0, 1, (2 : ℚ)] 3 = some 2 ∧
    readAt [-1, 0, 1, (2 : ℚ)] 3 ≠ some (1 + ((3 : ℚ) - (4 - 1)) * (1 / (4 - 3 * 1))) := by
  refine ⟨by with_unfolding_all decide, by with_unfolding_all decide, ?_⟩
  with_unfolding_all decide

/-- Claim C8: for every degree (`degrees ≥ 1` included) and a buffer of length `N > 3 degrees`, the
sequence written by `MakeOpenClampedKnot` is non-decreasing, and the one
written by `MakeClosedKnot` is strictly increasing with the constant step
`1 / (N - 3 degrees)`. -/
theorem C8_knot_monotone (degrees : Nat) (InKnots : List ℚ)
    (hN : 3 * degrees < InKnots.length) :
    (∃ K, MakeOpenClampedKnot degrees InKnots = some K ∧ K.length = InKnots.length ∧
      ∀ i : Int, 0 ≤ i → i + 1 < (InKnots.length : Int) →
        ∃ a b, readAt K i = some a ∧ readAt K (i + 1) = some b ∧ a ≤ b) ∧
    (∃ K, MakeClosedKnot degrees InKnots = some K ∧ K.length = InKnots.length ∧
      ∀ i : Int, 0 ≤ i → i + 1 < (InKnots.length : Int) →
        ∃ a b, readAt K i = some a ∧ readAt K (i + 1) = some b ∧ a < b ∧
          b - a = 1 / ((InKnots.length : ℚ) - 3 * (degrees : ℚ))) := by
  constructor
  · obtain ⟨K, hK, hl, hr⟩ := MakeOpenClampedKnot_grid degrees InKnots hN
    refine ⟨K, hK, hl, fun i h0 h1 => ⟨_, _, hr i h0 (by omega), hr (i + 1) (by omega) h1, ?_⟩⟩
    have hd : (0 : ℚ) < (((InKnots.length : Int) - 3 * (degrees : Int) : Int) : ℚ) := by
      have : (0 : Int) < (InKnots.length : Int) - 3 * (degrees : Int) := by omega
      exact_mod_cast this
    apply div_le_div_of_nonneg_right _ hd.le
    have : (if i < (degrees : Int) then 0
             else if i < (InKnots.length : Int) - (degrees : Int) * 2 then i - (degrees : Int)
             else (InKnots.length : Int) - 3 * (degrees : Int) : Int) ≤
           (if i + 1 < (degrees : Int) then 0
             else if i + 1 < (InKnots.length : Int) - (degrees : Int) * 2 then i + 1 - (degrees : Int)
             else (InKnots.length : Int) - 3 * (degrees : Int) : Int) := by
      split_ifs <;> omega
    exact_mod_cast this
  · obtain ⟨K, hK, hl, hr⟩ := MakeClosedKnot_uniform degrees InKnots hN
    refine ⟨K, hK, hl, fun i h0 h1 => ⟨_, _, hr i h0 (by omega), hr (i + 1) (by omega) h1, ?_⟩⟩
    have hd : (0 : ℚ) < (InKnots.length : ℚ) - 3 * (degrees : ℚ) := by
      have : (3 * (degrees : ℚ)) < (InKnots.length : ℚ) := by exact_mod_cast hN
      linarith
    have hstep : (((i + 1 : Int) : ℚ) - (degrees : ℚ)) / ((InKnots.length : ℚ) - 3 * (degrees : ℚ)) -
        ((i : ℚ) - (degrees : ℚ)) / ((InKnots.length : ℚ) - 3 * (degrees : ℚ)) =
        1 / ((InKnots.length : ℚ) - 3 * (degrees : ℚ)) := by
      push_cast
      field_simp
    refine ⟨?_, hstep⟩
    have : 0 < 1 / ((InKnots.length : ℚ) - 3 * (degrees : ℚ)) := by positivity
    linarith

/-- Witness of C8: degree 2 and a buffer of 8 elements. -/
theorem C8_knot_monotone_witness :
    3 * 2 < (List.replicate 8 (0 : ℚ)).length ∧
    (∃ K, MakeOpenClampedKnot 2 (List.replicate 8 (0 : ℚ)) = some K ∧
      K.length = (List.replicate 8 (0 : ℚ)).length ∧
      ∀ i : Int, 0 ≤ i → i + 1 < ((List.replicate 8 (0 : ℚ)).length : Int) →
        ∃ a b, readAt K i = some a ∧ readAt K (i + 1) = some b ∧ a ≤ b) ∧
    (∃ K, MakeClosedKnot 2 (List.replicate 8 (0 : ℚ)) = some K ∧
      K.length = (List.replicate 8 (0 : ℚ)).length ∧
      ∀ i : Int, 0 ≤ i → i + 1 < ((List.replicate 8 (0 : ℚ)).length : Int) →
        ∃ a b, readAt K i = some a ∧ readAt K (i + 1) = some b ∧ a < b ∧
          b - a = 1 / (((List.replicate 8 (0 : ℚ)).length : ℚ) - 3 * ((2 : Nat) : ℚ))) :=
  ⟨by decide, C8_knot_monotone 2 (List.replicate 8 0) (by decide)⟩

/-! ## Span locator -/

theorem FindSpan_loop_spec (Knots : List ℚ) (Alpha : ℚ) (SpanN : Int) (k : Nat) :
    ∀ i : Int, 0 ≤ i → i + (k : Int) < (Knots.length : Int) →
      ∃ s, PImplNurbsCurve.FindSpan.loop Knots Alpha SpanN k i = some s ∧
        ((i ≤ s ∧ s < i + (k : Int) ∧ knotAt Knots s ≤ Alpha ∧ Alpha ≤ knotAt Knots (s + 1) ∧
            ∀ t : Int, i ≤ t → t < s →
              ¬ (knotAt Knots t ≤ Alpha ∧ Alpha ≤ knotAt Knots (t + 1))) ∨
          (s = SpanN ∧ ∀ t : Int, i ≤ t → t < i + (k : Int) →
              ¬ (knotAt Knots t ≤ Alpha ∧ Alpha ≤ knotAt Knots (t + 1)))) := by
  induction k with
  | zero =>
    intro i _ _
    exact ⟨SpanN, rfl, Or.inr ⟨rfl, fun t h1 h2 => by omega⟩⟩
  | succ k ih =>
    intro i h0 h1
    have ha := readAt_knotAt Knots i h0 (by omega)
    have hb := readAt_knotAt Knots (i + 1) (by omega) (by push_cast at h1; omega)
    obtain ⟨s, hs, hcase⟩ := ih (i + 1) (by omega) (by push_cast at h1; omega)
    have hrest : ¬ (knotAt Knots i ≤ Alpha ∧ Alpha ≤ knotAt Knots (i + 1)) →
        ∃ s, s = s ∧
        ((i ≤ s ∧ s < i + ((k + 1 : Nat) : Int) ∧ knotAt Knots s ≤ Alpha ∧
            Alpha ≤ knotAt Knots (s + 1) ∧
            ∀ t : Int, i ≤ t → t < s →
              ¬ (knotAt Knots t ≤ Alpha ∧ Alpha ≤ knotAt Knots (t + 1))) ∨
          (s = SpanN ∧ ∀ t : Int, i ≤ t → t < i + ((k + 1 : Nat) : Int) →
              ¬ (knotAt Knots t ≤ Alpha ∧ Alpha ≤ knotAt Knots (t + 1)))) ∧
        PImplNurbsCurve.FindSpan.loop Knots Alpha SpanN k (i + 1) = some s := by
      intro hno
      refine ⟨s, rfl, ?_, hs⟩
      rcases hcase with ⟨c1, c2, c3, c4, c5⟩ | ⟨c1, c2⟩
      · refine Or.inl ⟨by omega, by push_cast; omega, c3, c4, fun t ht1 ht2 => ?_⟩
        by_cases hti : t = i
        · subst hti; exact hno
        · exact c5 t (by omega) ht2
      · refine Or.inr ⟨c1, fun t ht1 ht2 => ?_⟩
        by_cases hti : t = i
        · subst hti; exact hno
        · exact c2 t (by omega) (by push_cast at ht2; omega)
    by_cases hA : knotAt Knots i ≤ Alpha
    · by_cases hB : Alpha ≤ knotAt Knots (i + 1)
      · refine ⟨i, ?_, Or.inl ⟨le_rfl, by push_cast; omega, hA, hB, fun t h2 h3 => by omega⟩⟩
        simp [PImplNurbsCurve.FindSpan.loop, ha, hb, hA, hB]
      · obtain ⟨s', -, hs1, hs2⟩ := hrest (fun h => hB h.2)
        exact ⟨s', by simp [PImplNurbsCurve.FindSpan.loop, ha, hb, hA, hB, hs2], hs1⟩
    · obtain ⟨s', -, hs1, hs2⟩ := hrest (fun h => hA h.1)
      exact ⟨s', by simp [PImplNurbsCurve.FindSpan.loop, ha, hA, hs2], hs1⟩

/-- What `FindSpan` returns on a knot vector of length `N > 3 degrees`,
`degrees ≥ 1`: the first matching index of `[degrees, N - 2 degrees - 1]`, or
`N - 2 degrees - 1` when there is none. -/
theorem FindSpan_spec (degrees : Nat) (Knots : List ℚ) (Alpha : ℚ)
    (hp : 1 ≤ degrees) (hN : 3 * degrees < Knots.length) :
    ∃ s, PImplNurbsCurve.FindSpan degrees Knots Alpha = some s ∧
      (degrees : Int) ≤ s ∧ s ≤ (Knots.length : Int) - 2 * (degrees : Int) - 1 ∧
      ((knotAt Knots s ≤ Alpha ∧ Alpha ≤ knotAt Knots (s + 1) ∧
          ∀ t : Int, (degrees : Int) ≤ t → t < s →
            ¬ (knotAt Knots t ≤ Alpha ∧ Alpha ≤ knotAt Knots (t + 1))) ∨
        (s = (Knots.length : Int) - 2 * (degrees : Int) - 1 ∧
          ∀ t : Int, (degrees : Int) ≤ t → t ≤ (Knots.length : Int) - 2 * (degrees : Int) - 1 →
            ¬ (knotAt Knots t ≤ Alpha ∧ Alpha ≤ knotAt Knots (t + 1)))) := by
  obtain ⟨s, hs, hcase⟩ := FindSpan_loop_spec Knots Alpha
    ((Knots.length : Int) - (degrees : Int) * 2 - 1)
    ((Knots.length : Int) - (degrees : Int) * 2 - 1 - (degrees : Int) + 1).toNat
    (degrees : Int) (by omega) (by omega)
  refine ⟨s, hs, ?_⟩
  rcases hcase with ⟨c1, c2, c3, c4, c5⟩ | ⟨c1, c2⟩
  · exact ⟨c1, by omega, Or.inl ⟨c3, c4, c5⟩⟩
  · exact ⟨by omega, by omega, Or.inr ⟨by omega, fun t h1 h2 => c2 t h1 (by omega)⟩⟩

/-- A value between `f a` and `f (a + k)` lies in one of the `k` intervals
`[f t, f (t + 1)]`. -/
theorem exists_interval (f : Int → ℚ) (Alpha : ℚ) (a : Int) (k : Nat) :
    f a ≤ Alpha → Alpha ≤ f (a + ((k + 1 : Nat) : Int)) →
      ∃ t : Int, a ≤ t ∧ t ≤ a + (k : Int) ∧ f t ≤ Alpha ∧ Alpha ≤ f (t + 1) := by
  induction k with
  | zero =>
    intro h1 h2
    exact ⟨a, le_rfl, by simp, h1, by simpa using h2⟩
  | succ k ih =>
    intro h1 h2
    by_cases h : Alpha ≤ f (a + ((k + 1 : Nat) : Int))
    · obtain ⟨t, t1, t2, t3, t4⟩ := ih h1 h
      exact ⟨t, t1, by push_cast; omega, t3, t4⟩
    · refine ⟨a + ((k + 1 : Nat) : Int), by omega, le_rfl, (not_le.mp h).le, ?_⟩
      have e : a + ((k + 1 : Nat) : Int) + 1 = a + ((k + 1 + 1 : Nat) : Int) := by
        push_cast; ring
      rw [e]; exact h2

/-- When the knots at `degrees` and `N - 2 degrees` enclose `Alpha`, the span
returned by `FindSpan` contains `Alpha`. -/
theorem FindSpan_contains (degrees : Nat) (Knots : List ℚ) (Alpha : ℚ)
    (hp : 1 ≤ degrees) (hN : 3 * degrees < Knots.length)
    (hlo : knotAt Knots degrees ≤ Alpha)
    (hhi : Alpha ≤ knotAt Knots ((Knots.length : Int) - 2 * (degrees : Int))) :
    ∃ s a b, PImplNurbsCurve.FindSpan degrees Knots Alpha = some s ∧
      (degrees : Int) ≤ s ∧ s ≤ (Knots.length : Int) - 2 * (degrees : Int) - 1 ∧
      readAt Knots s = some a ∧ readAt Knots (s + 1) = some b ∧ a ≤ Alpha ∧ Alpha ≤ b := by
  obtain ⟨s, hs, h1, h2, hcase⟩ := FindSpan_spec degrees Knots Alpha hp hN
  have hA := readAt_knotAt Knots s (by omega) (by omega)
  have hB := readAt_knotAt Knots (s + 1) (by omega) (by omega)
  rcases hcase with ⟨c1, c2, -⟩ | ⟨-, c2⟩
  · exact ⟨s, _, _, hs, h1, h2, hA, hB, c1, c2⟩
  · exfalso
    have e : (Knots.length : Int) - 2 * (degrees : Int) =
        (degrees : Int) + (((Knots.length - 3 * degrees - 1 + 1 : Nat)) : Int) := by
      omega
    rw [e] at hhi
    obtain ⟨t, t1, t2, t3, t4⟩ := exists_interval (knotAt Knots) Alpha (degrees : Int)
      (Knots.length - 3 * degrees - 1) hlo hhi
    exact c2 t t1 (by omega) ⟨t3, t4⟩

/-- Claim C4, as the code has it: for `degrees ≥ 1` and every knot vector of
length `N > 3 degrees` (non-decreasing or not) and every `Alpha` (in `[0,1]` or
not), `FindSpan` returns the smallest index `s` of the candidate range
`[degrees, N - 2 degrees - 1]` with `Knots[s] ≤ Alpha ≤ Knots[s+1]`, and
`N - 2 degrees - 1` when no index of that range matches.  (`knotAt` is the
buffer content; every index concerned lies inside the buffer.) -/
theorem C4_FindSpan_first_match (degrees : Nat) (Knots : List ℚ) (Alpha : ℚ)
    (hp : 1 ≤ degrees) (hN : 3 * degrees < Knots.length) :
    ∃ s, PImplNurbsCurve.FindSpan degrees Knots Alpha = some s ∧
      ((∃ t : Int, (degrees : Int) ≤ t ∧ t ≤ (Knots.length : Int) - 2 * (degrees : Int) - 1 ∧
          knotAt Knots t ≤ Alpha ∧ Alpha ≤ knotAt Knots (t + 1)) →
        (degrees : Int) ≤ s ∧ s ≤ (Knots.length : Int) - 2 * (degrees : Int) - 1 ∧
          knotAt Knots s ≤ Alpha ∧ Alpha ≤ knotAt Knots (s + 1) ∧
          ∀ t : Int, (degrees : Int) ≤ t → t < s →
            ¬ (knotAt Knots t ≤ Alpha ∧ Alpha ≤ knotAt Knots (t + 1))) ∧
      ((∀ t : Int, (degrees : Int) ≤ t → t ≤ (Knots.length : Int) - 2 * (degrees : Int) - 1 →
          ¬ (knotAt Knots t ≤ Alpha ∧ Alpha ≤ knotAt Knots (t + 1))) →
        s = (Knots.length : Int) - 2 * (degrees : Int) - 1) := by
  obtain ⟨s, hs, h1, h2, hcase⟩ := FindSpan_spec degrees Knots Alpha hp hN
  refine ⟨s, hs, ?_, ?_⟩
  · rintro ⟨t, t1, t2, t3, t4⟩
    rcases hcase with ⟨c1, c2, c3⟩ | ⟨-, c2⟩
    · exact ⟨h1, h2, c1, c2, c3⟩
    · exact absurd ⟨t3, t4⟩ (c2 t t1 t2)
  · intro hno
    rcases hcase with ⟨c1, c2, -⟩ | ⟨c1, -⟩
    · exact absurd ⟨c1, c2⟩ (hno s h1 h2)
    · exact c1

/-- Witness of C4: degree 2, seven knots, `Alpha = 1/2`. -/
theorem C4_FindSpan_first_match_witness :
    1 ≤ 2 ∧ 3 * 2 < [0, 0, 0, 1 / 10, 1, 1, (1 : ℚ)].length ∧
    ∃ s, PImplNurbsCurve.FindSpan 2 [0, 0, 0, 1 / 10, 1, 1, (1 : ℚ)] (1 / 2) = some s ∧
      ((∃ t : Int, ((2 : Nat) : Int) ≤ t ∧
          t ≤ ([0, 0, 0, 1 / 10, 1, 1, (1 : ℚ)].length : Int) - 2 * ((2 : Nat) : Int) - 1 ∧
          knotAt [0, 0, 0, 1 / 10, 1, 1, (1 : ℚ)] t ≤ 1 / 2 ∧
          1 / 2 ≤ knotAt [0, 0, 0, 1 / 10, 1, 1, (1 : ℚ)] (t + 1)) →
        ((2 : Nat) : Int) ≤ s ∧
          s ≤ ([0, 0, 0, 1 / 10, 1, 1, (1 : ℚ)].length : Int) - 2 * ((2 : Nat) : Int) - 1 ∧
          knotAt [0, 0, 0, 1 / 10, 1, 1, (1 : ℚ)] s ≤ 1 / 2 ∧
          1 / 2 ≤ knotAt [0, 0, 0, 1 / 10, 1, 1, (1 : ℚ)] (s + 1) ∧
          ∀ t : Int, ((2 : Nat) : Int) ≤ t → t < s →
            ¬ (knotAt [0, 0, 0, 1 / 10, 1, 1, (1 : ℚ)] t ≤ 1 / 2 ∧
              1 / 2 ≤ knotAt [0, 0, 0, 1 / 10, 1, 1, (1 : ℚ)] (t + 1))) ∧
      ((∀ t : Int, ((2 : Nat) : Int) ≤ t →
          t ≤ ([0, 0, 0, 1 / 10, 1, 1, (1 : ℚ)].length : Int) - 2 * ((2 : Nat) : Int) - 1 →
          ¬ (knotAt [0, 0, 0, 1 / 10, 1, 1, (1 : ℚ)] t ≤ 1 / 2 ∧
            1 / 2 ≤ knotAt [0, 0, 0, 1 / 10, 1, 1, (1 : ℚ)] (t + 1))) →
        s = ([0, 0, 0, 1 / 10, 1, 1, (1 : ℚ)].length : Int) - 2 * ((2 : Nat) : Int) - 1) :=
  ⟨by decide, by decide,
    C4_FindSpan_first_match 2 [0, 0, 0, 1 / 10, 1, 1, 1] (1 / 2) (by decide) (by decide)⟩

/-- Counterexample to C4 as stated: degree 2, the non-decreasing knot vector
`[0, 0, 0, 1/10, 1, 1, 1]` of length `7 > 6` and `Alpha = 1/2`.  The claimed
candidate range is `[p, N - p - 2] = [2, 3]`; index 3 matches and index 2 does
not, so the claim has `FindSpan` return 3.  The code scans `[2, 2]` only and
returns its fallback 2. -/
theorem C4_counterexample :
    List.Pairwise (fun a b : ℚ => a ≤ b) [0, 0, 0, 1 / 10, 1, 1, 1] ∧
    ((0 : ℚ) ≤ 1 / 2 ∧ (1 / 2 : ℚ) ≤ 1) ∧
    PImplNurbsCurve.FindSpan 2 [0, 0, 0, 1 / 10, 1, 1, 1] (1 / 2) = some 2 ∧
    ((2 : Int) ≤ 3 ∧ (3 : Int) ≤ 7 - 2 - 2) ∧
    (knotAt [0, 0, 0, 1 / 10, 1, 1, 1] 3 ≤ 1 / 2 ∧
      1 / 2 ≤ knotAt [0, 0, 0, 1 / 10, 1, 1, 1] (3 + 1)) ∧
    ¬ (knotAt [0, 0, 0, 1 / 10, 1, 1, 1] 2 ≤ 1 / 2 ∧
      1 / 2 ≤ knotAt [0, 0, 0, 1 / 10, 1, 1, 1] (2 + 1)) := by
  refine ⟨by with_unfolding_all decide, by with_unfolding_all decide,
    by with_unfolding_all decide, by decide, by with_unfolding_all decide, ?_⟩
  with_unfolding_all decide

/-- Claim C5: for `degrees ≥ 1`, a buffer of length `N > 3 degrees` filled by
`MakeOpenClampedKnot` or by `MakeClosedKnot`, and `Alpha` in `[0,1]`, the span
`s` returned by `FindSpan` satisfies `Knots[s] ≤ Alpha ≤ Knots[s+1]`. -/
theorem C5_span_containment (degrees : Nat) (InKnots : List ℚ) (Alpha : ℚ)
    (hp : 1 ≤ degrees) (hN : 3 * degrees < InKnots.length)
    (h0 : 0 ≤ Alpha) (h1 : Alpha ≤ 1) :
    (∃ K, MakeOpenClampedKnot degrees InKnots = some K ∧
      ∃ s a b, PImplNurbsCurve.FindSpan degrees K Alpha = some s ∧
        readAt K s = some a ∧ readAt K (s + 1) = some b ∧ a ≤ Alpha ∧ Alpha ≤ b) ∧
    (∃ K, MakeClosedKnot degrees InKnots = some K ∧
      ∃ s a b, PImplNurbsCurve.FindSpan degrees K Alpha = some s ∧
        readAt K s = some a ∧ readAt K (s + 1) = some b ∧ a ≤ Alpha ∧ Alpha ≤ b) := by
  have hdpos : (0 : Int) < (InKnots.length : Int) - 3 * (degrees : Int) := by omega
  constructor
  · obtain ⟨K, hK, hl, hr⟩ := MakeOpenClampedKnot_grid degrees InKnots hN
    have hd : ((((InKnots.length : Int) - 3 * (degrees : Int) : Int) : ℚ)) ≠ 0 := by
      exact_mod_cast hdpos.ne'
    have e0 : knotAt K (degrees : Int) = 0 := by
      apply knotAt_of_readAt
      rw [hr _ (by omega) (by omega), if_neg (by omega), if_pos (by omega)]
      simp
    have e1 : knotAt K ((K.length : Int) - 2 * (degrees : Int)) = 1 := by
      apply knotAt_of_readAt
      rw [hl, hr _ (by omega) (by omega), if_neg (by omega), if_neg (by omega), div_self hd]
    obtain ⟨s, a, b, hs, -, -, ha, hb, hab⟩ := FindSpan_contains degrees K Alpha hp
      (by omega) (by rw [e0]; exact h0) (by rw [e1]; exact h1)
    exact ⟨K, hK, s, a, b, hs, ha, hb, hab⟩
  · obtain ⟨K, hK, hl, hr⟩ := MakeClosedKnot_uniform degrees InKnots hN
    have hd : ((InKnots.length : ℚ) - 3 * (degrees : ℚ)) ≠ 0 := by
      have : (3 * (degrees : ℚ)) < (InKnots.length : ℚ) := by exact_mod_cast hN
      linarith
    have e0 : knotAt K (degrees : Int) = 0 := by
      apply knotAt_of_readAt
      rw [hr _ (by omega) (by omega)]
      simp
    have e1 : knotAt K ((K.length : Int) - 2 * (degrees : Int)) = 1 := by
      apply knotAt_of_readAt
      rw [hl, hr _ (by omega) (by omega)]
      congr 1
      push_cast
      field_simp
      ring
    obtain ⟨s, a, b, hs, -, -, ha, hb, hab⟩ := FindSpan_contains degrees K Alpha hp
      (by omega) (by rw [e0]; exact h0) (by rw [e1]; exact h1)
    exact ⟨K, hK, s, a, b, hs, ha, hb, hab⟩

/-- Witness of C5: degree 2, a buffer of 8 elements, `Alpha = 1/2`. -/
theorem C5_span_containment_witness :
    1 ≤ 2 ∧ 3 * 2 < (List.replicate 8 (0 : ℚ)).length ∧ (0 : ℚ) ≤ 1 / 2 ∧ (1 / 2 : ℚ) ≤ 1 ∧
    (∃ K, MakeOpenClampedKnot 2 (List.replicate 8 (0 : ℚ)) = some K ∧
      ∃ s a b, PImplNurbsCurve.FindSpan 2 K (1 / 2) = some s ∧
        readAt K s = some a ∧ readAt K (s + 1) = some b ∧ a ≤ 1 / 2 ∧ 1 / 2 ≤ b) ∧
    (∃ K, MakeClosedKnot 2 (List.replicate 8 (0 : ℚ)) = some K ∧
      ∃ s a b, PImplNurbsCurve.FindSpan 2 K (1 / 2) = some s ∧
        readAt K s = some a ∧ readAt K (s + 1) = some b ∧ a ≤ 1 / 2 ∧ 1 / 2 ≤ b) :=
  ⟨by decide, by decide, by norm_num, by norm_num,
    C5_span_containment 2 (List.replicate 8 0) (1 / 2) (by decide) (by decide)
      (by norm_num) (by norm_num)⟩

/-! ## Basis function evaluator -/

theorem basisTemp_congr (Left Right : Nat → ℚ) (j : Nat) (N N' : Nat → ℚ) (u : Nat)
    (h : N' u = N u) : basisTemp Left Right j N' u = basisTemp Left Right j N u := by
  simp only [basisTemp, h]

theorem inner_spec (Left Right : Nat → ℚ) (j : Nat) (k : Nat) :
    ∀ (r : Nat) (Saved : ℚ) (N : Nat → ℚ),
      (∀ t, (t < r ∨ r + k ≤ t) →
        (PImplNurbsCurve.BasisFunction.inner Left Right j k r Saved N).1 t = N t) ∧
      (∀ t, r ≤ t → t < r + k →
        (PImplNurbsCurve.BasisFunction.inner Left Right j k r Saved N).1 t =
          (if t = r then Saved else Left (j - (t - 1)) * basisTemp Left Right j N (t - 1)) +
            Right (t + 1) * basisTemp Left Right j N t) ∧
      (PImplNurbsCurve.BasisFunction.inner Left Right j k r Saved N).2 =
        (if k = 0 then Saved
         else Left (j - (r + k - 1)) * basisTemp Left Right j N (r + k - 1)) := by
  induction k with
  | zero =>
    intro r Saved N
    refine ⟨fun t _ => rfl, fun t h1 h2 => by omega, rfl⟩
  | succ k ih =>
    intro r Saved N
    obtain ⟨i1, i2, i3⟩ := ih (r + 1) (Left (j - r) * basisTemp Left Right j N r)
      (Function.update N r (Saved + Right (r + 1) * basisTemp Left Right j N r))
    have hunf : PImplNurbsCurve.BasisFunction.inner Left Right j (k + 1) r Saved N =
        PImplNurbsCurve.BasisFunction.inner Left Right j k (r + 1)
          (Left (j - r) * basisTemp Left Right j N r)
          (Function.update N r (Saved + Right (r + 1) * basisTemp Left Right j N r)) := rfl
    rw [hunf]
    refine ⟨fun t ht => ?_, fun t h1 h2 => ?_, ?_⟩
    · rw [i1 t (by omega), Function.update_noteq (by omega)]
    · by_cases htr : t = r
      · subst htr
        rw [i1 t (by omega), Function.update_same, if_pos rfl]
      · rw [i2 t (by omega) (by omega), if_neg htr]
        rw [basisTemp_congr Left Right j N _ t (Function.update_noteq htr _ _)]
        by_cases ht1 : t = r + 1
        · subst ht1
          rw [if_pos rfl]
          simp
        · rw [if_neg ht1, basisTemp_congr Left Right j N _ (t - 1)
            (Function.update_noteq (by omega) _ _)]
    · rw [i3]
      by_cases hk : k = 0
      · subst hk
        simp
      · rw [if_neg hk, if_neg (by omega)]
        have e : r + 1 + k - 1 = r + (k + 1) - 1 := by omega
        rw [e, basisTemp_congr Left Right j N _ _ (Function.update_noteq (by omega) _ _)]

/-- One outer iteration of `BasisFunction`, after the store `N[j] = Saved`. -/
theorem inner_eq_basisStep (Left Right : Nat → ℚ) (j : Nat) (N : Nat → ℚ) (hj : 1 ≤ j) :
    Function.update (PImplNurbsCurve.BasisFunction.inner Left Right j j 0 0 N).1 j
      (PImplNurbsCurve.BasisFunction.inner Left Right j j 0 0 N).2 =
      basisStep Left Right j N := by
  obtain ⟨i1, i2, i3⟩ := inner_spec Left Right j j 0 0 N
  funext t
  unfold basisStep
  by_cases h1 : j < t
  · rw [if_pos h1, Function.update_noteq (by omega), i1 t (by omega)]
  · rw [if_neg h1]
    by_cases h2 : t = j
    · subst h2
      rw [Function.update_same, i3]
      simp only [if_neg (lt_irrefl t), Nat.zero_add, add_zero]
    · have h4 : t < j := by omega
      rw [Function.update_noteq h2, i2 t (by omega) (by omega)]
      simp only [if_pos h4]

theorem basisTemp_agree (L R L' R' : Nat → ℚ) (j : Nat) (N : Nat → ℚ) (u : Nat)
    (hu : u < j) (hL : ∀ m, 1 ≤ m → m ≤ j → L m = L' m)
    (hR : ∀ m, 1 ≤ m → m ≤ j → R m = R' m) :
    basisTemp L R j N u = basisTemp L' R' j N u := by
  simp only [basisTemp, hL (j - u) (by omega) (by omega), hR (u + 1) (by omega) (by omega)]

theorem basisStep_agree (L R L' R' : Nat → ℚ) (j : Nat) (N : Nat → ℚ)
    (hL : ∀ m, 1 ≤ m → m ≤ j → L m = L' m)
    (hR : ∀ m, 1 ≤ m → m ≤ j → R m = R' m) :
    basisStep L R j N = basisStep L' R' j N := by
  funext t
  unfold basisStep
  by_cases h1 : j < t
  · rw [if_pos h1, if_pos h1]
  · rw [if_neg h1, if_neg h1]
    congr 1
    · by_cases h3 : t = 0
      · rw [if_pos h3, if_pos h3]
      · rw [if_neg h3, if_neg h3, hL (j - (t - 1)) (by omega) (by omega),
          basisTemp_agree L R L' R' j N (t - 1) (by omega) hL hR]
    · by_cases h4 : t < j
      · rw [if_pos h4, if_pos h4, hR (t + 1) (by omega) (by omega),
          basisTemp_agree L R L' R' j N t h4 hL hR]
      · rw [if_neg h4, if_neg h4]

theorem outer_spec (i : Int) (Knots : List ℚ) (Alpha : ℚ) (N0 : Nat → ℚ) (k : Nat) :
    ∀ (j : Nat) (B : BasisBuffers), 1 ≤ j →
      (∀ m, 1 ≤ m → m < j →
        B.Left m = leftOf Knots i Alpha m ∧ B.Right m = rightOf Knots i Alpha m) →
      B.N = basisWeights Knots i Alpha N0 (j - 1) →
      (∀ m : Nat, j ≤ m → m < j + k →
        0 ≤ i + 1 - (m : Int) ∧ i + (m : Int) < (Knots.length : Int)) →
      ∃ B', PImplNurbsCurve.BasisFunction.outer i Knots Alpha k j B = some B' ∧
        B'.N = basisWeights Knots i Alpha N0 (j - 1 + k) := by
  induction k with
  | zero =>
    intro j B _ _ hN _
    exact ⟨B, rfl, by simpa using hN⟩
  | succ k ih =>
    intro j B hj hLR hN hread
    obtain ⟨r1, r2⟩ := hread j le_rfl (by omega)
    have ha := readAt_knotAt Knots (i + 1 - (j : Int)) r1 (by omega)
    have hb := readAt_knotAt Knots (i + (j : Int)) (by omega) r2
    have hL : ∀ m, 1 ≤ m → m ≤ j →
        Function.update B.Left j (Alpha - knotAt Knots (i + 1 - (j : Int))) m =
          leftOf Knots i Alpha m := by
      intro m h1 h2
      by_cases hm : m = j
      · subst hm; rw [Function.update_same]; rfl
      · rw [Function.update_noteq hm]; exact (hLR m h1 (by omega)).1
    have hR : ∀ m, 1 ≤ m → m ≤ j →
        Function.update B.Right j (knotAt Knots (i + (j : Int)) - Alpha) m =
          rightOf Knots i Alpha m := by
      intro m h1 h2
      by_cases hm : m = j
      · subst hm; rw [Function.update_same]; rfl
      · rw [Function.update_noteq hm]; exact (hLR m h1 (by omega)).2
    obtain ⟨B', hB', hN'⟩ := ih (j + 1)
      ⟨Function.update B.Left j (Alpha - knotAt Knots (i + 1 - (j : Int))),
        Function.update B.Right j (knotAt Knots (i + (j : Int)) - Alpha),
        Function.update
          (PImplNurbsCurve.BasisFunction.inner
            (Function.update B.Left j (Alpha - knotAt Knots (i + 1 - (j : Int))))
            (Function.update B.Right j (knotAt Knots (i + (j : Int)) - Alpha)) j j 0 0 B.N).1 j
          (PImplNurbsCurve.BasisFunction.inner
            (Function.update B.Left j (Alpha - knotAt Knots (i + 1 - (j : Int))))
            (Function.update B.Right j (knotAt Knots (i + (j : Int)) - Alpha)) j j 0 0 B.N).2⟩
      (by omega)
      (fun m h1 h2 => ⟨hL m h1 (by omega), hR m h1 (by omega)⟩)
      (by
        show Function.update _ j _ = _
        rw [inner_eq_basisStep _ _ j B.N hj, basisStep_agree _ _ _ _ j B.N hL hR, hN]
        have e : j + 1 - 1 = (j - 1) + 1 := by omega
        rw [e]
        have e2 : j - 1 + 1 = j := by omega
        simp only [basisWeights, e2])
      (fun m h1 h2 => hread m (by omega) (by omega))
    refine ⟨B', ?_, ?_⟩
    · simp only [PImplNurbsCurve.BasisFunction.outer, ha, hb, Option.some_bind]
      exact hB'
    · have e : j + 1 - 1 + k = j - 1 + (k + 1) := by omega
      rw [hN', e]

/-- Closed form of `BasisFunction`: when the knot indices `i + 1 - m` and
`i + m`, `1 ≤ m ≤ degrees`, lie inside the knot buffer, the call returns and the
weights are those of the recurrence `basisWeights`. -/
theorem BasisFunction_eq (degrees : Nat) (i : Int) (Knots : List ℚ) (Alpha : ℚ)
    (N0 : Nat → ℚ)
    (hread : ∀ m : Nat, 1 ≤ m → m ≤ degrees →
      0 ≤ i + 1 - (m : Int) ∧ i + (m : Int) < (Knots.length : Int)) :
    PImplNurbsCurve.BasisFunction degrees i Knots Alpha N0 =
      some (basisWeights Knots i Alpha N0 degrees) := by
  obtain ⟨B', hB', hN'⟩ := outer_spec i Knots Alpha N0 degrees 1
    ⟨fun _ => 0, fun _ => 0, Function.update N0 0 1⟩ le_rfl
    (fun m h1 h2 => by omega) rfl (fun m h1 h2 => hread m h1 (by omega))
  simp only [PImplNurbsCurve.BasisFunction, hB', Option.map_some']
  rw [hN']
  simp

/-- The weights `N[0..j]` after outer iteration `j` do not depend on what the
weight buffer held on entry. -/
theorem basisWeights_init_irrelevant (Knots : List ℚ) (i : Int) (Alpha : ℚ)
    (N0 N1 : Nat → ℚ) :
    ∀ j t, t ≤ j → basisWeights Knots i Alpha N0 j t = basisWeights Knots i Alpha N1 j t := by
  intro j
  induction j with
  | zero =>
    intro t ht
    have : t = 0 := by omega
    subst this
    simp [basisWeights]
  | succ j ih =>
    intro t ht
    show basisStep _ _ _ _ t = basisStep _ _ _ _ t
    simp only [basisStep, if_neg (by omega : ¬ j + 1 < t), basisTemp]
    congr 1
    · by_cases h0 : t = 0
      · rw [if_pos h0, if_pos h0]
      · rw [if_neg h0, if_neg h0, ih (t - 1) (by omega)]
    · by_cases h1 : t < j + 1
      · rw [if_pos h1, if_pos h1, ih t (by omega)]
      · rw [if_neg h1, if_neg h1]

/-- The `degrees + 1` weights written by `BasisFunction` do not depend on the
content of the output buffer on entry (the buffer is uninitialised in
`EvaluateNurbsCurve`). -/
theorem BasisFunction_init_irrelevant (degrees : Nat) (i : Int) (Knots : List ℚ)
    (Alpha : ℚ) (N0 N1 : Nat → ℚ)
    (hread : ∀ m : Nat, 1 ≤ m → m ≤ degrees →
      0 ≤ i + 1 - (m : Int) ∧ i + (m : Int) < (Knots.length : Int)) :
    ∃ W0 W1, PImplNurbsCurve.BasisFunction degrees i Knots Alpha N0 = some W0 ∧
      PImplNurbsCurve.BasisFunction degrees i Knots Alpha N1 = some W1 ∧
      ∀ t, t ≤ degrees → W0 t = W1 t :=
  ⟨_, _, BasisFunction_eq degrees i Knots Alpha N0 hread,
    BasisFunction_eq degrees i Knots Alpha N1 hread,
    fun t ht => basisWeights_init_irrelevant Knots i Alpha N0 N1 degrees t ht⟩

/-- The weights after one outer iteration add up to the sum of the quotients
`Temp`, each multiplied by the unsubstituted denominator. -/
theorem basisStep_sum (L R : Nat → ℚ) (j : Nat) (N : Nat → ℚ) :
    ∑ t in Finset.range (j + 1), basisStep L R j N t =
      ∑ u in Finset.range j, (R (u + 1) + L (j - u)) * basisTemp L R j N u := by
  have h1 : ∀ t ∈ Finset.range (j + 1), basisStep L R j N t =
      (if t = 0 then 0 else L (j - (t - 1)) * basisTemp L R j N (t - 1)) +
        (if t < j then R (t + 1) * basisTemp L R j N t else 0) := by
    intro t ht
    have : ¬ j < t := by
      have := Finset.mem_range.mp ht
      omega
    simp only [basisStep, if_neg this]
  rw [Finset.sum_congr rfl h1, Finset.sum_add_distrib, Finset.sum_range_succ',
    Finset.sum_range_succ]
  simp only [if_pos, if_neg (lt_irrefl j), add_zero, Nat.succ_ne_zero, if_false,
    Nat.add_sub_cancel, if_true]
  rw [← Finset.sum_add_distrib]
  apply Finset.sum_congr rfl
  intro u hu
  have hu' : u < j := Finset.mem_range.mp hu
  simp only [if_pos hu']
  ring

/-- With every denominator met above the threshold in absolute value (so that
none is substituted), the weights keep the sum 1 through each outer
iteration. -/
theorem basisWeights_sum (Knots : List ℚ) (i : Int) (Alpha : ℚ) (N0 : Nat → ℚ)
    (degrees : Nat)
    (hden : ∀ j u : Nat, 1 ≤ j → j ≤ degrees → u < j →
      1 / 10000 < |knotAt Knots (i + (u : Int) + 1) - knotAt Knots (i + (u : Int) + 1 - (j : Int))|) :
    ∀ j, j ≤ degrees → ∑ t in Finset.range (j + 1), basisWeights Knots i Alpha N0 j t = 1 := by
  intro j
  induction j with
  | zero =>
    intro _
    simp [basisWeights]
  | succ j ih =>
    intro hj
    rw [show basisWeights Knots i Alpha N0 (j + 1) =
      basisStep (leftOf Knots i Alpha) (rightOf Knots i Alpha) (j + 1)
        (basisWeights Knots i Alpha N0 j) from rfl, basisStep_sum, ← ih (by omega)]
    apply Finset.sum_congr rfl
    intro u hu
    have hu' : u < j + 1 := Finset.mem_range.mp hu
    have hd := hden (j + 1) u (by omega) hj hu'
    have e : rightOf Knots i Alpha (u + 1) + leftOf Knots i Alpha (j + 1 - u) =
        knotAt Knots (i + (u : Int) + 1) - knotAt Knots (i + (u : Int) + 1 - ((j + 1 : Nat) : Int)) := by
      simp only [rightOf, leftOf]
      have e1 : i + ((u + 1 : Nat) : Int) = i + (u : Int) + 1 := by push_cast; ring
      have e2 : i + 1 - ((j + 1 - u : Nat) : Int) = i + (u : Int) + 1 - ((j + 1 : Nat) : Int) := by
        omega
      rw [e1, e2]
      ring
    have hne : knotAt Knots (i + (u : Int) + 1) -
        knotAt Knots (i + (u : Int) + 1 - ((j + 1 : Nat) : Int)) ≠ 0 := by
      intro h0
      rw [h0] at hd
      norm_num at hd
    simp only [basisTemp]
    rw [e, if_neg (not_le.mpr hd)]
    generalize knotAt Knots (i + (u : Int) + 1) -
      knotAt Knots (i + (u : Int) + 1 - ((j + 1 : Nat) : Int)) = D at hne
    field_simp

/-- Partition of unity of `BasisFunction`: when every knot difference
`Knots[i+u+1] - Knots[i+u+1-j]` (`1 ≤ j ≤ degrees`, `u < j`) is a difference of
knots of the buffer and exceeds the threshold in absolute value, the call
returns and the `degrees + 1` weights sum to exactly 1. -/
theorem BasisFunction_sum_one (degrees : Nat) (i : Int) (Knots : List ℚ) (Alpha : ℚ)
    (N0 : Nat → ℚ)
    (hden : ∀ j u : Nat, 1 ≤ j → j ≤ degrees → u < j →
      ∃ a b, readAt Knots (i + (u : Int) + 1) = some a ∧
        readAt Knots (i + (u : Int) + 1 - (j : Int)) = some b ∧ 1 / 10000 < |a - b|) :
    ∃ N, PImplNurbsCurve.BasisFunction degrees i Knots Alpha N0 = some N ∧
      ∑ t in Finset.range (degrees + 1), N t = 1 := by
  have hin : ∀ (x : Int) (v : ℚ), readAt Knots x = some v → 0 ≤ x ∧ x < (Knots.length : Int) := by
    intro x v hx
    unfold readAt at hx
    by_cases hneg : x < 0
    · simp [hneg] at hx
    · simp only [hneg, if_false] at hx
      have := (List.getElem?_eq_some.mp hx).1
      omega
  refine ⟨_, BasisFunction_eq degrees i Knots Alpha N0 ?_, ?_⟩
  · intro m h1 h2
    obtain ⟨a, b, ha, -, -⟩ := hden m (m - 1) h1 h2 (by omega)
    obtain ⟨a', b', -, hb', -⟩ := hden m 0 h1 h2 (by omega)
    have := hin _ _ ha
    have := hin _ _ hb'
    constructor <;> omega
  · apply basisWeights_sum Knots i Alpha N0 degrees _ degrees le_rfl
    intro j u h1 h2 h3
    obtain ⟨a, b, ha, hb, hab⟩ := hden j u h1 h2 h3
    rw [knotAt_of_readAt _ _ _ ha, knotAt_of_readAt _ _ _ hb]
    exact hab

/-- For `degrees ≥ 1` the function `FindSpan` returns on every knot vector:
its loop stays inside the buffer. -/
theorem FindSpan_total (degrees : Nat) (Knots : List ℚ) (Alpha : ℚ) (hp : 1 ≤ degrees) :
    ∃ s, PImplNurbsCurve.FindSpan degrees Knots Alpha = some s := by
  by_cases hN : 3 * degrees < Knots.length
  · obtain ⟨s, hs, -⟩ := FindSpan_spec degrees Knots Alpha hp hN
    exact ⟨s, hs⟩
  · have e : ((Knots.length : Int) - (degrees : Int) * 2 - 1 - (degrees : Int) + 1).toNat = 0 := by
      omega
    exact ⟨(Knots.length : Int) - (degrees : Int) * 2 - 1, by
      simp only [PImplNurbsCurve.FindSpan, e, PImplNurbsCurve.FindSpan.loop]⟩

/-- Claim C1, amended: for `degrees ≥ 1`, every knot vector and every `Alpha`
(the valid inputs of the data model included), `FindSpan` returns a span `s`,
and if every denominator `Knots[s+u+1] - Knots[s+u+1-j]` (`1 ≤ j ≤ degrees`,
`u < j`) met by `BasisFunction` is a difference of knots of the buffer and
exceeds `1e-4` in absolute value, then `BasisFunction` returns and its
`degrees + 1` weights sum to exactly 1, hence to 1 within `1e-4`. -/
theorem C1_partition_of_unity (degrees : Nat) (Knots : List ℚ) (Alpha : ℚ)
    (N0 : Nat → ℚ) (hp : 1 ≤ degrees) :
    ∃ s, PImplNurbsCurve.FindSpan degrees Knots Alpha = some s ∧
      ((∀ j u : Nat, 1 ≤ j → j ≤ degrees → u < j →
          ∃ a b, readAt Knots (s + (u : Int) + 1) = some a ∧
            readAt Knots (s + (u : Int) + 1 - (j : Int)) = some b ∧ 1 / 10000 < |a - b|) →
        ∃ N, PImplNurbsCurve.BasisFunction degrees s Knots Alpha N0 = some N ∧
          ∑ t in Finset.range (degrees + 1), N t = 1 ∧
          |∑ t in Finset.range (degrees + 1), N t - 1| ≤ 1 / 10000) := by
  obtain ⟨s, hs⟩ := FindSpan_total degrees Knots Alpha hp
  refine ⟨s, hs, fun hden => ?_⟩
  obtain ⟨N, hN, hsum⟩ := BasisFunction_sum_one degrees s Knots Alpha N0 hden
  refine ⟨N, hN, hsum, ?_⟩
  rw [hsum]
  norm_num

/-- Witness of C1: degree 2, the open-clamped knots of length 8 and
`Alpha = 1/2`; the span is 2 and the three denominators met are `1/2`, `1/2`
and `1`. -/
theorem C1_partition_of_unity_witness :
    1 ≤ 2 ∧
    ∃ N, PImplNurbsCurve.BasisFunction 2 2 [0, 0, 0, 1 / 2, 1, 1, 1, 1] (1 / 2) (fun _ => 0) = some N ∧
      ∑ t in Finset.range (2 + 1), N t = 1 ∧
      |∑ t in Finset.range (2 + 1), N t - 1| ≤ 1 / 10000 := by
  refine ⟨by decide, ?_⟩
  obtain ⟨s, hs, h⟩ := C1_partition_of_unity 2 [0, 0, 0, 1 / 2, 1, 1, 1, 1] (1 / 2)
    (fun _ => 0) (by decide)
  have hs2 : PImplNurbsCurve.FindSpan 2 [0, 0, 0, 1 / 2, 1, 1, 1, 1] (1 / 2) = some 2 := by
    with_unfolding_all decide
  rw [hs2] at hs
  have e : s = 2 := (Option.some.inj hs).symm
  subst e
  apply h
  intro j u h1 h2 h3
  have hj : j = 1 ∨ j = 2 := by omega
  rcases hj with rfl | rfl
  · have hu : u = 0 := by omega
    subst hu
    exact ⟨1 / 2, 0, by with_unfolding_all decide, by with_unfolding_all decide,
        by with_unfolding_all decide⟩
  · have hu : u = 0 ∨ u = 1 := by omega
    rcases hu with rfl | rfl
    · exact ⟨1 / 2, 0, by with_unfolding_all decide, by with_unfolding_all decide,
        by with_unfolding_all decide⟩
    · exact ⟨1, 0, by with_unfolding_all decide, by with_unfolding_all decide, by norm_num⟩

/-- Counterexample to C1 as stated: degree 1, the non-decreasing knot vector
`[0, 1/2, 1/2, 1]` (length `4 = 2 + 1 + 1`, two control points) and
`Alpha = 1/2`.  `FindSpan` returns 1, the only denominator is
`Knots[2] - Knots[1] = 0`, it is replaced by `1e-5`, and both weights are 0:
their sum is 0, not 1 within `1e-4`. -/
theorem C1_counterexample :
    List.Pairwise (fun a b : ℚ => a ≤ b) [0, 1 / 2, 1 / 2, 1] ∧
    [0, 1 / 2, 1 / 2, (1 : ℚ)].length = 2 + 1 + 1 ∧
    ((0 : ℚ) ≤ 1 / 2 ∧ (1 / 2 : ℚ) ≤ 1) ∧
    PImplNurbsCurve.FindSpan 1 [0, 1 / 2, 1 / 2, 1] (1 / 2) = some 1 ∧
    (PImplNurbsCurve.BasisFunction 1 1 [0, 1 / 2, 1 / 2, 1] (1 / 2) (fun _ => 0)).map
      (fun N => N 0 + N 1) = some 0 ∧
    ¬ (|(0 : ℚ) - 1| ≤ 1 / 10000) := by
  refine ⟨by with_unfolding_all decide, by decide, by with_unfolding_all decide,
    by with_unfolding_all decide, by with_unfolding_all decide, ?_⟩
  norm_num

/-! ## Cox-de Boor recursion -/

/-- The quotient `Temp` when the denominator is not substituted. -/
theorem basisTemp_exact (Knots : List ℚ) (i : Int) (Alpha : ℚ) (N : Nat → ℚ) (j u : Nat)
    (hu : u < j)
    (hd : 1 / 10000 < |knotAt Knots (i + (u : Int) + 1) -
      knotAt Knots (i + (u : Int) + 1 - (j : Int))|) :
    basisTemp (leftOf Knots i Alpha) (rightOf Knots i Alpha) j N u =
      N u / (knotAt Knots (i + (u : Int) + 1) - knotAt Knots (i + (u : Int) + 1 - (j : Int))) := by
  have e : rightOf Knots i Alpha (u + 1) + leftOf Knots i Alpha (j - u) =
      knotAt Knots (i + (u : Int) + 1) - knotAt Knots (i + (u : Int) + 1 - (j : Int)) := by
    simp only [rightOf, leftOf]
    have e1 : i + ((u + 1 : Nat) : Int) = i + (u : Int) + 1 := by push_cast; ring
    have e2 : i + 1 - ((j - u : Nat) : Int) = i + (u : Int) + 1 - (j : Int) := by omega
    rw [e1, e2]
    ring
  simp only [basisTemp]
  rw [e, if_neg (not_le.mpr hd)]

/-- Support of the recursion: `B_{k,d}` vanishes outside `s - d ≤ k ≤ s`. -/
theorem CoxDeBoor_support (K : Int → ℚ) (s : Int) (Alpha : ℚ) (d : Nat) :
    ∀ k : Int, (k < s - (d : Int) ∨ s < k) → CoxDeBoor K s Alpha d k = 0 := by
  induction d with
  | zero =>
    intro k hk
    have : k ≠ s := by omega
    simp [CoxDeBoor, this]
  | succ d ih =>
    intro k hk
    have h1 := ih k (by omega)
    have h2 := ih (k + 1) (by omega)
    simp only [CoxDeBoor, h1, h2, mul_zero, add_zero]

/-- The weights of the recurrence are the Cox-de Boor basis functions when no
denominator is substituted. -/
theorem basisWeights_eq_CoxDeBoor (Knots : List ℚ) (s : Int) (Alpha : ℚ) (N0 : Nat → ℚ)
    (degrees : Nat) (K : Int → ℚ)
    (hK : ∀ x : Int, s + 1 - (degrees : Int) ≤ x → x ≤ s + (degrees : Int) →
      K x = knotAt Knots x)
    (hden : ∀ j u : Nat, 1 ≤ j → j ≤ degrees → u < j →
      1 / 10000 < knotAt Knots (s + (u : Int) + 1) - knotAt Knots (s + (u : Int) + 1 - (j : Int))) :
    ∀ j, j ≤ degrees → ∀ t, t ≤ j →
      basisWeights Knots s Alpha N0 j t = CoxDeBoor K s Alpha j (s - (j : Int) + (t : Int)) := by
  intro j
  induction j with
  | zero =>
    intro _ t ht
    have : t = 0 := by omega
    subst this
    simp [basisWeights, CoxDeBoor]
  | succ j ih =>
    intro hj t ht
    have ihj := ih (by omega)
    have habs : ∀ u : Nat, u < j + 1 →
        1 / 10000 < |knotAt Knots (s + (u : Int) + 1) -
          knotAt Knots (s + (u : Int) + 1 - ((j + 1 : Nat) : Int))| := by
      intro u hu
      exact lt_of_lt_of_le (hden (j + 1) u (by omega) hj hu) (le_abs_self _)
    have hstep : basisWeights Knots s Alpha N0 (j + 1) t =
        (if t = 0 then 0 else leftOf Knots s Alpha (j + 1 - (t - 1)) *
          basisTemp (leftOf Knots s Alpha) (rightOf Knots s Alpha) (j + 1)
            (basisWeights Knots s Alpha N0 j) (t - 1)) +
        (if t < j + 1 then rightOf Knots s Alpha (t + 1) *
          basisTemp (leftOf Knots s Alpha) (rightOf Knots s Alpha) (j + 1)
            (basisWeights Knots s Alpha N0 j) t else 0) := by
      show basisStep _ _ _ _ t = _
      simp only [basisStep, if_neg (by omega : ¬ j + 1 < t)]
    rw [hstep]
    simp only [CoxDeBoor]
    congr 1
    · by_cases h0 : t = 0
      · subst h0
        rw [if_pos rfl, CoxDeBoor_support K s Alpha j _ (by push_cast; omega), mul_zero]
      · rw [if_neg h0, basisTemp_exact Knots s Alpha _ (j + 1) (t - 1) (by omega)
          (habs (t - 1) (by omega)), ihj (t - 1) (by omega)]
        have e1 : s - (j : Int) + ((t - 1 : Nat) : Int) = s - ((j + 1 : Nat) : Int) + (t : Int) := by
          omega
        have e2 : s + ((t - 1 : Nat) : Int) + 1 = s - ((j + 1 : Nat) : Int) + (t : Int) +
            ((j + 1 : Nat) : Int) := by omega
        have e3 : s + ((t - 1 : Nat) : Int) + 1 - ((j + 1 : Nat) : Int) =
            s - ((j + 1 : Nat) : Int) + (t : Int) := by omega
        have e4 : s + 1 - ((j + 1 - (t - 1) : Nat) : Int) =
            s - ((j + 1 : Nat) : Int) + (t : Int) := by omega
        rw [e1, e3, e2]
        simp only [leftOf, e4]
        rw [hK (s - ((j + 1 : Nat) : Int) + (t : Int)) (by omega) (by omega),
          hK (s - ((j + 1 : Nat) : Int) + (t : Int) + ((j + 1 : Nat) : Int)) (by omega) (by omega)]
        ring
    · by_cases h1 : t < j + 1
      · rw [if_pos h1, basisTemp_exact Knots s Alpha _ (j + 1) t h1 (habs t h1),
          ihj t (by omega)]
        have e1 : s - (j : Int) + (t : Int) = s - ((j + 1 : Nat) : Int) + (t : Int) + 1 := by
          omega
        have e2 : s + (t : Int) + 1 = s - ((j + 1 : Nat) : Int) + (t : Int) +
            ((j + 1 : Nat) : Int) + 1 := by omega
        have e3 : s + (t : Int) + 1 - ((j + 1 : Nat) : Int) =
            s - ((j + 1 : Nat) : Int) + (t : Int) + 1 := by omega
        have e4 : s + ((t + 1 : Nat) : Int) = s - ((j + 1 : Nat) : Int) + (t : Int) +
            ((j + 1 : Nat) : Int) + 1 := by omega
        rw [e1, e3, e2]
        simp only [rightOf, e4]
        rw [hK (s - ((j + 1 : Nat) : Int) + (t : Int) + ((j + 1 : Nat) : Int) + 1)
            (by omega) (by omega),
          hK (s - ((j + 1 : Nat) : Int) + (t : Int) + 1) (by omega) (by omega)]
        ring
      · have ht' : t = j + 1 := by omega
        subst ht'
        rw [if_neg h1, CoxDeBoor_support K s Alpha j _ (by push_cast; omega), mul_zero]

theorem readAt_inside {α : Type} (xs : List α) (x : Int) (v : α)
    (hx : readAt xs x = some v) : 0 ≤ x ∧ x < (xs.length : Int) := by
  unfold readAt at hx
  by_cases hneg : x < 0
  · simp [hneg] at hx
  · simp only [hneg, if_false] at hx
    have := (List.getElem?_eq_some.mp hx).1
    omega

/-- Claim C9: for every degree, span `s`, `Alpha` and knot vector such that
every knot difference `Knots[s+u+1] - Knots[s+u+1-j]` (`1 ≤ j ≤ degrees`,
`0 ≤ u < j`) exceeds `1e-4`, `BasisFunction` returns and the weight `N[r]` it
writes equals, for each `r` in `[0, degrees]`, the Cox-de Boor basis function
`B_{s-degrees+r, degrees}(Alpha)`.  `K` is the knot vector read as a map on all
integers: any map that agrees with the buffer on the buffer's indices. -/
theorem C9_cox_de_boor (degrees : Nat) (s : Int) (Knots : List ℚ) (Alpha : ℚ)
    (N0 : Nat → ℚ) (K : Int → ℚ)
    (hK : ∀ (x : Int) (v : ℚ), readAt Knots x = some v → K x = v)
    (hden : ∀ j u : Nat, 1 ≤ j → j ≤ degrees → u < j →
      ∃ a b, readAt Knots (s + (u : Int) + 1) = some a ∧
        readAt Knots (s + (u : Int) + 1 - (j : Int)) = some b ∧ 1 / 10000 < a - b) :
    ∃ N, PImplNurbsCurve.BasisFunction degrees s Knots Alpha N0 = some N ∧
      ∀ r : Nat, r ≤ degrees →
        N r = CoxDeBoor K s Alpha degrees (s - (degrees : Int) + (r : Int)) := by
  have hread : ∀ m : Nat, 1 ≤ m → m ≤ degrees →
      0 ≤ s + 1 - (m : Int) ∧ s + (m : Int) < (Knots.length : Int) := by
    intro m h1 h2
    obtain ⟨a, b, ha, -, -⟩ := hden m (m - 1) h1 h2 (by omega)
    obtain ⟨a', b', -, hb', -⟩ := hden m 0 h1 h2 (by omega)
    have := readAt_inside _ _ _ ha
    have := readAt_inside _ _ _ hb'
    constructor <;> omega
  refine ⟨_, BasisFunction_eq degrees s Knots Alpha N0 hread, fun r hr => ?_⟩
  apply basisWeights_eq_CoxDeBoor Knots s Alpha N0 degrees K _ _ degrees le_rfl r hr
  · intro x h1 h2
    by_cases hp : degrees = 0
    · omega
    · obtain ⟨r1, r2⟩ := hread degrees (by omega) le_rfl
      obtain ⟨r3, -⟩ := hread 1 le_rfl (by omega)
      exact hK x _ (readAt_knotAt Knots x (by omega) (by omega))
  · intro j u h1 h2 h3
    obtain ⟨a, b, ha, hb, hab⟩ := hden j u h1 h2 h3
    rw [knotAt_of_readAt _ _ _ ha, knotAt_of_readAt _ _ _ hb]
    exact hab

/-- Witness of C9: degree 2, span 2, the open-clamped knots of length 8 and
`Alpha = 1/2`. -/
theorem C9_cox_de_boor_witness :
    ∃ N, PImplNurbsCurve.BasisFunction 2 2 [0, 0, 0, 1 / 2, 1, 1, 1, 1] (1 / 2) (fun _ => 0) = some N ∧
      ∀ r : Nat, r ≤ 2 →
        N r = CoxDeBoor (knotAt [0, 0, 0, 1 / 2, 1, 1, 1, 1]) 2 (1 / 2) 2
          (2 - ((2 : Nat) : Int) + (r : Int)) := by
  apply C9_cox_de_boor 2 2 [0, 0, 0, 1 / 2, 1, 1, 1, 1] (1 / 2) (fun _ => 0)
    (knotAt [0, 0, 0, 1 / 2, 1, 1, 1, 1]) (fun x v hx => knotAt_of_readAt _ x v hx)
  intro j u h1 h2 h3
  have hj : j = 1 ∨ j = 2 := by omega
  rcases hj with rfl | rfl
  · have hu : u = 0 := by omega
    subst hu
    exact ⟨1 / 2, 0, by with_unfolding_all decide, by with_unfolding_all decide,
      by with_unfolding_all decide⟩
  · have hu : u = 0 ∨ u = 1 := by omega
    rcases hu with rfl | rfl
    · exact ⟨1 / 2, 0, by with_unfolding_all decide, by with_unfolding_all decide,
        by with_unfolding_all decide⟩
    · exact ⟨1, 0, by with_unfolding_all decide, by with_unfolding_all decide,
        by with_unfolding_all decide⟩

/-! ## Curve point evaluator and basis snapshot -/

theorem foldl_bind_none {α β : Type} (f : β → α → Option β) (l : List α) :
    l.foldl (fun acc i => acc.bind fun P => f P i) none = none := by
  induction l with
  | nil => rfl
  | cons a l ih => simpa using ih

theorem loop_eq_foldl (degrees : Nat) (Points : List vec3) (Span : Int) (N : Nat → ℚ)
    (k : Nat) : ∀ (i : Nat) (P : vec3),
      EvaluateNurbsCurve.loop degrees Points Span N k i P =
        (List.range' i k).foldl
          (fun acc t => acc.bind fun Q =>
            (readAt Points (Span - (degrees : Int) + (t : Int))).map fun pt => Q + N t • pt)
          (some P) := by
  induction k with
  | zero => intro i P; rfl
  | succ k ih =>
    intro i P
    rw [List.range'_succ, List.foldl_cons]
    cases hpt : readAt Points (Span - (degrees : Int) + (i : Int)) with
    | none =>
      simp only [EvaluateNurbsCurve.loop, hpt, Option.none_bind, Option.some_bind, Option.map_none']
      exact (foldl_bind_none _ _).symm
    | some pt =>
      simp only [EvaluateNurbsCurve.loop, hpt, Option.some_bind, Option.map_some']
      exact ih (i + 1) _

/-- The accumulation loop of `EvaluateNurbsCurve` as a sum, when every control
point it reads is inside the buffer. -/
theorem loop_eq_sum (degrees : Nat) (Points : List vec3) (Span : Int) (N : Nat → ℚ)
    (k : Nat) : ∀ (i : Nat) (P : vec3),
      (∀ t : Nat, i ≤ t → t < i + k →
        0 ≤ Span - (degrees : Int) + (t : Int) ∧
          Span - (degrees : Int) + (t : Int) < (Points.length : Int)) →
      EvaluateNurbsCurve.loop degrees Points Span N k i P =
        some (P + ∑ t in Finset.range k,
          N (i + t) • pointAt Points (Span - (degrees : Int) + ((i + t : Nat) : Int))) := by
  induction k with
  | zero => intro i P _; simp [EvaluateNurbsCurve.loop]
  | succ k ih =>
    intro i P h
    obtain ⟨h1, h2⟩ := h i le_rfl (by omega)
    obtain ⟨pt, hpt⟩ := readAt_eq_some Points _ h1 h2
    have hpa : pointAt Points (Span - (degrees : Int) + (i : Int)) = pt := by
      simp [pointAt, hpt]
    simp only [EvaluateNurbsCurve.loop, hpt, Option.some_bind]
    rw [ih (i + 1) _ (fun t ht1 ht2 => h t (by omega) (by omega)), Finset.sum_range_succ']
    congr 1
    simp only [Nat.add_zero, hpa]
    have e : ∀ t : Nat, i + 1 + t = i + (t + 1) := fun t => by omega
    simp only [e]
    abel

/-- Claim C10: for every degree, knot vector, control points and `Alpha`,
`EvaluateNurbsCurve` equals the weighted sum reconstructed from the snapshot
`B = EvaluateNurbsBasis(Knots, Alpha)` (and fails exactly when the snapshot or
one of its control-point reads does); `B.Num() = degrees + 1`,
`B.Index(i) = span - degrees + i` for the span found by `FindSpan`, and the
weights are those written by `BasisFunction`. -/
theorem C10_snapshot_equivalence (degrees : Nat) (Points : List vec3) (Knots : List ℚ)
    (Alpha : ℚ) :
    EvaluateNurbsCurve degrees Points Knots Alpha =
        (EvaluateNurbsBasis degrees Knots Alpha).bind (fun B => snapshotSum B Points) ∧
      ∀ B, EvaluateNurbsBasis degrees Knots Alpha = some B →
        B.Num = degrees + 1 ∧
        PImplNurbsCurve.FindSpan degrees Knots (clamp Alpha 0 1) = some B.SpanIndex ∧
        PImplNurbsCurve.BasisFunction degrees B.SpanIndex Knots (clamp Alpha 0 1) (fun _ => 0) =
          some B.N ∧
        ∀ i : Nat, B.Index (i : Int) = B.SpanIndex - (degrees : Int) + (i : Int) ∧
          B.Weight (i : Int) = B.N i := by
  constructor
  · simp only [EvaluateNurbsCurve, EvaluateNurbsBasis]
    cases hS : PImplNurbsCurve.FindSpan degrees Knots (clamp Alpha 0 1) with
    | none => rfl
    | some Span =>
      simp only [Option.some_bind]
      cases hN : PImplNurbsCurve.BasisFunction degrees Span Knots (clamp Alpha 0 1) (fun _ => 0) with
      | none => rfl
      | some N =>
        simp only [Option.some_bind, Option.map_some']
        rw [loop_eq_foldl, snapshotSum, List.range_eq_range']
        simp [TNurbsBasis.Num, TNurbsBasis.Index, TNurbsBasis.Weight]
  · intro B hB
    simp only [EvaluateNurbsBasis] at hB
    cases hS : PImplNurbsCurve.FindSpan degrees Knots (clamp Alpha 0 1) with
    | none => simp [hS] at hB
    | some Span =>
      cases hN : PImplNurbsCurve.BasisFunction degrees Span Knots (clamp Alpha 0 1) (fun _ => 0) with
      | none => simp [hS, hN] at hB
      | some N =>
        simp only [hS, hN, Option.some_bind, Option.map_some', Option.some.injEq] at hB
        subst hB
        exact ⟨rfl, rfl, hN, fun i => ⟨rfl, by simp [TNurbsBasis.Weight]⟩⟩

/-- Witness of C10: degree 2, five control points, the open-clamped knots of
length 8 and `Alpha = 1/2`; both sides are the point `(3/2, 1/2, 0)`. -/
theorem C10_snapshot_equivalence_witness :
    EvaluateNurbsCurve 2 [(0, 0, 0), (1, 0, 0), (2, 1, 0), (3, 1, 0), (4, 0, 0)]
        [0, 0, 0, 1 / 2, 1, 1, 1, 1] (1 / 2) = some (3 / 2, 1 / 2, 0) ∧
      (EvaluateNurbsBasis 2 [0, 0, 0, 1 / 2, 1, 1, 1, 1] (1 / 2)).bind
        (fun B => snapshotSum B [(0, 0, 0), (1, 0, 0), (2, 1, 0), (3, 1, 0), (4, 0, 0)]) =
        some (3 / 2, 1 / 2, 0) := by
  have h := (C10_snapshot_equivalence 2 [(0, 0, 0), (1, 0, 0), (2, 1, 0), (3, 1, 0), (4, 0, 0)]
    [0, 0, 0, 1 / 2, 1, 1, 1, 1] (1 / 2)).1
  have e : EvaluateNurbsCurve 2 [(0, 0, 0), (1, 0, 0), (2, 1, 0), (3, 1, 0), (4, 0, 0)]
      [0, 0, 0, 1 / 2, 1, 1, 1, 1] (1 / 2) = some (3 / 2, 1 / 2, 0) := by
    with_unfolding_all decide
  exact ⟨e, h ▸ e⟩

/-! ## Endpoints of an open-clamped curve -/

/-- `FindSpan` returns the first matching index of its range. -/
theorem FindSpan_eq_of_first (degrees : Nat) (Knots : List ℚ) (Alpha : ℚ) (s0 : Int)
    (hp : 1 ≤ degrees) (hN : 3 * degrees < Knots.length)
    (h1 : (degrees : Int) ≤ s0) (h2 : s0 ≤ (Knots.length : Int) - 2 * (degrees : Int) - 1)
    (hm : knotAt Knots s0 ≤ Alpha ∧ Alpha ≤ knotAt Knots (s0 + 1))
    (hfirst : ∀ t : Int, (degrees : Int) ≤ t → t < s0 →
      ¬ (knotAt Knots t ≤ Alpha ∧ Alpha ≤ knotAt Knots (t + 1))) :
    PImplNurbsCurve.FindSpan degrees Knots Alpha = some s0 := by
  obtain ⟨s, hs, c1, c2, hcase⟩ := FindSpan_spec degrees Knots Alpha hp hN
  rcases hcase with ⟨d1, d2, d3⟩ | ⟨-, d2⟩
  · have : s = s0 := by
      rcases lt_trichotomy s s0 with h | h | h
      · exact absurd ⟨d1, d2⟩ (hfirst s c1 h)
      · exact h
      · exact absurd hm (d3 s0 h1 h)
    rw [hs, this]
  · exact absurd hm (d2 s0 h1 h2)

/-- Weights when every `Left[m]` is zero and `Right[1]` is above the
threshold: `[1, 0, ..., 0]`. -/
theorem basisWeights_left_zero (Knots : List ℚ) (i : Int) (Alpha : ℚ) (N0 : Nat → ℚ)
    (degrees : Nat)
    (hL : ∀ m : Nat, 1 ≤ m → m ≤ degrees → leftOf Knots i Alpha m = 0)
    (hR : 1 / 10000 < rightOf Knots i Alpha 1) :
    ∀ j, j ≤ degrees → ∀ t, t ≤ j →
      basisWeights Knots i Alpha N0 j t = if t = 0 then 1 else 0 := by
  intro j
  induction j with
  | zero =>
    intro _ t ht
    have : t = 0 := by omega
    subst this
    simp [basisWeights]
  | succ j ih =>
    intro hj t ht
    have ihj := ih (by omega)
    show basisStep _ _ _ _ t = _
    simp only [basisStep, if_neg (by omega : ¬ j + 1 < t)]
    by_cases h0 : t = 0
    · subst h0
      have hpos : (0 : ℚ) < rightOf Knots i Alpha 1 := lt_trans (by norm_num) hR
      have habs : ¬ |rightOf Knots i Alpha 1| ≤ 1 / 10000 := by
        rw [abs_of_pos hpos]; exact not_le.mpr hR
      simp only [if_pos, if_pos (Nat.succ_pos j), basisTemp, ihj 0 (Nat.zero_le j),
        hL (j + 1 - 0) (by omega) (by omega), add_zero, zero_add, if_neg habs]
      field_simp
    · have hW : ∀ u, u ≤ j → u ≠ 0 → basisWeights Knots i Alpha N0 j u = 0 := by
        intro u hu hu0
        rw [ihj u hu, if_neg hu0]
      rw [if_neg h0, if_neg h0, hL (j + 1 - (t - 1)) (by omega) (by omega), zero_mul, zero_add]
      by_cases h1 : t < j + 1
      · rw [if_pos h1]
        simp only [basisTemp, hW t (by omega) h0, zero_div, mul_zero]
      · rw [if_neg h1]

/-- Weights when every `Right[m]` is zero: `[0, ..., 0, c^j]` after iteration
`j`, with `c` the quotient of `Left[1]` by its (possibly substituted)
denominator. -/
theorem basisWeights_right_zero (Knots : List ℚ) (i : Int) (Alpha : ℚ) (N0 : Nat → ℚ)
    (degrees : Nat)
    (hR : ∀ m : Nat, 1 ≤ m → m ≤ degrees → rightOf Knots i Alpha m = 0) :
    ∀ j, j ≤ degrees → ∀ t, t ≤ j →
      basisWeights Knots i Alpha N0 j t =
        if t = j then
          (leftOf Knots i Alpha 1 /
            (if |leftOf Knots i Alpha 1| ≤ 1 / 10000 then 1 / 100000
             else leftOf Knots i Alpha 1)) ^ j
        else 0 := by
  intro j
  induction j with
  | zero =>
    intro _ t ht
    have : t = 0 := by omega
    subst this
    simp [basisWeights]
  | succ j ih =>
    intro hj t ht
    have ihj := ih (by omega)
    show basisStep _ _ _ _ t = _
    simp only [basisStep, if_neg (by omega : ¬ j + 1 < t)]
    have hsecond : (if t < j + 1 then rightOf Knots i Alpha (t + 1) *
        basisTemp (leftOf Knots i Alpha) (rightOf Knots i Alpha) (j + 1)
          (basisWeights Knots i Alpha N0 j) t else 0) = 0 := by
      by_cases h1 : t < j + 1
      · rw [if_pos h1, hR (t + 1) (by omega) (by omega), zero_mul]
      · rw [if_neg h1]
    rw [hsecond, add_zero]
    by_cases hJ : t = j + 1
    · subst hJ
      rw [if_neg (Nat.succ_ne_zero j), if_pos rfl]
      have e1 : j + 1 - (j + 1 - 1) = 1 := by omega
      have e2 : j + 1 - 1 = j := by omega
      have e3 : j + 1 - j = 1 := by omega
      simp only [basisTemp, e1, e2, e3, ihj j le_rfl, if_pos, hR (j + 1) (by omega) hj, zero_add]
      rw [pow_succ]
      ring
    · rw [if_neg hJ]
      by_cases h0 : t = 0
      · rw [if_pos h0]
      · rw [if_neg h0]
        simp only [basisTemp, ihj (t - 1) (by omega), if_neg (by omega : ¬ t - 1 = j),
          zero_div, mul_zero]

/-- The knots written by `MakeOpenClampedKnot`, by region. -/
theorem MakeOpenClampedKnot_values (degrees : Nat) (InKnots : List ℚ)
    (hN : 3 * degrees < InKnots.length) :
    ∃ K, MakeOpenClampedKnot degrees InKnots = some K ∧ K.length = InKnots.length ∧
      (∀ m : Int, 0 ≤ m → m ≤ (degrees : Int) → knotAt K m = 0) ∧
      (∀ m : Int, (degrees : Int) ≤ m → m ≤ (InKnots.length : Int) - 2 * (degrees : Int) →
        m < (InKnots.length : Int) →
        knotAt K m = ((m : ℚ) - (degrees : ℚ)) / ((InKnots.length : ℚ) - 3 * (degrees : ℚ))) ∧
      (∀ m : Int, (InKnots.length : Int) - 2 * (degrees : Int) ≤ m →
        m < (InKnots.length : Int) → knotAt K m = 1) := by
  obtain ⟨K, hK, hl, hr⟩ := MakeOpenClampedKnot_grid degrees InKnots hN
  have hd : ((InKnots.length : ℚ) - 3 * (degrees : ℚ)) ≠ 0 := by
    have : (3 * (degrees : ℚ)) < (InKnots.length : ℚ) := by exact_mod_cast hN
    linarith
  have hcast : ((((InKnots.length : Int) - 3 * (degrees : Int) : Int) : ℚ)) =
      (InKnots.length : ℚ) - 3 * (degrees : ℚ) := by push_cast; ring
  refine ⟨K, hK, hl, fun m h0 h1 => ?_, fun m h0 h1 h2 => ?_, fun m h0 h1 => ?_⟩
  · apply knotAt_of_readAt
    rw [hr m h0 (by omega)]
    by_cases hm : m < (degrees : Int)
    · rw [if_pos hm]; simp
    · have : m = (degrees : Int) := by omega
      subst this
      rw [if_neg hm, if_pos (by omega)]; simp
  · apply knotAt_of_readAt
    rw [hr m (by omega) h2, if_neg (by omega), hcast]
    congr 2
    by_cases hm : m < (InKnots.length : Int) - (degrees : Int) * 2
    · rw [if_pos hm]; push_cast; ring
    · have : m = (InKnots.length : Int) - 2 * (degrees : Int) := by omega
      subst this
      rw [if_neg hm]; push_cast; ring
  · apply knotAt_of_readAt
    rw [hr m (by omega) h1, if_neg (by omega), if_neg (by omega), hcast, div_self hd]

/-- Evaluation of an open-clamped curve at `Alpha = 0`: span `degrees`, weights
`[1, 0, ..., 0]`, point `Points[0]`, when the knot spacing is above the
threshold. -/
theorem EvaluateNurbsCurve_open_zero (degrees : Nat) (Points : List vec3)
    (InKnots : List ℚ) (hp : 1 ≤ degrees) (hN : 3 * degrees < InKnots.length)
    (hPts : degrees < Points.length)
    (hsp : (1 : ℚ) / 10000 < 1 / ((InKnots.length : ℚ) - 3 * (degrees : ℚ))) :
    ∃ K, MakeOpenClampedKnot degrees InKnots = some K ∧
      PImplNurbsCurve.FindSpan degrees K 0 = some (degrees : Int) ∧
      (∃ W, PImplNurbsCurve.BasisFunction degrees (degrees : Int) K 0 (fun _ => 0) = some W ∧
        W 0 = 1 ∧ ∀ t : Nat, 1 ≤ t → t ≤ degrees → W t = 0) ∧
      EvaluateNurbsCurve degrees Points K 0 = some (pointAt Points 0) := by
  obtain ⟨K, hK, hl, kz, km, ko⟩ := MakeOpenClampedKnot_values degrees InKnots hN
  have hk1 : knotAt K ((degrees : Int) + 1) =
      1 / ((InKnots.length : ℚ) - 3 * (degrees : ℚ)) := by
    rw [km _ (by omega) (by omega) (by omega)]
    push_cast
    ring
  have hspan : PImplNurbsCurve.FindSpan degrees K 0 = some (degrees : Int) := by
    apply FindSpan_eq_of_first degrees K 0 (degrees : Int) hp (by omega) le_rfl (by omega)
    · rw [kz _ (by omega) le_rfl, hk1]
      exact ⟨le_rfl, le_of_lt (lt_trans (by norm_num) hsp)⟩
    · intro t h1 h2; omega
  have hW := BasisFunction_eq degrees (degrees : Int) K 0 (fun _ => 0)
    (fun m h1 h2 => by constructor <;> omega)
  have hval := basisWeights_left_zero K (degrees : Int) 0 (fun _ => 0) degrees
    (fun m h1 h2 => by
      simp only [leftOf]
      rw [kz _ (by omega) (by omega)]
      norm_num)
    (by
      simp only [rightOf]
      rw [show (degrees : Int) + ((1 : Nat) : Int) = (degrees : Int) + 1 from rfl, hk1]
      simpa using hsp)
    degrees le_rfl
  refine ⟨K, hK, hspan, ⟨_, hW, ?_, fun t h1 h2 => ?_⟩, ?_⟩
  · rw [hval 0 (Nat.zero_le _), if_pos rfl]
  · rw [hval t h2, if_neg (by omega)]
  · have hc : clamp 0 0 1 = 0 := by norm_num [clamp]
    simp only [EvaluateNurbsCurve, hc, hspan, hW, Option.some_bind]
    rw [loop_eq_sum degrees Points _ _ (degrees + 1) 0 0
      (fun t h1 h2 => by constructor <;> omega)]
    congr 1
    rw [Finset.sum_eq_single 0]
    · rw [hval 0 (Nat.zero_le _), if_pos rfl, zero_add, one_smul]
      congr 1
      simp
    · intro t ht ht0
      have := Finset.mem_range.mp ht
      rw [Nat.zero_add, hval t (by omega), if_neg ht0, zero_smul]
    · intro h
      exact absurd (Finset.mem_range.mpr (Nat.succ_pos _)) h

/-- Evaluation of an open-clamped curve at `Alpha = 1`: the span is
`N - 2 degrees - 1`, the only non-zero weight is the last one and the point is
that weight times `Points[N - 2 degrees - 1]`.  The weight is `c ^ degrees`
with `c` the quotient of the knot spacing `1 / (N - 3 degrees)` by its
(possibly substituted) denominator. -/
theorem EvaluateNurbsCurve_open_one (degrees : Nat) (Points : List vec3)
    (InKnots : List ℚ) (hp : 1 ≤ degrees) (hN : 3 * degrees < InKnots.length)
    (hPts : InKnots.length - 2 * degrees ≤ Points.length) :
    ∃ K, MakeOpenClampedKnot degrees InKnots = some K ∧
      PImplNurbsCurve.FindSpan degrees K 1 =
        some ((InKnots.length : Int) - 2 * (degrees : Int) - 1) ∧
      EvaluateNurbsCurve degrees Points K 1 =
        some (((1 / ((InKnots.length : ℚ) - 3 * (degrees : ℚ))) /
            (if |1 / ((InKnots.length : ℚ) - 3 * (degrees : ℚ))| ≤ 1 / 10000 then 1 / 100000
             else 1 / ((InKnots.length : ℚ) - 3 * (degrees : ℚ)))) ^ degrees •
          pointAt Points ((InKnots.length : Int) - 2 * (degrees : Int) - 1)) := by
  obtain ⟨K, hK, hl, kz, km, ko⟩ := MakeOpenClampedKnot_values degrees InKnots hN
  have hd : (0 : ℚ) < (InKnots.length : ℚ) - 3 * (degrees : ℚ) := by
    have : (3 * (degrees : ℚ)) < (InKnots.length : ℚ) := by exact_mod_cast hN
    linarith
  have hspan : PImplNurbsCurve.FindSpan degrees K 1 =
      some ((InKnots.length : Int) - 2 * (degrees : Int) - 1) := by
    apply FindSpan_eq_of_first degrees K 1 _ hp (by omega) (by omega) (by omega)
    · constructor
      · rw [km _ (by omega) (by omega) (by omega), div_le_one hd]
        push_cast
        linarith
      · rw [ko _ (by omega) (by omega)]
    · intro t h1 h2 hmatch
      have h3 := hmatch.2
      rw [km _ (by omega) (by omega) (by omega), le_div_iff₀ hd] at h3
      have h4 : ((t + 1 : Int) : ℚ) ≤ ((InKnots.length : Int) - 2 * (degrees : Int) - 1 : Int) := by
        exact_mod_cast (by omega : t + 1 ≤ (InKnots.length : Int) - 2 * (degrees : Int) - 1)
      push_cast at h4 h3
      linarith
  have hW := BasisFunction_eq degrees ((InKnots.length : Int) - 2 * (degrees : Int) - 1) K 1
    (fun _ => 0) (fun m h1 h2 => by constructor <;> omega)
  have hL1 : leftOf K ((InKnots.length : Int) - 2 * (degrees : Int) - 1) 1 1 =
      1 / ((InKnots.length : ℚ) - 3 * (degrees : ℚ)) := by
    simp only [leftOf]
    rw [km _ (by push_cast; omega) (by push_cast; omega) (by push_cast; omega)]
    push_cast
    field_simp
    ring
  have hval := basisWeights_right_zero K ((InKnots.length : Int) - 2 * (degrees : Int) - 1) 1
    (fun _ => 0) degrees
    (fun m h1 h2 => by
      simp only [rightOf]
      rw [ko _ (by omega) (by omega)]
      norm_num)
    degrees le_rfl
  rw [hL1] at hval
  refine ⟨K, hK, hspan, ?_⟩
  have hc : clamp 1 0 1 = 1 := by norm_num [clamp]
  simp only [EvaluateNurbsCurve, hc, hspan, hW, Option.some_bind]
  rw [loop_eq_sum degrees Points _ _ (degrees + 1) 0 0
    (fun t h1 h2 => by constructor <;> omega)]
  congr 1
  rw [Finset.sum_eq_single degrees]
  · rw [Nat.zero_add, hval degrees le_rfl, if_pos rfl, zero_add]
    congr 2
    omega
  · intro t ht htp
    have := Finset.mem_range.mp ht
    rw [Nat.zero_add, hval t (by omega), if_neg htp, zero_smul]
  · intro h
    exact absurd (Finset.mem_range.mpr (Nat.lt_succ_self _)) h

/-- Claim C2, as the code has it: for `degrees ≥ 1`, `n > 2 degrees` control
points and knots of length `N = n + degrees + 1` filled by
`MakeOpenClampedKnot`, with the knot spacing `1 / (N - 3 degrees)` above the
`1e-4` threshold, `EvaluateNurbsCurve(Points, Knots, 1)` returns the control
point `Points[N - 2 degrees - 1] = Points[n - degrees]`, for every choice of
the `n` control points (the last control point when `degrees = 1`). -/
theorem C2_endpoint_one (degrees n : Nat) (Points : List vec3) (InKnots : List ℚ)
    (hp : 1 ≤ degrees) (hn : 2 * degrees < n) (hPts : Points.length = n)
    (hK : InKnots.length = n + degrees + 1)
    (hsp : (1 : ℚ) / 10000 < 1 / ((InKnots.length : ℚ) - 3 * (degrees : ℚ))) :
    ∃ K, MakeOpenClampedKnot degrees InKnots = some K ∧
      ∃ pt, readAt Points ((n : Int) - (degrees : Int)) = some pt ∧
        EvaluateNurbsCurve degrees Points K 1 = some pt := by
  obtain ⟨K, hMk, -, hEv⟩ := EvaluateNurbsCurve_open_one degrees Points InKnots hp
    (by omega) (by omega)
  obtain ⟨pt, hpt⟩ := readAt_eq_some Points ((n : Int) - (degrees : Int)) (by omega) (by omega)
  refine ⟨K, hMk, pt, hpt, ?_⟩
  have hpos : (0 : ℚ) < 1 / ((InKnots.length : ℚ) - 3 * (degrees : ℚ)) :=
    lt_trans (by norm_num) hsp
  have hidx : (InKnots.length : Int) - 2 * (degrees : Int) - 1 = (n : Int) - (degrees : Int) := by
    omega
  rw [hEv, abs_of_pos hpos, if_neg (not_le.mpr hsp), div_self hpos.ne', one_pow, one_smul,
    hidx]
  simp [pointAt, hpt]

/-- Witness of C2: degree 2, five control points, a knot buffer of 8
elements. -/
theorem C2_endpoint_one_witness :
    ∃ K, MakeOpenClampedKnot 2 (List.replicate 8 (0 : ℚ)) = some K ∧
      ∃ pt, readAt [((0 : ℚ), (0 : ℚ), (0 : ℚ)), (1, 0, 0), (2, 1, 0), (3, 1, 0), (4, 0, 0)]
          (((5 : Nat) : Int) - ((2 : Nat) : Int)) = some pt ∧
        EvaluateNurbsCurve 2 [(0, 0, 0), (1, 0, 0), (2, 1, 0), (3, 1, 0), (4, 0, 0)] K 1 =
          some pt :=
  C2_endpoint_one 2 5 [(0, 0, 0), (1, 0, 0), (2, 1, 0), (3, 1, 0), (4, 0, 0)]
    (List.replicate 8 0) (by decide) (by decide) (by decide) (by decide)
    (by simp; norm_num)

/-- Counterexample to C2 as stated.  First part: degree 2, five control points
and the open-clamped knots of length `8 = 5 + 2 + 1`; the evaluation at 1
returns `Points[3] = (3, 1, 0)`, not the last control point
`Points[4] = (4, 0, 0)`.  Second part: degree 1, 10001 control points all
equal to `(1, 0, 0)` and the open-clamped knots of length 10003; the spacing
`1/10000` is not above the threshold, the denominator is replaced by `1e-5`,
and the evaluation at 1 returns `(10, 0, 0)`, ten times the last control
point. -/
theorem C2_counterexample :
    (MakeOpenClampedKnot 2 (List.replicate 8 (0 : ℚ)) = some [0, 0, 0, 1 / 2, 1, 1, 1, 1] ∧
      EvaluateNurbsCurve 2 [(0, 0, 0), (1, 0, 0), (2, 1, 0), (3, 1, 0), (4, 0, 0)]
        [0, 0, 0, 1 / 2, 1, 1, 1, 1] 1 = some (3, 1, 0) ∧
      readAt [((0 : ℚ), (0 : ℚ), (0 : ℚ)), (1, 0, 0), (2, 1, 0), (3, 1, 0), (4, 0, 0)] (5 - 1) =
        some (4, 0, 0) ∧
      ((3 : ℚ), (1 : ℚ), (0 : ℚ)) ≠ (4, 0, 0)) ∧
    ((MakeOpenClampedKnot 1 (List.replicate 10003 (0 : ℚ))).bind
        (fun K => EvaluateNurbsCurve 1 (List.replicate 10001 ((1 : ℚ), (0 : ℚ), (0 : ℚ))) K 1) =
        some (10, 0, 0) ∧
      readAt (List.replicate 10001 ((1 : ℚ), (0 : ℚ), (0 : ℚ))) (10001 - 1) = some (1, 0, 0) ∧
      ((10 : ℚ), (0 : ℚ), (0 : ℚ)) ≠ (1, 0, 0)) := by
  have hr : readAt (List.replicate 10001 ((1 : ℚ), (0 : ℚ), (0 : ℚ))) (10001 - 1) =
      some (1, 0, 0) := by
    have e : ((10001 : Int) - 1).toNat = 10000 := by decide
    simp only [readAt, e, List.getElem?_replicate]
    rw [if_neg (by decide), if_pos (by decide)]
  refine ⟨⟨by with_unfolding_all decide, by with_unfolding_all decide,
    by with_unfolding_all decide, by with_unfolding_all decide⟩, ?_, hr, ?_⟩
  · obtain ⟨K, hMk, -, hEv⟩ := EvaluateNurbsCurve_open_one 1
      (List.replicate 10001 ((1 : ℚ), (0 : ℚ), (0 : ℚ))) (List.replicate 10003 (0 : ℚ))
      (by decide) (by rw [List.length_replicate]; decide)
      (by simp only [List.length_replicate]; decide)
    rw [hMk, Option.some_bind, hEv]
    have hidx : (((List.replicate 10003 (0 : ℚ)).length : Int) - 2 * ((1 : Nat) : Int) - 1) =
        10001 - 1 := by
      rw [List.length_replicate]; decide
    have hd : (((List.replicate 10003 (0 : ℚ)).length : ℚ) - 3 * ((1 : Nat) : ℚ)) = 10000 := by
      rw [List.length_replicate]; norm_num
    rw [hidx, hd]
    simp only [pointAt, hr, Option.getD_some]
    rw [abs_of_pos (by norm_num), if_pos le_rfl]
    norm_num
  · intro h
    have := congrArg Prod.fst h
    norm_num at this

/-- Claim C3: for `degrees ≥ 1`, `n > 2 degrees` control points and knots of
length `N = n + degrees + 1` filled by `MakeOpenClampedKnot`, with the knot
spacing `1 / (N - 3 degrees)` above the `1e-4` threshold,
`EvaluateNurbsCurve(Points, Knots, 0)` returns the first control point
`Points[0]`; the span is `degrees` and the weights are `[1, 0, ..., 0]`. -/
theorem C3_endpoint_zero (degrees n : Nat) (Points : List vec3) (InKnots : List ℚ)
    (hp : 1 ≤ degrees) (hn : 2 * degrees < n) (hPts : Points.length = n)
    (hK : InKnots.length = n + degrees + 1)
    (hsp : (1 : ℚ) / 10000 < 1 / ((InKnots.length : ℚ) - 3 * (degrees : ℚ))) :
    ∃ K, MakeOpenClampedKnot degrees InKnots = some K ∧
      PImplNurbsCurve.FindSpan degrees K 0 = some (degrees : Int) ∧
      (∃ W, PImplNurbsCurve.BasisFunction degrees (degrees : Int) K 0 (fun _ => 0) = some W ∧
        W 0 = 1 ∧ ∀ t : Nat, 1 ≤ t → t ≤ degrees → W t = 0) ∧
      ∃ pt, readAt Points 0 = some pt ∧ EvaluateNurbsCurve degrees Points K 0 = some pt := by
  obtain ⟨K, hMk, hSpan, hW, hEv⟩ := EvaluateNurbsCurve_open_zero degrees Points InKnots hp
    (by omega) (by omega) hsp
  obtain ⟨pt, hpt⟩ := readAt_eq_some Points 0 le_rfl (by omega)
  refine ⟨K, hMk, hSpan, hW, pt, hpt, ?_⟩
  rw [hEv]
  simp [pointAt, hpt]

/-- Witness of C3: degree 2, five control points, a knot buffer of 8
elements. -/
theorem C3_endpoint_zero_witness :
    ∃ K, MakeOpenClampedKnot 2 (List.replicate 8 (0 : ℚ)) = some K ∧
      PImplNurbsCurve.FindSpan 2 K 0 = some ((2 : Nat) : Int) ∧
      (∃ W, PImplNurbsCurve.BasisFunction 2 ((2 : Nat) : Int) K 0 (fun _ => 0) = some W ∧
        W 0 = 1 ∧ ∀ t : Nat, 1 ≤ t → t ≤ 2 → W t = 0) ∧
      ∃ pt, readAt [((0 : ℚ), (0 : ℚ), (0 : ℚ)), (1, 0, 0), (2, 1, 0), (3, 1, 0), (4, 0, 0)] 0 =
          some pt ∧
        EvaluateNurbsCurve 2 [(0, 0, 0), (1, 0, 0), (2, 1, 0), (3, 1, 0), (4, 0, 0)] K 0 =
          some pt :=
  C3_endpoint_zero 2 5 [(0, 0, 0), (1, 0, 0), (2, 1, 0), (3, 1, 0), (4, 0, 0)]
    (List.replicate 8 0) (by decide) (by decide) (by decide) (by decide)
    (by simp; norm_num)

/-- Claim C11: for every degree, knot vector and control points,
`EvaluateNurbsCurve` at `Alpha < 0` equals its value at 0 and at `Alpha > 1`
its value at 1; the same holds for the snapshot (span and weights) returned by
`EvaluateNurbsBasis`. -/
theorem C11_clamping (degrees : Nat) (Points : List vec3) (Knots : List ℚ) (Alpha : ℚ) :
    (Alpha < 0 →
      EvaluateNurbsCurve degrees Points Knots Alpha = EvaluateNurbsCurve degrees Points Knots 0 ∧
      EvaluateNurbsBasis degrees Knots Alpha = EvaluateNurbsBasis degrees Knots 0) ∧
    (1 < Alpha →
      EvaluateNurbsCurve degrees Points Knots Alpha = EvaluateNurbsCurve degrees Points Knots 1 ∧
      EvaluateNurbsBasis degrees Knots Alpha = EvaluateNurbsBasis degrees Knots 1) := by
  have h0 : clamp 0 0 1 = 0 := by norm_num [clamp]
  have h1 : clamp 1 0 1 = 1 := by norm_num [clamp]
  constructor
  · intro h
    have hc : clamp Alpha 0 1 = 0 := by simp [clamp, h]
    simp only [EvaluateNurbsCurve, EvaluateNurbsBasis, hc, h0, and_self]
  · intro h
    have hc : clamp Alpha 0 1 = 1 := by
      have : ¬ Alpha < 0 := not_lt.mpr (le_trans zero_le_one h.le)
      simp [clamp, h, this]
    simp only [EvaluateNurbsCurve, EvaluateNurbsBasis, hc, h1, and_self]

/-- Witness of C11: degree 2, five control points, the open-clamped knots of
length 8, at `Alpha = -1` and at `Alpha = 2`; the values are the points
`(0, 0, 0)` and `(3, 1, 0)`. -/
theorem C11_clamping_witness :
    ((-1 : ℚ) < 0 ∧ (1 : ℚ) < 2) ∧
    EvaluateNurbsCurve 2 [(0, 0, 0), (1, 0, 0), (2, 1, 0), (3, 1, 0), (4, 0, 0)]
      [0, 0, 0, 1 / 2, 1, 1, 1, 1] (-1) = some (0, 0, 0) ∧
    EvaluateNurbsBasis 2 [0, 0, 0, 1 / 2, 1, 1, 1, 1] (-1) =
      EvaluateNurbsBasis 2 [0, 0, 0, 1 / 2, 1, 1, 1, 1] 0 ∧
    EvaluateNurbsCurve 2 [(0, 0, 0), (1, 0, 0), (2, 1, 0), (3, 1, 0), (4, 0, 0)]
      [0, 0, 0, 1 / 2, 1, 1, 1, 1] 2 = some (3, 1, 0) ∧
    EvaluateNurbsBasis 2 [0, 0, 0, 1 / 2, 1, 1, 1, 1] 2 =
      EvaluateNurbsBasis 2 [0, 0, 0, 1 / 2, 1, 1, 1, 1] 1 := by
  have hneg : (-1 : ℚ) < 0 := by norm_num
  have hpos : (1 : ℚ) < 2 := by norm_num
  have h := C11_clamping 2 [(0, 0, 0), (1, 0, 0), (2, 1, 0), (3, 1, 0), (4, 0, 0)]
    [0, 0, 0, 1 / 2, 1, 1, 1, 1]
  have e0 : EvaluateNurbsCurve 2 [(0, 0, 0), (1, 0, 0), (2, 1, 0), (3, 1, 0), (4, 0, 0)]
      [0, 0, 0, 1 / 2, 1, 1, 1, 1] 0 = some (0, 0, 0) := by with_unfolding_all decide
  have e1 : EvaluateNurbsCurve 2 [(0, 0, 0), (1, 0, 0), (2, 1, 0), (3, 1, 0), (4, 0, 0)]
      [0, 0, 0, 1 / 2, 1, 1, 1, 1] 1 = some (3, 1, 0) := by with_unfolding_all decide
  exact ⟨⟨hneg, hpos⟩, ((h (-1)).1 hneg).1.trans e0, ((h (-1)).1 hneg).2,
    ((h 2).2 hpos).1.trans e1, ((h 2).2 hpos).2⟩

/-- Claim C14: for a chain of at most one bone, `CalculateLocal` returns with
the output buffer `Locals` unchanged, for every knot vector, control
transforms and output buffer. -/
theorem C14_rig_offset_noop (degree : Nat) {RigBone mat4 : Type}
    (BoneLocation : RigBone → vec3) (GetLocation : mat4 → vec3)
    (Bones : List RigBone) (InKnots : List ℚ) (InControlPoints : List mat4)
    (Locals : List vec3) (hM : Bones.length ≤ 1) :
    CalculateLocal degree BoneLocation GetLocation Bones InKnots InControlPoints Locals =
      some Locals := by
  simp only [CalculateLocal, if_pos hM]

/-- Witness of C14: a single bone, no knot, no control transform and an
output buffer of two entries. -/
theorem C14_rig_offset_noop_witness :
    [((1 : ℚ), (2 : ℚ), (3 : ℚ))].length ≤ 1 ∧
    CalculateLocal 2 (fun b : vec3 => b) (fun m : vec3 => m) [((1 : ℚ), (2 : ℚ), (3 : ℚ))]
      [] [] [(7, 7, 7), (8, 8, 8)] = some [(7, 7, 7), (8, 8, 8)] :=
  ⟨by decide, C14_rig_offset_noop 2 (fun b : vec3 => b) (fun m : vec3 => m)
    [(1, 2, 3)] [] [] [(7, 7, 7), (8, 8, 8)] (by decide)⟩

/-- Claim C15: degree 2, the five control points `(0,0,0)`, `(1,0,0)`,
`(2,1,0)`, `(3,1,0)`, `(4,0,0)` and the knot vector of length 8 filled by
`MakeOpenClampedKnot`; the evaluation at `Alpha = 1/2` is the point
`(3/2, 1/2, 0)`, whose `x` lies strictly between 1 and 3 and whose `y` lies
strictly between 0 and 1.  The evaluation is a function of its arguments, so
two invocations return the same value. -/
theorem C15_concrete_scenario :
    ∃ K P, MakeOpenClampedKnot 2 (List.replicate 8 (0 : ℚ)) = some K ∧
      EvaluateNurbsCurve 2 [(0, 0, 0), (1, 0, 0), (2, 1, 0), (3, 1, 0), (4, 0, 0)] K (1 / 2) =
        some P ∧
      P = (3 / 2, 1 / 2, 0) ∧
      ((1 : ℚ) < P.1 ∧ P.1 < 3) ∧ ((0 : ℚ) < P.2.1 ∧ P.2.1 < 1) ∧
      EvaluateNurbsCurve 2 [(0, 0, 0), (1, 0, 0), (2, 1, 0), (3, 1, 0), (4, 0, 0)] K (1 / 2) =
        EvaluateNurbsCurve 2 [(0, 0, 0), (1, 0, 0), (2, 1, 0), (3, 1, 0), (4, 0, 0)] K (1 / 2) := by
  refine ⟨[0, 0, 0, 1 / 2, 1, 1, 1, 1], (3 / 2, 1 / 2, 0), by with_unfolding_all decide,
    by with_unfolding_all decide, rfl, ?_, ?_, rfl⟩
  · constructor <;> norm_num
  · constructor <;> norm_num

/-- Claim C16: for `degrees ≥ 1` and a buffer of length `N > 3 degrees`, after
`MakeClosedKnot` the first `degrees` knots are strictly negative and the last
`degrees` knots are strictly greater than 1. -/
theorem C16_closed_end_knots (degrees : Nat) (InKnots : List ℚ)
    (hp : 1 ≤ degrees) (hN : 3 * degrees < InKnots.length) :
    ∃ K, MakeClosedKnot degrees InKnots = some K ∧ K.length = InKnots.length ∧
      (∀ i : Int, 0 ≤ i → i ≤ (degrees : Int) - 1 → ∃ v, readAt K i = some v ∧ v < 0) ∧
      (∀ i : Int, (InKnots.length : Int) - (degrees : Int) ≤ i → i ≤ (InKnots.length : Int) - 1 →
        ∃ v, readAt K i = some v ∧ 1 < v) := by
  obtain ⟨K, hK, hl, hr⟩ := MakeClosedKnot_uniform degrees InKnots hN
  have hd : (0 : ℚ) < (InKnots.length : ℚ) - 3 * (degrees : ℚ) := by
    have : (3 * (degrees : ℚ)) < (InKnots.length : ℚ) := by exact_mod_cast hN
    linarith
  refine ⟨K, hK, hl, fun i h0 h1 => ⟨_, hr i h0 (by omega), ?_⟩,
    fun i h0 h1 => ⟨_, hr i (by omega) (by omega), ?_⟩⟩
  · apply div_neg_of_neg_of_pos _ hd
    have : (i : ℚ) < (degrees : ℚ) := by exact_mod_cast (by omega : i < (degrees : Int))
    linarith
  · rw [lt_div_iff₀ hd]
    have h2 : ((InKnots.length : Int) : ℚ) - (degrees : ℚ) ≤ (i : ℚ) := by
      exact_mod_cast h0
    have h3 : (1 : ℚ) ≤ (degrees : ℚ) := by exact_mod_cast hp
    push_cast at h2
    linarith

/-- Witness of C16: degree 3, six control points, a buffer of 10 elements. -/
theorem C16_closed_end_knots_witness :
    1 ≤ 3 ∧ 3 * 3 < (List.replicate 10 (0 : ℚ)).length ∧
    ∃ K, MakeClosedKnot 3 (List.replicate 10 (0 : ℚ)) = some K ∧
      K.length = (List.replicate 10 (0 : ℚ)).length ∧
      (∀ i : Int, 0 ≤ i → i ≤ ((3 : Nat) : Int) - 1 → ∃ v, readAt K i = some v ∧ v < 0) ∧
      (∀ i : Int, ((List.replicate 10 (0 : ℚ)).length : Int) - ((3 : Nat) : Int) ≤ i →
        i ≤ ((List.replicate 10 (0 : ℚ)).length : Int) - 1 →
        ∃ v, readAt K i = some v ∧ 1 < v) :=
  ⟨by decide, by decide, C16_closed_end_knots 3 (List.replicate 10 0) (by decide) (by decide)⟩

/-! ## Safety of the evaluation -/

/-- The denominator used by `BasisFunction` after the substitution is never
zero. -/
theorem denum_ne_zero (d : ℚ) : (if |d| ≤ 1 / 10000 then 1 / 100000 else d) ≠ 0 := by
  by_cases h : |d| ≤ 1 / 10000
  · rw [if_pos h]; norm_num
  · rw [if_neg h]
    intro h0
    rw [h0] at h
    norm_num at h

/-- Claim C12, amended to `degrees ≥ 1`: for every knot vector of length
`N > 3 degrees`, every control-point sequence of length `N - degrees - 1` and
every `Alpha`, `EvaluateNurbsCurve` returns a point; the span it finds lies in
`[degrees, N - degrees - 2]`, the knot indices `s + 1 - m` and `s + m` read by
`BasisFunction` lie in `[0, N - 1]`, the control-point indices
`s - degrees + i` lie in `[0, N - degrees - 2]`, and the denominator used by
`BasisFunction` is never zero. -/
theorem C12_no_out_of_range (degrees : Nat) (Points : List vec3) (Knots : List ℚ)
    (Alpha : ℚ) (hp : 1 ≤ degrees) (hN : 3 * degrees < Knots.length)
    (hPts : Points.length = Knots.length - degrees - 1) :
    ∃ s W P, PImplNurbsCurve.FindSpan degrees Knots (clamp Alpha 0 1) = some s ∧
      ((degrees : Int) ≤ s ∧ s ≤ (Knots.length : Int) - (degrees : Int) - 2) ∧
      PImplNurbsCurve.BasisFunction degrees s Knots (clamp Alpha 0 1) (fun _ => 0) = some W ∧
      EvaluateNurbsCurve degrees Points Knots Alpha = some P ∧
      (∀ m : Nat, 1 ≤ m → m ≤ degrees →
        (0 ≤ s + 1 - (m : Int) ∧ s + 1 - (m : Int) ≤ (Knots.length : Int) - 1) ∧
        (0 ≤ s + (m : Int) ∧ s + (m : Int) ≤ (Knots.length : Int) - 1)) ∧
      (∀ i : Nat, i ≤ degrees →
        0 ≤ s - (degrees : Int) + (i : Int) ∧
          s - (degrees : Int) + (i : Int) ≤ (Knots.length : Int) - (degrees : Int) - 2) ∧
      ∀ d : ℚ, (if |d| ≤ 1 / 10000 then 1 / 100000 else d) ≠ 0 := by
  obtain ⟨s, hs, h1, h2, -⟩ := FindSpan_spec degrees Knots (clamp Alpha 0 1) hp hN
  have hW := BasisFunction_eq degrees s Knots (clamp Alpha 0 1) (fun _ => 0)
    (fun m m1 m2 => by constructor <;> omega)
  have hL := loop_eq_sum degrees Points s
    (basisWeights Knots s (clamp Alpha 0 1) (fun _ => 0) degrees) (degrees + 1) 0 0
    (fun t t1 t2 => by constructor <;> omega)
  have hE : EvaluateNurbsCurve degrees Points Knots Alpha =
      EvaluateNurbsCurve.loop degrees Points s
        (basisWeights Knots s (clamp Alpha 0 1) (fun _ => 0) degrees) (degrees + 1) 0 0 := by
    simp only [EvaluateNurbsCurve, hs, hW, Option.some_bind]
  rw [hL] at hE
  exact ⟨s, _, _, hs, ⟨h1, by omega⟩, hW, hE, fun m m1 m2 => by omega,
    fun i hi => by omega, denum_ne_zero⟩

/-- Witness of C12: degree 2, the open-clamped knots of length 8, five
control points, `Alpha = 1/2`. -/
theorem C12_no_out_of_range_witness :
    ∃ s W P, PImplNurbsCurve.FindSpan 2 [0, 0, 0, 1 / 2, 1, 1, 1, 1] (clamp (1 / 2) 0 1) = some s ∧
      (((2 : Nat) : Int) ≤ s ∧
        s ≤ ([0, 0, 0, 1 / 2, 1, 1, 1, (1 : ℚ)].length : Int) - ((2 : Nat) : Int) - 2) ∧
      PImplNurbsCurve.BasisFunction 2 s [0, 0, 0, 1 / 2, 1, 1, 1, 1] (clamp (1 / 2) 0 1)
        (fun _ => 0) = some W ∧
      EvaluateNurbsCurve 2 [(0, 0, 0), (1, 0, 0), (2, 1, 0), (3, 1, 0), (4, 0, 0)]
        [0, 0, 0, 1 / 2, 1, 1, 1, 1] (1 / 2) = some P ∧
      (∀ m : Nat, 1 ≤ m → m ≤ 2 →
        (0 ≤ s + 1 - (m : Int) ∧
          s + 1 - (m : Int) ≤ ([0, 0, 0, 1 / 2, 1, 1, 1, (1 : ℚ)].length : Int) - 1) ∧
        (0 ≤ s + (m : Int) ∧
          s + (m : Int) ≤ ([0, 0, 0, 1 / 2, 1, 1, 1, (1 : ℚ)].length : Int) - 1)) ∧
      (∀ i : Nat, i ≤ 2 →
        0 ≤ s - ((2 : Nat) : Int) + (i : Int) ∧
          s - ((2 : Nat) : Int) + (i : Int) ≤
            ([0, 0, 0, 1 / 2, 1, 1, 1, (1 : ℚ)].length : Int) - ((2 : Nat) : Int) - 2) ∧
      ∀ d : ℚ, (if |d| ≤ 1 / 10000 then 1 / 100000 else d) ≠ 0 :=
  C12_no_out_of_range 2 [(0, 0, 0), (1, 0, 0), (2, 1, 0), (3, 1, 0), (4, 0, 0)]
    [0, 0, 0, 1 / 2, 1, 1, 1, 1] (1 / 2) (by decide) (by decide) (by decide)

/-- Counterexample to C12 as stated, at degree 0.  First part: the knots
`[0, 1/2]` (length `2 > 0`), one control point (`2 - 0 - 1`) and `Alpha = 1`:
`FindSpan` reaches `i = 1`, finds `Alpha ≥ Knots[1]` and reads `Knots[2]`,
outside the buffer, so the evaluation does not return.  Second part: the knots
`[2, 3]`, one control point and `Alpha = 0`: `FindSpan` returns its fallback 1,
above `N - p - 2 = 0`, and the evaluation reads `Points[1]`, outside the
control points. -/
theorem C12_counterexample :
    (PImplNurbsCurve.FindSpan 0 [0, 1 / 2] (clamp 1 0 1) = none ∧
      readAt [0, 1 / 2] 1 = some (1 / 2 : ℚ) ∧ readAt [0, (1 / 2 : ℚ)] (1 + 1) = none ∧
      EvaluateNurbsCurve 0 [(0, 0, 0)] [0, 1 / 2] 1 = none) ∧
    (PImplNurbsCurve.FindSpan 0 [2, 3] (clamp 0 0 1) = some 1 ∧
      ¬ ((1 : Int) ≤ 2 - 0 - 2) ∧
      readAt [((0 : ℚ), (0 : ℚ), (0 : ℚ))] (1 - 0 + 0) = none ∧
      EvaluateNurbsCurve 0 [(0, 0, 0)] [2, 3] 0 = none) := by
  refine ⟨⟨by with_unfolding_all decide, by with_unfolding_all decide,
    by with_unfolding_all decide, by with_unfolding_all decide⟩,
    by with_unfolding_all decide, by decide, by with_unfolding_all decide, ?_⟩
  with_unfolding_all decide

/-! ## Exact partition of unity -/

/-- With no denominator substituted, the weight buffer after each outer
iteration `j` of `BasisFunction` has `N[0..j]` of sum 1. -/
theorem outer_sum_one (degrees : Nat) (i : Int) (Knots : List ℚ) (Alpha : ℚ)
    (N0 : Nat → ℚ)
    (hden : ∀ j u : Nat, 1 ≤ j → j ≤ degrees → u < j →
      ∃ a b, readAt Knots (i + (u : Int) + 1) = some a ∧
        readAt Knots (i + (u : Int) + 1 - (j : Int)) = some b ∧ 1 / 10000 < |a - b|) :
    ∀ j : Nat, j ≤ degrees →
      ∃ B, PImplNurbsCurve.BasisFunction.outer i Knots Alpha j 1
          ⟨fun _ => 0, fun _ => 0, Function.update N0 0 1⟩ = some B ∧
        ∑ t in Finset.range (j + 1), B.N t = 1 := by
  intro j hj
  have hread : ∀ m : Nat, 1 ≤ m → m ≤ degrees →
      0 ≤ i + 1 - (m : Int) ∧ i + (m : Int) < (Knots.length : Int) := by
    intro m h1 h2
    obtain ⟨a, b, ha, -, -⟩ := hden m (m - 1) h1 h2 (by omega)
    obtain ⟨a', b', -, hb', -⟩ := hden m 0 h1 h2 (by omega)
    have := readAt_inside _ _ _ ha
    have := readAt_inside _ _ _ hb'
    constructor <;> omega
  obtain ⟨B, hB, hN⟩ := outer_spec i Knots Alpha N0 j 1
    ⟨fun _ => 0, fun _ => 0, Function.update N0 0 1⟩ le_rfl
    (fun m h1 h2 => by omega) rfl (fun m h1 h2 => hread m h1 (by omega))
  refine ⟨B, hB, ?_⟩
  rw [hN]
  have e : 1 - 1 + j = j := by omega
  rw [e]
  apply basisWeights_sum Knots i Alpha N0 degrees _ j hj
  intro j' u h1 h2 h3
  obtain ⟨a, b, ha, hb, hab⟩ := hden j' u h1 h2 h3
  rw [knotAt_of_readAt _ _ _ ha, knotAt_of_readAt _ _ _ hb]
  exact hab

/-- The knot differences met by `BasisFunction` on open-clamped knots, for a
span of `[degrees, N - 2 degrees - 1]`, are at least the spacing
`1 / (N - 3 degrees)`. -/
theorem open_knots_differences (degrees : Nat) (InKnots : List ℚ) (s : Int)
    (hN : 3 * degrees < InKnots.length) (hN2 : InKnots.length < 3 * degrees + 10000)
    (hs1 : (degrees : Int) ≤ s) (hs2 : s ≤ (InKnots.length : Int) - 2 * (degrees : Int) - 1) :
    ∃ K, MakeOpenClampedKnot degrees InKnots = some K ∧
      ∀ j u : Nat, 1 ≤ j → j ≤ degrees → u < j →
        ∃ a b, readAt K (s + (u : Int) + 1) = some a ∧
          readAt K (s + (u : Int) + 1 - (j : Int)) = some b ∧ 1 / 10000 < |a - b| := by
  obtain ⟨K, hK, hl, hr⟩ := MakeOpenClampedKnot_grid degrees InKnots hN
  refine ⟨K, hK, fun j u h1 h2 h3 => ⟨_, _, hr _ (by omega) (by omega),
    hr _ (by omega) (by omega), ?_⟩⟩
  have hdpos : (0 : Int) < (InKnots.length : Int) - 3 * (degrees : Int) := by omega
  have hd : (0 : ℚ) < (((InKnots.length : Int) - 3 * (degrees : Int) : Int) : ℚ) := by
    exact_mod_cast hdpos
  have hd2 : (((InKnots.length : Int) - 3 * (degrees : Int) : Int) : ℚ) < 10000 := by
    exact_mod_cast (by omega : (InKnots.length : Int) - 3 * (degrees : Int) < 10000)
  generalize hA : (if s + (u : Int) + 1 < (degrees : Int) then 0
         else if s + (u : Int) + 1 < (InKnots.length : Int) - (degrees : Int) * 2 then
           s + (u : Int) + 1 - (degrees : Int)
         else (InKnots.length : Int) - 3 * (degrees : Int) : Int) = A
  generalize hB : (if s + (u : Int) + 1 - (j : Int) < (degrees : Int) then 0
         else if s + (u : Int) + 1 - (j : Int) < (InKnots.length : Int) - (degrees : Int) * 2 then
           s + (u : Int) + 1 - (j : Int) - (degrees : Int)
         else (InKnots.length : Int) - 3 * (degrees : Int) : Int) = B
  have hnum : (1 : Int) ≤ A - B := by
    rw [← hA, ← hB]
    split_ifs <;> omega
  have hnumq : (1 : ℚ) ≤ (A : ℚ) - (B : ℚ) := by exact_mod_cast hnum
  generalize (((InKnots.length : Int) - 3 * (degrees : Int) : Int) : ℚ) = d at hd hd2 ⊢
  have hle : (1 : ℚ) / 10000 < 1 / d := one_div_lt_one_div_of_lt hd hd2
  rw [← sub_div]
  refine lt_of_lt_of_le (lt_of_lt_of_le hle ?_) (le_abs_self _)
  exact div_le_div_of_nonneg_right hnumq hd.le

/-- The knot differences met by `BasisFunction` on closed knots are multiples
`j / (N - 3 degrees)` of the spacing. -/
theorem closed_knots_differences (degrees : Nat) (InKnots : List ℚ) (s : Int)
    (hN : 3 * degrees < InKnots.length) (hN2 : InKnots.length < 3 * degrees + 10000)
    (hs1 : (degrees : Int) ≤ s) (hs2 : s ≤ (InKnots.length : Int) - 2 * (degrees : Int) - 1) :
    ∃ K, MakeClosedKnot degrees InKnots = some K ∧
      ∀ j u : Nat, 1 ≤ j → j ≤ degrees → u < j →
        ∃ a b, readAt K (s + (u : Int) + 1) = some a ∧
          readAt K (s + (u : Int) + 1 - (j : Int)) = some b ∧ 1 / 10000 < |a - b| := by
  obtain ⟨K, hK, hl, hr⟩ := MakeClosedKnot_uniform degrees InKnots hN
  refine ⟨K, hK, fun j u h1 h2 h3 => ⟨_, _, hr _ (by omega) (by omega),
    hr _ (by omega) (by omega), ?_⟩⟩
  have hd : (0 : ℚ) < (InKnots.length : ℚ) - 3 * (degrees : ℚ) := by
    have : (3 * (degrees : ℚ)) < (InKnots.length : ℚ) := by exact_mod_cast hN
    linarith
  have hd2 : (InKnots.length : ℚ) - 3 * (degrees : ℚ) < 10000 := by
    have : (InKnots.length : ℚ) < 3 * (degrees : ℚ) + 10000 := by exact_mod_cast hN2
    linarith
  have hj : (1 : ℚ) ≤ (j : ℚ) := by exact_mod_cast h1
  have hle : (1 : ℚ) / 10000 < 1 / ((InKnots.length : ℚ) - 3 * (degrees : ℚ)) :=
    one_div_lt_one_div_of_lt hd hd2
  rw [← sub_div]
  refine lt_of_lt_of_le (lt_of_lt_of_le hle ?_) (le_abs_self _)
  apply div_le_div_of_nonneg_right _ hd.le
  push_cast
  linarith

/-- Claim C19: for every degree, span `s`, knot vector and `Alpha`, if every
denominator `Knots[s+u+1] - Knots[s+u+1-j]` (`1 ≤ j ≤ degrees`, `0 ≤ u < j`) met
by `BasisFunction` has absolute value above `1e-4`, then after each outer
iteration `j` the weights `N[0..j]` sum to exactly 1, and the `degrees + 1`
final weights sum to exactly 1.  This holds in particular for the knots of
`MakeOpenClampedKnot` and of `MakeClosedKnot` on a buffer of length `N`,
`3 degrees < N < 3 degrees + 10000`, and any span of
`[degrees, N - 2 degrees - 1]`.  (The buffer state after `j` outer iterations
is the outer loop run for `j` iterations from the initial buffers.) -/
theorem C19_exact_partition_of_unity (degrees : Nat) (s : Int) (Knots : List ℚ)
    (Alpha : ℚ) (N0 : Nat → ℚ) :
    ((∀ j u : Nat, 1 ≤ j → j ≤ degrees → u < j →
        ∃ a b, readAt Knots (s + (u : Int) + 1) = some a ∧
          readAt Knots (s + (u : Int) + 1 - (j : Int)) = some b ∧ 1 / 10000 < |a - b|) →
      (∀ j : Nat, j ≤ degrees →
          ∃ B, PImplNurbsCurve.BasisFunction.outer s Knots Alpha j 1
              ⟨fun _ => 0, fun _ => 0, Function.update N0 0 1⟩ = some B ∧
            ∑ t in Finset.range (j + 1), B.N t = 1) ∧
        ∃ W, PImplNurbsCurve.BasisFunction degrees s Knots Alpha N0 = some W ∧
          ∑ t in Finset.range (degrees + 1), W t = 1) ∧
    (∀ InKnots : List ℚ, 3 * degrees < InKnots.length →
      InKnots.length < 3 * degrees + 10000 → (degrees : Int) ≤ s →
      s ≤ (InKnots.length : Int) - 2 * (degrees : Int) - 1 →
      (∃ K, MakeOpenClampedKnot degrees InKnots = some K ∧
        (∀ j : Nat, j ≤ degrees →
          ∃ B, PImplNurbsCurve.BasisFunction.outer s K Alpha j 1
              ⟨fun _ => 0, fun _ => 0, Function.update N0 0 1⟩ = some B ∧
            ∑ t in Finset.range (j + 1), B.N t = 1) ∧
        ∃ W, PImplNurbsCurve.BasisFunction degrees s K Alpha N0 = some W ∧
          ∑ t in Finset.range (degrees + 1), W t = 1) ∧
      (∃ K, MakeClosedKnot degrees InKnots = some K ∧
        (∀ j : Nat, j ≤ degrees →
          ∃ B, PImplNurbsCurve.BasisFunction.outer s K Alpha j 1
              ⟨fun _ => 0, fun _ => 0, Function.update N0 0 1⟩ = some B ∧
            ∑ t in Finset.range (j + 1), B.N t = 1) ∧
        ∃ W, PImplNurbsCurve.BasisFunction degrees s K Alpha N0 = some W ∧
          ∑ t in Finset.range (degrees + 1), W t = 1)) := by
  constructor
  · intro hden
    exact ⟨outer_sum_one degrees s Knots Alpha N0 hden,
      BasisFunction_sum_one degrees s Knots Alpha N0 hden⟩
  · intro InKnots hN hN2 hs1 hs2
    obtain ⟨K1, hK1, hd1⟩ := open_knots_differences degrees InKnots s hN hN2 hs1 hs2
    obtain ⟨K2, hK2, hd2⟩ := closed_knots_differences degrees InKnots s hN hN2 hs1 hs2
    exact ⟨⟨K1, hK1, outer_sum_one degrees s K1 Alpha N0 hd1,
        BasisFunction_sum_one degrees s K1 Alpha N0 hd1⟩,
      ⟨K2, hK2, outer_sum_one degrees s K2 Alpha N0 hd2,
        BasisFunction_sum_one degrees s K2 Alpha N0 hd2⟩⟩

/-- Witness of C19: degree 2, span 3, a buffer of 8 elements, `Alpha = 3/4`;
both knot layouts give three weights of sum 1. -/
theorem C19_exact_partition_of_unity_witness :
    (3 * 2 < (List.replicate 8 (0 : ℚ)).length ∧
      (List.replicate 8 (0 : ℚ)).length < 3 * 2 + 10000 ∧ ((2 : Nat) : Int) ≤ 3 ∧
      (3 : Int) ≤ ((List.replicate 8 (0 : ℚ)).length : Int) - 2 * ((2 : Nat) : Int) - 1) ∧
    (∃ K, MakeOpenClampedKnot 2 (List.replicate 8 (0 : ℚ)) = some K ∧
      ∃ W, PImplNurbsCurve.BasisFunction 2 3 K (3 / 4) (fun _ => 0) = some W ∧
        ∑ t in Finset.range (2 + 1), W t = 1) ∧
    (∃ K, MakeClosedKnot 2 (List.replicate 8 (0 : ℚ)) = some K ∧
      ∃ W, PImplNurbsCurve.BasisFunction 2 3 K (3 / 4) (fun _ => 0) = some W ∧
        ∑ t in Finset.range (2 + 1), W t = 1) := by
  have h := (C19_exact_partition_of_unity 2 3 [] (3 / 4) (fun _ => 0)).2
    (List.replicate 8 0) (by decide) (by decide) (by decide) (by decide)
  obtain ⟨⟨K1, hK1, -, hW1⟩, ⟨K2, hK2, -, hW2⟩⟩ := h
  exact ⟨⟨by decide, by decide, by decide, by decide⟩, ⟨K1, hK1, hW1⟩, ⟨K2, hK2, hW2⟩⟩

/-! ## Non-negative weights -/

theorem knotAt_mono (Knots : List ℚ) (hsorted : List.Sorted (fun a b : ℚ => a ≤ b) Knots)
    (a b : Int) (h0 : 0 ≤ a) (hab : a ≤ b) (hb : b < (Knots.length : Int)) :
    knotAt Knots a ≤ knotAt Knots b := by
  have ha' : a.toNat < Knots.length := by omega
  have hb' : b.toNat < Knots.length := by omega
  have ea : knotAt Knots a = Knots[a.toNat] := by
    simp [knotAt, readAt, not_lt.mpr h0, List.getElem?_eq_getElem ha']
  have eb : knotAt Knots b = Knots[b.toNat] := by
    simp [knotAt, readAt, not_lt.mpr (le_trans h0 hab), List.getElem?_eq_getElem hb']
  rw [ea, eb]
  by_cases h : a = b
  · subst h; exact le_rfl
  · exact List.pairwise_iff_getElem.mp hsorted a.toNat b.toNat ha' hb' (by omega)

/-- A non-negative denominator is positive after the substitution. -/
theorem denum_pos (d : ℚ) (h : 0 ≤ d) : 0 < (if |d| ≤ 1 / 10000 then 1 / 100000 else d) := by
  by_cases hc : |d| ≤ 1 / 10000
  · rw [if_pos hc]; norm_num
  · rw [if_neg hc]
    rw [abs_of_nonneg h] at hc
    exact lt_trans (by norm_num) (not_le.mp hc)

theorem basisTemp_nonneg (L R : Nat → ℚ) (j : Nat) (N : Nat → ℚ) (u : Nat)
    (hL : 0 ≤ L (j - u)) (hR : 0 ≤ R (u + 1)) (hN : 0 ≤ N u) : 0 ≤ basisTemp L R j N u := by
  unfold basisTemp
  exact div_nonneg hN (denum_pos _ (add_nonneg hR hL)).le

/-- With non-negative `Left[m]` and `Right[m]` every weight is non-negative,
whether or not a denominator is substituted. -/
theorem basisWeights_nonneg (Knots : List ℚ) (i : Int) (Alpha : ℚ) (N0 : Nat → ℚ)
    (degrees : Nat)
    (hL : ∀ m : Nat, 1 ≤ m → m ≤ degrees → 0 ≤ leftOf Knots i Alpha m)
    (hR : ∀ m : Nat, 1 ≤ m → m ≤ degrees → 0 ≤ rightOf Knots i Alpha m) :
    ∀ j, j ≤ degrees → ∀ t, t ≤ j → 0 ≤ basisWeights Knots i Alpha N0 j t := by
  intro j
  induction j with
  | zero =>
    intro _ t ht
    have : t = 0 := by omega
    subst this
    simp [basisWeights]
  | succ j ih =>
    intro hj t ht
    have ihj := ih (by omega)
    show 0 ≤ basisStep _ _ _ _ t
    simp only [basisStep, if_neg (by omega : ¬ j + 1 < t)]
    apply add_nonneg
    · by_cases h0 : t = 0
      · rw [if_pos h0]
      · rw [if_neg h0]
        exact mul_nonneg (hL _ (by omega) (by omega))
          (basisTemp_nonneg _ _ _ _ _ (hL _ (by omega) (by omega))
            (hR _ (by omega) (by omega)) (ihj (t - 1) (by omega)))
    · by_cases h1 : t < j + 1
      · rw [if_pos h1]
        exact mul_nonneg (hR _ (by omega) (by omega))
          (basisTemp_nonneg _ _ _ _ _ (hL _ (by omega) (by omega))
            (hR _ (by omega) (by omega)) (ihj t (by omega)))
      · rw [if_neg h1]

/-- Claim C20: for every degree, every non-decreasing knot vector, every span
`s` (with the knot indices `s + 1 - degrees, ..., s + degrees` inside the
buffer, as for every span `[degrees, N - degrees - 2]` of the data model) and
every `Alpha` with `Knots[s] ≤ Alpha ≤ Knots[s+1]`, `BasisFunction`
returns and each of the `degrees + 1` weights it writes is `≥ 0`, whether or
not the denominator substitution is triggered. -/
theorem C20_nonneg_weights (degrees : Nat) (s : Int) (Knots : List ℚ) (Alpha : ℚ)
    (N0 : Nat → ℚ) (hsorted : List.Sorted (fun a b : ℚ => a ≤ b) Knots)
    (hlo : (degrees : Int) ≤ s + 1) (hhi : s + (degrees : Int) < (Knots.length : Int))
    (hspan : ∃ a b, readAt Knots s = some a ∧ readAt Knots (s + 1) = some b ∧
      a ≤ Alpha ∧ Alpha ≤ b) :
    ∃ W, PImplNurbsCurve.BasisFunction degrees s Knots Alpha N0 = some W ∧
      ∀ t : Nat, t ≤ degrees → 0 ≤ W t := by
  obtain ⟨a, b, ha, hb, haα, hαb⟩ := hspan
  have hsa := readAt_inside _ _ _ ha
  have hsb := readAt_inside _ _ _ hb
  rw [← knotAt_of_readAt _ _ _ ha] at haα
  rw [← knotAt_of_readAt _ _ _ hb] at hαb
  refine ⟨_, BasisFunction_eq degrees s Knots Alpha N0
    (fun m h1 h2 => by constructor <;> omega), fun t ht => ?_⟩
  apply basisWeights_nonneg Knots s Alpha N0 degrees _ _ degrees le_rfl t ht
  · intro m h1 h2
    have := knotAt_mono Knots hsorted (s + 1 - (m : Int)) s (by omega) (by omega) (by omega)
    simp only [leftOf]
    linarith
  · intro m h1 h2
    have := knotAt_mono Knots hsorted (s + 1) (s + (m : Int)) (by omega) (by omega) (by omega)
    simp only [rightOf]
    linarith

/-- Witness of C20: degree 2, span 2, the open-clamped knots of length 8 and
`Alpha = 1/4`. -/
theorem C20_nonneg_weights_witness :
    List.Sorted (fun a b : ℚ => a ≤ b) [0, 0, 0, 1 / 2, 1, 1, 1, 1] ∧
    (((2 : Nat) : Int) ≤ 2 + 1 ∧
      (2 : Int) + ((2 : Nat) : Int) < ([0, 0, 0, 1 / 2, 1, 1, 1, (1 : ℚ)].length : Int)) ∧
    (∃ a b, readAt [0, 0, 0, 1 / 2, 1, 1, 1, (1 : ℚ)] 2 = some a ∧
      readAt [0, 0, 0, 1 / 2, 1, 1, 1, (1 : ℚ)] (2 + 1) = some b ∧ a ≤ 1 / 4 ∧ 1 / 4 ≤ b) ∧
    ∃ W, PImplNurbsCurve.BasisFunction 2 2 [0, 0, 0, 1 / 2, 1, 1, 1, 1] (1 / 4) (fun _ => 0) =
        some W ∧
      ∀ t : Nat, t ≤ 2 → 0 ≤ W t := by
  have hs : List.Sorted (fun a b : ℚ => a ≤ b) [0, 0, 0, 1 / 2, 1, 1, 1, 1] := by
    with_unfolding_all decide
  have hsp : ∃ a b, readAt [0, 0, 0, 1 / 2, 1, 1, 1, (1 : ℚ)] 2 = some a ∧
      readAt [0, 0, 0, 1 / 2, 1, 1, 1, (1 : ℚ)] (2 + 1) = some b ∧ a ≤ 1 / 4 ∧ 1 / 4 ≤ b :=
    ⟨0, 1 / 2, by with_unfolding_all decide, by with_unfolding_all decide,
      by with_unfolding_all decide, by with_unfolding_all decide⟩
  exact ⟨hs, ⟨by decide, by decide⟩, hsp,
    C20_nonneg_weights 2 2 [0, 0, 0, 1 / 2, 1, 1, 1, 1] (1 / 4) (fun _ => 0) hs
      (by decide) (by decide) hsp⟩

/-! ## Rig offset calculator -/

/-- The accumulation loop of `CalculateLocal` as a sum, when every control
transform it reads is inside the buffer. -/
theorem CalculateLocal_inner_eq_sum {degree : Nat} {mat4 : Type} (GetLocation : mat4 → vec3)
    (InControlPoints : List mat4) (Basis : TNurbsBasis degree) (k : Nat) :
    ∀ (j : Nat) (Location : vec3),
      (∀ t : Nat, j ≤ t → t < j + k →
        ∃ cp, readAt InControlPoints (Basis.Index (t : Int)) = some cp) →
      CalculateLocal.inner GetLocation InControlPoints Basis k j Location =
        some (Location + ∑ t in Finset.range k,
          Basis.Weight ((j + t : Nat) : Int) •
            ((readAt InControlPoints (Basis.Index ((j + t : Nat) : Int))).map GetLocation).getD 0) := by
  induction k with
  | zero => intro j Location _; simp [CalculateLocal.inner]
  | succ k ih =>
    intro j Location h
    obtain ⟨cp, hcp⟩ := h j le_rfl (by omega)
    simp only [CalculateLocal.inner, hcp, Option.some_bind]
    rw [ih (j + 1) _ (fun t ht1 ht2 => h t (by omega) (by omega)), Finset.sum_range_succ']
    congr 1
    simp only [Nat.add_zero, hcp, Option.map_some', Option.getD_some]
    have e : ∀ t : Nat, j + 1 + t = j + (t + 1) := fun t => by omega
    simp only [e]
    abel

/-- The loop over the bones: it writes `val i` into `Locals[i]` for each bone
index and leaves the other entries as they were. -/
theorem CalculateLocal_loop_spec (degree : Nat) {RigBone mat4 : Type}
    (BoneLocation : RigBone → vec3) (GetLocation : mat4 → vec3)
    (Bones : List RigBone) (InKnots : List ℚ) (InControlPoints : List mat4) (Denum : ℚ)
    (val : Nat → vec3) (k : Nat) :
    ∀ (i : Nat) (Locals : List vec3), i + k ≤ Locals.length →
      (∀ t : Nat, i ≤ t → t < i + k →
        ∃ B bone, EvaluateNurbsBasis degree InKnots ((t : ℚ) * Denum) = some B ∧
          readAt Bones (t : Int) = some bone ∧
          (∀ j : Nat, j ≤ degree → ∃ cp, readAt InControlPoints (B.Index (j : Int)) = some cp) ∧
          val t = BoneLocation bone - ∑ j in Finset.range (degree + 1),
            B.Weight (j : Int) •
              ((readAt InControlPoints (B.Index (j : Int))).map GetLocation).getD 0) →
      ∃ L, CalculateLocal.loop degree BoneLocation GetLocation Bones InKnots InControlPoints
          Denum k i Locals = some L ∧ L.length = Locals.length ∧
        ∀ m : Int, readAt L m =
          if (i : Int) ≤ m ∧ m < (i : Int) + (k : Int) then some (val m.toNat)
          else readAt Locals m := by
  induction k with
  | zero =>
    intro i Locals _ _
    refine ⟨Locals, rfl, rfl, fun m => ?_⟩
    have : ¬ ((i : Int) ≤ m ∧ m < (i : Int) + ((0 : Nat) : Int)) := by omega
    rw [if_neg this]
  | succ k ih =>
    intro i Locals hlen h
    obtain ⟨B, bone, hB, hbone, hcp, hval⟩ := h i le_rfl (by omega)
    have hin := CalculateLocal_inner_eq_sum GetLocation InControlPoints B (degree + 1) 0 0
      (fun t _ ht2 => hcp t (by omega))
    have hlt : ((i : Int)).toNat < Locals.length := by omega
    have hw : writeAt Locals (i : Int) (val i) = some (Locals.set i (val i)) := by
      have : ¬ ((i : Int) < 0) := by omega
      have hlt2 : i < Locals.length := by omega
      simp only [writeAt, this, if_false, Int.toNat_ofNat, if_pos hlt2]
    obtain ⟨L, hL, hLlen, hLread⟩ := ih (i + 1) (Locals.set i (val i))
      (by simp only [List.length_set]; omega)
      (fun t ht1 ht2 => h t (by omega) (by omega))
    refine ⟨L, ?_, by simpa using hLlen, fun m => ?_⟩
    · have hv : BoneLocation bone -
          (0 + ∑ t in Finset.range (degree + 1), B.Weight ((0 + t : Nat) : Int) •
            ((readAt InControlPoints (B.Index ((0 + t : Nat) : Int))).map GetLocation).getD 0) =
          val i := by
        rw [hval, zero_add]
        simp only [Nat.zero_add]
      simp only [CalculateLocal.loop, hB, TNurbsBasis.size, hin, hbone, Option.some_bind, hv,
        hw]
      exact hL
    · rw [hLread m, readAt_set _ _ _ _ (by omega)]
      by_cases hmi : m = (i : Int)
      · subst hmi
        have h2 : ¬ (((i + 1 : Nat) : Int) ≤ (i : Int) ∧
            (i : Int) < ((i + 1 : Nat) : Int) + (k : Int)) := by omega
        have h3 : (i : Int) ≤ (i : Int) ∧ (i : Int) < (i : Int) + ((k + 1 : Nat) : Int) := by
          omega
        rw [if_neg h2, if_pos h3, if_pos rfl, Int.toNat_ofNat]
      · by_cases hin2 : ((i + 1 : Nat) : Int) ≤ m ∧ m < ((i + 1 : Nat) : Int) + (k : Int)
        · have h3 : (i : Int) ≤ m ∧ m < (i : Int) + ((k + 1 : Nat) : Int) := by omega
          rw [if_pos hin2, if_pos h3]
        · have h3 : ¬ ((i : Int) ≤ m ∧ m < (i : Int) + ((k + 1 : Nat) : Int)) := by omega
          rw [if_neg hin2, if_neg h3, if_neg hmi]

/-- For `degrees ≥ 1` and knots of length `N > 3 degrees` the snapshot is
always produced, with a span of `[degrees, N - 2 degrees - 1]`. -/
theorem EvaluateNurbsBasis_total (degrees : Nat) (Knots : List ℚ) (Alpha : ℚ)
    (hp : 1 ≤ degrees) (hN : 3 * degrees < Knots.length) :
    ∃ B, EvaluateNurbsBasis degrees Knots Alpha = some B ∧
      (degrees : Int) ≤ B.SpanIndex ∧
      B.SpanIndex ≤ (Knots.length : Int) - 2 * (degrees : Int) - 1 := by
  obtain ⟨s, hs, h1, h2, -⟩ := FindSpan_spec degrees Knots (clamp Alpha 0 1) hp hN
  have hW := BasisFunction_eq degrees s Knots (clamp Alpha 0 1) (fun _ => 0)
    (fun m m1 m2 => by constructor <;> omega)
  exact ⟨⟨s, basisWeights Knots s (clamp Alpha 0 1) (fun _ => 0) degrees⟩,
    by simp only [EvaluateNurbsBasis, hs, hW, Option.some_bind, Option.map_some'], h1, h2⟩

/-- Claim C13: for a chain of `M ≥ 2` bones and an output buffer of at least
`M` entries, when for each bone the snapshot
`B_i = EvaluateNurbsBasis(InKnots, i / (M - 1))` is produced and its indices
lie inside the control transforms, `CalculateLocal` returns, and for every
`i` in `[0, M - 1]` it has written `Locals[i] = location(Bones[i]) -
sum over j in [0, degree] of B_i.Weight(j) * translation(InControlPoints[B_i.Index(j)])`;
the entries from `M` on (none for a buffer of `M` entries) are as they were.
Bones and control transforms are arguments that the function only reads. -/
theorem C13_rig_offsets (degree : Nat) {RigBone mat4 : Type}
    (BoneLocation : RigBone → vec3) (GetLocation : mat4 → vec3)
    (Bones : List RigBone) (InKnots : List ℚ) (InControlPoints : List mat4)
    (Locals : List vec3) (hM : 2 ≤ Bones.length) (hLocals : Bones.length ≤ Locals.length)
    (hvalid : ∀ i : Nat, i < Bones.length →
      ∃ B, EvaluateNurbsBasis degree InKnots ((i : ℚ) / ((Bones.length : ℚ) - 1)) = some B ∧
        ∀ j : Nat, j ≤ degree → ∃ cp, readAt InControlPoints (B.Index (j : Int)) = some cp) :
    ∃ L, CalculateLocal degree BoneLocation GetLocation Bones InKnots InControlPoints Locals =
        some L ∧ L.length = Locals.length ∧
      (∀ i : Nat, i < Bones.length →
        ∃ B bone,
          EvaluateNurbsBasis degree InKnots ((i : ℚ) / ((Bones.length : ℚ) - 1)) = some B ∧
          readAt Bones (i : Int) = some bone ∧
          readAt L (i : Int) = some (BoneLocation bone -
            ∑ j in Finset.range (degree + 1), B.Weight (j : Int) •
              ((readAt InControlPoints (B.Index (j : Int))).map GetLocation).getD 0)) ∧
      ∀ m : Int, (Bones.length : Int) ≤ m → readAt L m = readAt Locals m := by
  have hD : ∀ i : Nat, (i : ℚ) * (1 / ((Bones.length - 1 : Nat) : ℚ)) =
      (i : ℚ) / ((Bones.length : ℚ) - 1) := by
    intro i
    rw [mul_one_div, Nat.cast_sub (by omega : 1 ≤ Bones.length), Nat.cast_one]
  obtain ⟨b0, -⟩ := readAt_eq_some Bones 0 le_rfl (by omega)
  have hBf : ∀ i : Nat, i < Bones.length →
      EvaluateNurbsBasis degree InKnots ((i : ℚ) / ((Bones.length : ℚ) - 1)) =
        some ((EvaluateNurbsBasis degree InKnots ((i : ℚ) / ((Bones.length : ℚ) - 1))).getD
          ⟨0, fun _ => 0⟩) := by
    intro i hi
    obtain ⟨B, hB, -⟩ := hvalid i hi
    rw [hB]; rfl
  have hcpf : ∀ i : Nat, i < Bones.length → ∀ j : Nat, j ≤ degree →
      ∃ cp, readAt InControlPoints
        (((EvaluateNurbsBasis degree InKnots ((i : ℚ) / ((Bones.length : ℚ) - 1))).getD
          ⟨0, fun _ => 0⟩).Index (j : Int)) = some cp := by
    intro i hi
    obtain ⟨B, hB, hcp⟩ := hvalid i hi
    rw [hB]; exact hcp
  have hbonef : ∀ i : Nat, i < Bones.length →
      readAt Bones (i : Int) = some ((readAt Bones (i : Int)).getD b0) := by
    intro i hi
    obtain ⟨b, hb⟩ := readAt_eq_some Bones (i : Int) (by omega) (by omega)
    rw [hb]; rfl
  generalize hBdef : (fun i : Nat =>
    (EvaluateNurbsBasis degree InKnots ((i : ℚ) / ((Bones.length : ℚ) - 1))).getD
      ⟨0, fun _ => 0⟩) = Bf at *
  have hBf' : ∀ i : Nat, i < Bones.length →
      EvaluateNurbsBasis degree InKnots ((i : ℚ) / ((Bones.length : ℚ) - 1)) = some (Bf i) := by
    intro i hi; rw [← hBdef]; exact hBf i hi
  have hcpf' : ∀ i : Nat, i < Bones.length → ∀ j : Nat, j ≤ degree →
      ∃ cp, readAt InControlPoints ((Bf i).Index (j : Int)) = some cp := by
    intro i hi; rw [← hBdef]; exact hcpf i hi
  clear hBf hcpf
  have hBf := hBf'
  have hcpf := hcpf'
  generalize hbdef : (fun i : Nat => (readAt Bones (i : Int)).getD b0) = bonef
  have hbonef' : ∀ i : Nat, i < Bones.length → readAt Bones (i : Int) = some (bonef i) := by
    intro i hi; rw [← hbdef]; exact hbonef i hi
  clear hbonef
  have hbonef := hbonef'
  obtain ⟨L, hL, hlen, hread⟩ := CalculateLocal_loop_spec degree BoneLocation GetLocation Bones
    InKnots InControlPoints (1 / ((Bones.length - 1 : Nat) : ℚ))
    (fun i => BoneLocation (bonef i) - ∑ j in Finset.range (degree + 1),
      (Bf i).Weight (j : Int) •
        ((readAt InControlPoints ((Bf i).Index (j : Int))).map GetLocation).getD 0)
    Bones.length 0 Locals (by omega)
    (fun t _ ht => ⟨Bf t, bonef t, by rw [hD]; exact hBf t (by omega), hbonef t (by omega),
      hcpf t (by omega), rfl⟩)
  refine ⟨L, ?_, hlen, fun i hi => ⟨Bf i, bonef i, hBf i hi, hbonef i hi, ?_⟩, fun m hm => ?_⟩
  · simp only [CalculateLocal, if_neg (by omega : ¬ Bones.length ≤ 1)]
    exact hL
  · rw [hread (i : Int), if_pos (by constructor <;> omega), Int.toNat_ofNat]
  · rw [hread m, if_neg (by omega)]

/-- Witness of C13: degree 2, the open-clamped knots of length 8, five control
transforms, three bones and an output buffer of three entries. -/
theorem C13_rig_offsets_witness :
    ∃ L, CalculateLocal 2 (fun b : vec3 => b) (fun m : vec3 => m)
        [(0, 0, 0), (1, 1, 1), (2, 2, 2)] [0, 0, 0, 1 / 2, 1, 1, 1, 1]
        [(0, 0, 0), (1, 0, 0), (2, 1, 0), (3, 1, 0), (4, 0, 0)] [0, 0, 0] = some L ∧
      L = [(0, 0, 0), (-1 / 2, 1 / 2, 1), (-1, 1, 2)] := by
  obtain ⟨L, hL, -, -, -⟩ := C13_rig_offsets 2 (fun b : vec3 => b) (fun m : vec3 => m)
    [(0, 0, 0), (1, 1, 1), (2, 2, 2)] [0, 0, 0, 1 / 2, 1, 1, 1, 1]
    [(0, 0, 0), (1, 0, 0), (2, 1, 0), (3, 1, 0), (4, 0, 0)] [0, 0, 0] (by decide) (by decide)
    (fun i _ => by
      obtain ⟨B, hB, h1, h2⟩ := EvaluateNurbsBasis_total 2 [0, 0, 0, 1 / 2, 1, 1, 1, 1]
        ((i : ℚ) / ((([(0, 0, 0), (1, 1, 1), (2, 2, 2)] : List vec3).length : ℚ) - 1))
        (by decide) (by decide)
      refine ⟨B, hB, fun j hj => readAt_eq_some _ _ ?_ ?_⟩
      · simp only [TNurbsBasis.Index]; omega
      · simp only [TNurbsBasis.Index, List.length_cons, List.length_nil] at h2 ⊢; omega)
  refine ⟨L, hL, ?_⟩
  have e : CalculateLocal 2 (fun b : vec3 => b) (fun m : vec3 => m)
      [(0, 0, 0), (1, 1, 1), (2, 2, 2)] [0, 0, 0, 1 / 2, 1, 1, 1, 1]
      [(0, 0, 0), (1, 0, 0), (2, 1, 0), (3, 1, 0), (4, 0, 0)] [0, 0, 0] =
      some [(0, 0, 0), (-1 / 2, 1 / 2, 1), (-1, 1, 2)] := by
    with_unfolding_all decide
  rw [e] at hL
  exact (Option.some.inj hL).symm

/-! ## Quadratic solver -/

/-- What `SolveQuadratic` returns over an ordered field, for a `sqrt` that is a
positive square root of the discriminant when the discriminant is positive. -/
theorem SolveQuadratic_spec {F : Type} [LinearOrderedField F] (sqrt : F → F) (A B C : F)
    (hA : A ≠ 0)
    (hS : 0 < B * B - 4 * A * C →
      0 < sqrt (B * B - 4 * A * C) ∧
        sqrt (B * B - 4 * A * C) * sqrt (B * B - 4 * A * C) = B * B - 4 * A * C) :
    (0 < B * B - 4 * A * C →
      (SolveQuadratic sqrt A B C).Size = 2 ∧
      (SolveQuadratic sqrt A B C).get 0 = (-B + sqrt (B * B - 4 * A * C)) / (2 * A) ∧
      (SolveQuadratic sqrt A B C).get 1 = (-B - sqrt (B * B - 4 * A * C)) / (2 * A) ∧
      (SolveQuadratic sqrt A B C).get 0 ≠ (SolveQuadratic sqrt A B C).get 1) ∧
    (B * B - 4 * A * C = 0 →
      (SolveQuadratic sqrt A B C).Size = 1 ∧
      (SolveQuadratic sqrt A B C).get 0 = -B / (2 * A)) ∧
    (B * B - 4 * A * C < 0 → (SolveQuadratic sqrt A B C).Size = 0) ∧
    ∀ x : F, A * x ^ 2 + B * x + C = 0 ↔
      ∃ i : Nat, i < (SolveQuadratic sqrt A B C).Size ∧ (SolveQuadratic sqrt A B C).get i = x := by
  have h2A : (2 * A) ≠ 0 := mul_ne_zero two_ne_zero hA
  have hdisc : discrim A B C = B * B - 4 * A * C := by unfold discrim; ring
  have hsq : ∀ x : F, A * x ^ 2 + B * x + C = A * (x * x) + B * x + C := fun x => by ring
  rcases lt_trichotomy (B * B - 4 * A * C) 0 with hD | hD | hD
  · have hval : SolveQuadratic sqrt A B C = FQuadraticRoot.none := by
      simp only [SolveQuadratic, gt_iff_lt, if_neg (not_lt.mpr hD.le), if_neg hD.ne]
    refine ⟨fun h => absurd h (not_lt.mpr hD.le), fun h => absurd h hD.ne,
      fun _ => by rw [hval]; rfl, fun x => ?_⟩
    rw [hval, hsq]
    constructor
    · intro h
      exfalso
      refine quadratic_ne_zero_of_discrim_ne_sq (fun s hs => ?_) x h
      rw [hdisc] at hs
      have := sq_nonneg s
      rw [← hs] at this
      exact absurd hD (not_lt.mpr this)
    · rintro ⟨i, hi, -⟩
      exact absurd hi (Nat.not_lt_zero i)
  · have hval : SolveQuadratic sqrt A B C = FQuadraticRoot.one (-B * (1 / (2 * A))) := by
      simp only [SolveQuadratic, gt_iff_lt, hD, lt_irrefl, if_false, if_true]
    refine ⟨fun h => absurd h (by rw [hD]; exact lt_irrefl 0),
      fun _ => ⟨by rw [hval]; rfl, by rw [hval]; simp [FQuadraticRoot.one, FQuadraticRoot.get, div_eq_mul_inv]⟩,
      fun h => absurd h (by rw [hD]; exact lt_irrefl 0), fun x => ?_⟩
    rw [hval, hsq, quadratic_eq_zero_iff_of_discrim_eq_zero hA (by rw [hdisc, hD]) x]
    constructor
    · intro h
      exact ⟨0, Nat.zero_lt_one, by
        simp [FQuadraticRoot.one, FQuadraticRoot.get, h, div_eq_mul_inv]⟩
    · rintro ⟨i, hi, hx⟩
      have : i = 0 := Nat.lt_one_iff.mp hi
      subst this
      rw [← hx]
      simp [FQuadraticRoot.one, FQuadraticRoot.get, div_eq_mul_inv]
  · obtain ⟨hSpos, hSS⟩ := hS hD
    have hval : SolveQuadratic sqrt A B C =
        FQuadraticRoot.two ((-B + sqrt (B * B - 4 * A * C)) * (1 / (2 * A)))
          ((-B - sqrt (B * B - 4 * A * C)) * (1 / (2 * A))) := by
      simp only [SolveQuadratic, gt_iff_lt, if_pos hD]
    have g0 : (SolveQuadratic sqrt A B C).get 0 =
        (-B + sqrt (B * B - 4 * A * C)) / (2 * A) := by
      rw [hval]; simp [FQuadraticRoot.two, FQuadraticRoot.get, div_eq_mul_inv]
    have g1 : (SolveQuadratic sqrt A B C).get 1 =
        (-B - sqrt (B * B - 4 * A * C)) / (2 * A) := by
      rw [hval]; simp [FQuadraticRoot.two, FQuadraticRoot.get, div_eq_mul_inv]
    have hsz : (SolveQuadratic sqrt A B C).Size = 2 := by rw [hval]; rfl
    refine ⟨fun _ => ⟨hsz, g0, g1, ?_⟩, fun h => absurd h hD.ne',
      fun h => absurd h (not_lt.mpr hD.le), fun x => ?_⟩
    · rw [g0, g1]
      intro h
      have h' := (div_left_inj' h2A).mp h
      have : sqrt (B * B - 4 * A * C) = 0 := by linarith
      exact absurd this hSpos.ne'
    · rw [hsq, quadratic_eq_zero_iff hA (by rw [hdisc, hSS]) x, hsz]
      constructor
      · rintro (h | h)
        · exact ⟨0, by decide, by rw [g0, h]⟩
        · exact ⟨1, by decide, by rw [g1, h]⟩
      · rintro ⟨i, hi, hx⟩
        have : i = 0 ∨ i = 1 := by omega
        rcases this with rfl | rfl
        · left; rw [← hx, g0]
        · right; rw [← hx, g1]

/-- Claim C17: over the reals, with the real square root for `std::sqrt`, for
every `A ≠ 0`, `B`, `C` and `D = B^2 - 4AC`: `SolveQuadratic` returns the two
distinct roots `(-B + sqrt D) / (2A)` and `(-B - sqrt D) / (2A)` with
`Size() = 2` when `D > 0`, the single root `-B / (2A)` with `Size() = 1` when
`D = 0`, no root when `D < 0`, and the roots it returns are exactly the real
solutions of `A x^2 + B x + C = 0`. -/
theorem C17_SolveQuadratic (A B C : ℝ) (hA : A ≠ 0) :
    (0 < B * B - 4 * A * C →
      (SolveQuadratic Real.sqrt A B C).Size = 2 ∧
      (SolveQuadratic Real.sqrt A B C).get 0 =
        (-B + Real.sqrt (B * B - 4 * A * C)) / (2 * A) ∧
      (SolveQuadratic Real.sqrt A B C).get 1 =
        (-B - Real.sqrt (B * B - 4 * A * C)) / (2 * A) ∧
      (SolveQuadratic Real.sqrt A B C).get 0 ≠ (SolveQuadratic Real.sqrt A B C).get 1) ∧
    (B * B - 4 * A * C = 0 →
      (SolveQuadratic Real.sqrt A B C).Size = 1 ∧
      (SolveQuadratic Real.sqrt A B C).get 0 = -B / (2 * A)) ∧
    (B * B - 4 * A * C < 0 → (SolveQuadratic Real.sqrt A B C).Size = 0) ∧
    ∀ x : ℝ, A * x ^ 2 + B * x + C = 0 ↔
      ∃ i : Nat, i < (SolveQuadratic Real.sqrt A B C).Size ∧
        (SolveQuadratic Real.sqrt A B C).get i = x :=
  SolveQuadratic_spec Real.sqrt A B C hA
    (fun h => ⟨Real.sqrt_pos.mpr h, Real.mul_self_sqrt h.le⟩)

/-- Witness of C17: the equation `x^2 - 1 = 0`, which has two roots. -/
theorem C17_SolveQuadratic_witness :
    (1 : ℝ) ≠ 0 ∧ (SolveQuadratic Real.sqrt 1 0 (-1)).Size = 2 ∧
    ∀ x : ℝ, 1 * x ^ 2 + 0 * x + (-1) = 0 ↔
      ∃ i : Nat, i < (SolveQuadratic Real.sqrt 1 0 (-1)).Size ∧
        (SolveQuadratic Real.sqrt 1 0 (-1)).get i = x :=
  ⟨one_ne_zero, ((C17_SolveQuadratic 1 0 (-1) one_ne_zero).1 (by norm_num)).1,
    (C17_SolveQuadratic 1 0 (-1) one_ne_zero).2.2.2⟩

/-- The solver evaluated on rationals for `x^2 - 1 = 0`, with a square root
that is exact at the discriminant 4: the roots `1` and `-1`. -/
theorem SolveQuadratic_example :
    (SolveQuadratic (fun d : ℚ => if d = 4 then 2 else 0) 1 0 (-1)).Size = 2 ∧
    (SolveQuadratic (fun d : ℚ => if d = 4 then 2 else 0) 1 0 (-1)).get 0 = 1 ∧
    (SolveQuadratic (fun d : ℚ => if d = 4 then 2 else 0) 1 0 (-1)).get 1 = -1 := by
  refine ⟨by with_unfolding_all decide, by with_unfolding_all decide, ?_⟩
  with_unfolding_all decide

/-! ## Pole vector -/

/-- Claim C18 evaluated on aligned points.  `Root = (0,0,0)`,
`Mid = (101/100, 0, 0)` and `Tip = (2,0,0)` lie on one line; `Pole` takes its
fallback branch and returns `(Tip + Root) / 2 + Rotation * PoleDir * Distance`,
that is `(1,0,0) + ...`, which differs from the documented
`Mid + Rotation * PoleDir * Distance` for every rotation, direction and
distance. -/
theorem C18_pole_aligned_fallback {quat : Type} (rotate : quat → vec3 → vec3)
    (normalize : vec3 → vec3) (Rotation : quat) (PoleDir : vec3) (Distance : ℚ) :
    Pole rotate normalize (0, 0, 0) (101 / 100, 0, 0) (2, 0, 0) Rotation PoleDir Distance =
        ((1, 0, 0) : vec3) + Distance • rotate Rotation PoleDir ∧
      Pole rotate normalize (0, 0, 0) (101 / 100, 0, 0) (2, 0, 0) Rotation PoleDir Distance ≠
        ((101 / 100, 0, 0) : vec3) + Distance • rotate Rotation PoleDir := by
  have hV : length2 (((101 / 100, 0, 0) : vec3) - (1, 0, 0)) ≤ 1 / 1000 := by
    norm_num [length2, dot]
  have hM : (1 / 2 : ℚ) • (((2, 0, 0) : vec3) + (0, 0, 0)) = (1, 0, 0) := by
    ext <;> norm_num
  have hval : Pole rotate normalize (0, 0, 0) (101 / 100, 0, 0) (2, 0, 0) Rotation PoleDir
      Distance = ((1, 0, 0) : vec3) + Distance • rotate Rotation PoleDir := by
    simp only [Pole, hM, if_pos hV]
  refine ⟨hval, ?_⟩
  rw [hval]
  intro h
  have h1 := congrArg Prod.fst h
  simp only [Prod.fst_add] at h1
  norm_num at h1

/-- Aligned points away from the midpoint: with `Root = (0,0,0)`,
`Mid = (1,0,0)`, `Tip = (4,0,0)` and a `normalize` that is exact on `(2,0,0)`,
`Pole` does not take its fallback branch; it returns `Mid` plus `Distance`
times the normalisation of the zero vector. -/
theorem Pole_aligned_off_midpoint {quat : Type} (rotate : quat → vec3 → vec3)
    (normalize : vec3 → vec3) (Rotation : quat) (PoleDir : vec3) (Distance : ℚ)
    (hn : normalize (2, 0, 0) = (1, 0, 0)) :
    Pole rotate normalize (0, 0, 0) (1, 0, 0) (4, 0, 0) Rotation PoleDir Distance =
      ((1, 0, 0) : vec3) + Distance • normalize (0, 0, 0) := by
  have hV : ¬ length2 (((1, 0, 0) : vec3) - (2, 0, 0)) ≤ 1 / 1000 := by
    norm_num [length2, dot]
  have hM : (1 / 2 : ℚ) • (((4, 0, 0) : vec3) + (0, 0, 0)) = (2, 0, 0) := by
    ext <;> norm_num
  have hX : ((2, 0, 0) : vec3) - (0, 0, 0) = (2, 0, 0) := by ext <;> norm_num
  have hA : dot (((1, 0, 0) : vec3) - (0, 0, 0)) (1, 0, 0) = 1 := by norm_num [dot]
  have hC : ((0, 0, 0) : vec3) + (1 : ℚ) • ((1, 0, 0) : vec3) = (1, 0, 0) := by
    ext <;> norm_num
  have hP : ((1, 0, 0) : vec3) - (1, 0, 0) = (0, 0, 0) := by ext <;> norm_num
  have hdot : ¬ dot ((0, 0, 0) : vec3) (Distance • rotate Rotation PoleDir) < 0 := by
    norm_num [dot]
  simp only [Pole, hM, if_neg hV, hX, hn, hA, hC, hP, if_neg hdot]
  ext <;> simp

/-! ## Control points that are never read -/

/-- Claim C21: for `degrees ≥ 1`, every knot vector of length `N > 3 degrees`
and every `Alpha`, each control-point index `span - degrees + i` read by
`EvaluateNurbsCurve`, and each `Index(i)` of the snapshot returned by
`EvaluateNurbsBasis`, lies in `[0, N - 2 degrees - 1]`; hence for two
control-point sequences of length `N - degrees - 1` that agree on the indices
`[0, N - 2 degrees - 1]`, `EvaluateNurbsCurve` returns the same point (so the
last `degrees - 1` control points have no effect). -/
theorem C21_trailing_points_unread (degrees : Nat) (Points1 Points2 : List vec3)
    (Knots : List ℚ) (Alpha : ℚ) (hp : 1 ≤ degrees) (hN : 3 * degrees < Knots.length)
    (hL1 : Points1.length = Knots.length - degrees - 1)
    (hL2 : Points2.length = Knots.length - degrees - 1)
    (hagree : ∀ i : Int, 0 ≤ i → i ≤ (Knots.length : Int) - 2 * (degrees : Int) - 1 →
      readAt Points1 i = readAt Points2 i) :
    (∃ s, PImplNurbsCurve.FindSpan degrees Knots (clamp Alpha 0 1) = some s ∧
      ∀ i : Nat, i ≤ degrees →
        0 ≤ s - (degrees : Int) + (i : Int) ∧
          s - (degrees : Int) + (i : Int) ≤ (Knots.length : Int) - 2 * (degrees : Int) - 1) ∧
    (∃ B, EvaluateNurbsBasis degrees Knots Alpha = some B ∧
      ∀ i : Nat, i ≤ degrees →
        0 ≤ B.Index (i : Int) ∧
          B.Index (i : Int) ≤ (Knots.length : Int) - 2 * (degrees : Int) - 1) ∧
    ∃ P, EvaluateNurbsCurve degrees Points1 Knots Alpha = some P ∧
      EvaluateNurbsCurve degrees Points2 Knots Alpha = some P := by
  obtain ⟨s, hs, h1, h2, -⟩ := FindSpan_spec degrees Knots (clamp Alpha 0 1) hp hN
  obtain ⟨B, hB, hB1, hB2⟩ := EvaluateNurbsBasis_total degrees Knots Alpha hp hN
  have hW := BasisFunction_eq degrees s Knots (clamp Alpha 0 1) (fun _ => 0)
    (fun m m1 m2 => by constructor <;> omega)
  have hE : ∀ Points : List vec3, Points.length = Knots.length - degrees - 1 →
      EvaluateNurbsCurve degrees Points Knots Alpha =
        some (0 + ∑ t in Finset.range (degrees + 1),
          basisWeights Knots s (clamp Alpha 0 1) (fun _ => 0) degrees (0 + t) •
            pointAt Points (s - (degrees : Int) + ((0 + t : Nat) : Int))) := by
    intro Points hL
    have hL' := loop_eq_sum degrees Points s
      (basisWeights Knots s (clamp Alpha 0 1) (fun _ => 0) degrees) (degrees + 1) 0 0
      (fun t t1 t2 => by constructor <;> omega)
    simp only [EvaluateNurbsCurve, hs, hW, Option.some_bind]
    exact hL'
  refine ⟨⟨s, hs, fun i hi => by omega⟩,
    ⟨B, hB, fun i hi => by simp only [TNurbsBasis.Index]; omega⟩, _, hE Points1 hL1, ?_⟩
  rw [hE Points2 hL2]
  congr 2
  apply Finset.sum_congr rfl
  intro t ht
  have ht' := Finset.mem_range.mp ht
  simp only [pointAt]
  rw [hagree _ (by omega) (by omega)]

/-- Witness of C21: degree 2, the open-clamped knots of length 8, and two
sequences of five control points that differ in the last one only; both give
`(3, 1, 0)` at `Alpha = 1`. -/
theorem C21_trailing_points_unread_witness :
    EvaluateNurbsCurve 2 [(0, 0, 0), (1, 0, 0), (2, 1, 0), (3, 1, 0), (4, 0, 0)]
        [0, 0, 0, 1 / 2, 1, 1, 1, 1] 1 = some (3, 1, 0) ∧
      EvaluateNurbsCurve 2 [(0, 0, 0), (1, 0, 0), (2, 1, 0), (3, 1, 0), (9, 9, 9)]
        [0, 0, 0, 1 / 2, 1, 1, 1, 1] 1 = some (3, 1, 0) := by
  obtain ⟨-, -, P, hP1, hP2⟩ := C21_trailing_points_unread 2
    [(0, 0, 0), (1, 0, 0), (2, 1, 0), (3, 1, 0), (4, 0, 0)]
    [(0, 0, 0), (1, 0, 0), (2, 1, 0), (3, 1, 0), (9, 9, 9)]
    [0, 0, 0, 1 / 2, 1, 1, 1, 1] 1 (by decide) (by decide) (by decide) (by decide)
    (fun i h0 h1 => by
      have h1' : i ≤ 3 := by
        simp only [List.length_cons, List.length_nil] at h1; omega
      have hi : i = 0 ∨ i = 1 ∨ i = 2 ∨ i = 3 := by omega
      rcases hi with rfl | rfl | rfl | rfl <;> rfl)
  have e : EvaluateNurbsCurve 2 [(0, 0, 0), (1, 0, 0), (2, 1, 0), (3, 1, 0), (4, 0, 0)]
      [0, 0, 0, 1 / 2, 1, 1, 1, 1] 1 = some (3, 1, 0) := by with_unfolding_all decide
  have hPe : P = (3, 1, 0) := Option.some.inj (hP1.symm.trans e)
  rw [hPe] at hP2
  exact ⟨e, hP2⟩

end Maths
